import Mathlib

/-!
# Blockstamp games verification (`src/games/gamesverify.cpp`)

A shallow embedding of the bet-script matcher `isInputBet` and of the bet
descriptor extractor `getBetType_`, with the properties of the specification
stated and proved over it.

Conventions of the embedding

* A script (`CScript`, a `prevector<28, unsigned char>`) is a `List Nat` of its
  bytes.  An iterator into a script is the integer offset from `begin()`, so
  `end()` is the length of the list and `it - n` is integer subtraction.
* Dereferencing an iterator outside `[begin(), end())` is undefined behaviour in
  C++.  The embedding makes it observable: every read goes through `rd`, which
  yields `Fault.outOfRange` there, and a function body stops at the first such
  read.
* `return false` in the middle of a body is `Fault.returnFalse`.
* A C++ exception is a result of its own: `Fault.lengthError` for the
  `std::length_error` of a `std::string` range constructor, which a `catch` of a
  caller can handle.
* `CAmount` is `int64_t`: every sum, difference and product of `CAmount` values is
  taken in 64-bit two's complement (`toInt64`).
* What a function returns after a read outside a buffer that does not stop the run is
  stated on a second reading of `getBetType_`, `isInputBet` and the per-input
  `txVerify` (`getBetTypeAny`, `isInputBetAny`, `txVerifyInputAny`), in which such a
  read yields an unspecified value, a parameter of type `Stray`.
-/

namespace Bst

/-! ## Opcodes -/

/-- Modelled from the spec: the opcode constants come from `script/script.h`, which is
not among the sources of the games subsystem; they carry the standard script values. -/
def OP_FALSE : Nat := 0x00
/-- Modelled from the spec: opcode of `script/script.h` (standard value). -/
def OP_TRUE : Nat := 0x51
/-- Modelled from the spec: opcode of `script/script.h` (standard value). -/
def OP_IF : Nat := 0x63
/-- Modelled from the spec: opcode of `script/script.h` (standard value). -/
def OP_ELSE : Nat := 0x67
/-- Modelled from the spec: opcode of `script/script.h` (standard value). -/
def OP_ENDIF : Nat := 0x68
/-- Modelled from the spec: opcode of `script/script.h` (standard value). -/
def OP_RETURN : Nat := 0x6a
/-- Modelled from the spec: opcode of `script/script.h` (standard value). -/
def OP_DROP : Nat := 0x75
/-- Modelled from the spec: opcode of `script/script.h` (standard value). -/
def OP_DUP : Nat := 0x76
/-- Modelled from the spec: opcode of `script/script.h` (standard value). -/
def OP_EQUAL : Nat := 0x87
/-- Modelled from the spec: opcode of `script/script.h` (standard value). -/
def OP_EQUALVERIFY : Nat := 0x88
/-- Modelled from the spec: opcode of `script/script.h` (standard value). -/
def OP_HASH160 : Nat := 0xa9
/-- Modelled from the spec: opcode of `script/script.h` (standard value). -/
def OP_CHECKSIG : Nat := 0xac

/-! ## Reading a script -/

/-- Why a function body stopped before its last statement. -/
inductive Fault where
  /-- an iterator was dereferenced outside the script (undefined behaviour) -/
  | outOfRange
  /-- the body executed `return false` -/
  | returnFalse
  /-- a `std::string` range constructor was given a first iterator behind the last one
  and threw `std::length_error` -/
  | lengthError
  deriving DecidableEq, Repr

/-- The dereference `*it` of an iterator at offset `i` of script `s`. -/
def rd (s : List Nat) (i : Int) : Except Fault Nat :=
  match i with
  | Int.ofNat k =>
    match s[k]? with
    | some b => .ok b
    | none => .error .outOfRange
  | Int.negSucc _ => .error .outOfRange

/-- The reads of `std::copy_n(first, n, out)` and of the range constructor
`std::vector<unsigned char>(first, first + n)`: the `n` bytes at offsets
`first, first+1, ...`, in that order. -/
def copy_n (s : List Nat) (first : Int) : Nat → Except Fault (List Nat)
  | 0 => .ok []
  | n + 1 => do
    let b ← rd s first
    let bs ← copy_n s (first + 1) n
    pure (b :: bs)

/-- The array `out` after `std::copy_n` has written `bytes` over its first elements. -/
def overwrite (out bytes : List Nat) : List Nat :=
  bytes ++ out.drop bytes.length

/-- The loop of `filterCompare` (lines 22-26), from index `i` on: `data` and `mask`
are what is left of the two arrays. -/
def filterCompareLoop : List Nat → List Nat → Bool
  | _, [] => true
  | [], _ :: _ => false
  | d :: data, m :: mask =>
    if m ≠ 0xFF ∧ m ≠ d then false else filterCompareLoop data mask

/-- `filterCompare(data, mask)` (lines 17-28). -/
def filterCompare (data mask : List Nat) : Bool :=
  if data.length < mask.length then false else filterCompareLoop data mask

/-- Modelled from the spec: `array2type` is declared in `games/gamesutils.h`, which is
not among the sources; the spec describes the value as the 32-bit little-endian decoding
of the field.  This is the unsigned value of the bytes, least significant first. -/
def leValue : List Nat → Nat
  | [] => 0
  | b :: bs => b + 256 * leValue bs

/-- Modelled from the spec: `array2type(v, out)` for `int out` (`games/gamesutils.h` is
not among the sources): the signed 32-bit little-endian value of the bytes. -/
def array2type (v : List Nat) : Int :=
  let u : Nat := leValue v % 2 ^ 32
  if u < 2 ^ 31 then (u : Int) else (u : Int) - 2 ^ 32

/-! ## `isInputBet` (lines 30-134) -/

/-- `byte_mask` (line 31). -/
def byte_mask : List Nat :=
  [OP_ELSE, OP_DROP, OP_FALSE, OP_ENDIF, 0xFF, 0xFF, 0xFF, 0xFF, 0xFF, OP_DROP]

/-- `byte_mask2` (line 66). -/
def byte_mask2 : List Nat := [OP_EQUAL, OP_IF, OP_DROP, OP_TRUE, OP_ELSE]

/-- `byte_mask3` (line 93). -/
def byte_mask3 : List Nat := [OP_EQUALVERIFY, OP_CHECKSIG, OP_IF]

/-- `byte_mask4` (line 103). -/
def byte_mask4 : List Nat := [OP_DUP, OP_HASH160]

/-- The counting loop of lines 42-50, entered with `numOfBetsNumbers = n` and
`fuel = 18 - n` iterations left; the result is `numOfBetsNumbers` when the loop is left
(by `break` or because `numOfBetsNumbers < 18` fails). -/
def countLoop (s : List Nat) (it_end : Int) : Nat → Nat → Except Fault Nat
  | 0, n => .ok n
  | fuel + 1, n => do
    let b ← rd s (it_end - n)
    if b = OP_TRUE then pure n
    else do
      let b ← rd s (it_end - n)
      if b ≠ OP_ENDIF then throw .returnFalse
      else countLoop s it_end fuel (n + 1)

/-- The loop of lines 68-91 with `k` iterations left.  The state is the iterator
`it_end`, the scratch array `input_script_chunk` and the vector `betNumbers`. -/
def betLoop (s : List Nat) :
    Nat → Int → List Nat → List Int → Except Fault (Int × List Nat × List Int)
  | 0, it_end, chunk, betNumbers => .ok (it_end, chunk, betNumbers)
  | k + 1, it_end, chunk, betNumbers => do
    let bytes ← copy_n s (it_end - 5) 5
    let chunk := overwrite chunk bytes
    if !filterCompare chunk byte_mask2 then throw .returnFalse
    let it_end := it_end - 5
    let betNumber_ ← copy_n s (it_end - 4) 4
    let it_end := it_end - (4 + 2)
    let b ← rd s it_end
    if b ≠ OP_DUP then throw .returnFalse
    let betNumber := array2type betNumber_
    betLoop s k it_end chunk (betNumbers ++ [betNumber])

/-- Lines 113-121: the forward iterator `it_begin` after the three pushes and the
length header of the redeem script. -/
def forwardCursor (s : List Nat) : Except Fault Int := do
  let it_begin : Int := 0
  let b ← rd s it_begin
  let it_begin := it_begin + (b + 1)
  let b ← rd s it_begin
  let it_begin := it_begin + (b + 1)
  let b ← rd s it_begin
  let it_begin := it_begin + (b + 1)
  let b ← rd s it_begin
  let it_begin := if b = 0x4c then it_begin + 1 else it_begin
  pure (it_begin + 1)

/-- Lines 93-127 of `isInputBet` as a function of the locals they start from: the two
closing templates and the comparison of the two iterators. -/
def isInputBetTail (s : List Nat) (it_end : Int) (input_script_chunk : List Nat)
    (numOfBetsNumbers : Nat) (betNumbers : List Int) : Except Fault (Nat × List Int) := do
  let bytes ← copy_n s (it_end - 3) 3
  let input_script_chunk := overwrite input_script_chunk bytes
  if !filterCompare input_script_chunk byte_mask3 then throw .returnFalse
  let it_end := it_end - (3 + 21)
  let bytes ← copy_n s (it_end - 2) 2
  let input_script_chunk := overwrite input_script_chunk bytes
  if !filterCompare input_script_chunk byte_mask4 then throw .returnFalse
  let it_end := it_end - 2
  let it_begin ← forwardCursor s
  if it_end ≠ it_begin then throw .returnFalse
  pure (numOfBetsNumbers, betNumbers)

/-- Lines 54-127 of `isInputBet` as a function of the locals they start from (`it_end`
as line 52 leaves it). -/
def isInputBetMid (s : List Nat) (it_end : Int) (input_script_chunk : List Nat)
    (numOfBetsNumbers : Nat) : Except Fault (Nat × List Int) := do
  let b ← rd s it_end
  if b ≠ OP_EQUALVERIFY then throw .returnFalse
  let betNumber_ ← copy_n s (it_end - 4) 4
  let betNumber := array2type betNumber_
  let betNumbers := [betNumber]
  let it_end := it_end - 5
  let (it_end, input_script_chunk, betNumbers) ←
    betLoop s (numOfBetsNumbers - 1) it_end input_script_chunk betNumbers
  isInputBetTail s it_end input_script_chunk numOfBetsNumbers betNumbers

/-- Lines 31-127 of `isInputBet`: the body up to the writes to the out-parameters.  The
result is the pair of locals `(numOfBetsNumbers, betNumbers)` with which line 129 is
reached. -/
def isInputBetBody (s : List Nat) : Except Fault (Nat × List Int) := do
  let size : Int := s.length
  -- lines 31-38
  let input_script_chunk ← copy_n s (size - 10) 10
  if !filterCompare input_script_chunk byte_mask then throw .returnFalse
  -- lines 40-52
  let it_end : Int := size - (10 + 1)
  let numOfBetsNumbers ← countLoop s it_end 18 0
  let numOfBetsNumbers := numOfBetsNumbers + 1
  let it_end := it_end - numOfBetsNumbers
  -- lines 54-64
  let b ← rd s it_end
  if b ≠ OP_EQUALVERIFY then throw .returnFalse
  let betNumber_ ← copy_n s (it_end - 4) 4
  let betNumber := array2type betNumber_
  let betNumbers := [betNumber]
  let it_end := it_end - 5
  -- lines 66-91
  let (it_end, input_script_chunk, betNumbers) ←
    betLoop s (numOfBetsNumbers - 1) it_end input_script_chunk betNumbers
  -- lines 93-101
  let bytes ← copy_n s (it_end - 3) 3
  let input_script_chunk := overwrite input_script_chunk bytes
  if !filterCompare input_script_chunk byte_mask3 then throw .returnFalse
  let it_end := it_end - (3 + 21)
  -- lines 103-111
  let bytes ← copy_n s (it_end - 2) 2
  let input_script_chunk := overwrite input_script_chunk bytes
  if !filterCompare input_script_chunk byte_mask4 then throw .returnFalse
  let it_end := it_end - 2
  -- lines 113-127
  let it_begin ← forwardCursor s
  if it_end ≠ it_begin then throw .returnFalse
  pure (numOfBetsNumbers, betNumbers)

/-- What a call of `isInputBet` leaves behind: the returned boolean and the two
out-parameters. -/
structure BetResult where
  ret : Bool
  numOfBetsNumbers : Nat
  betNumbers : List Int
  deriving DecidableEq, Repr

/-- `isInputBet(input, &numOfBetsNumbers_, &betNumbers_)` on the input's `scriptSig`,
the out-parameters holding `num0` and `bets0` before the call.  `none` is a run that
reads outside the script (the body constructs no string, so `Fault.lengthError` does not
occur). -/
def isInputBet (scriptSig : List Nat) (num0 : Nat) (bets0 : List Int) : Option BetResult :=
  match isInputBetBody scriptSig with
  | .error .outOfRange => none
  | .error .lengthError => none
  | .error .returnFalse => some ⟨false, num0, bets0⟩
  | .ok (numOfBetsNumbers, betNumbers) =>
    -- lines 129-133
    some ⟨true, numOfBetsNumbers, bets0 ++ betNumbers⟩


/-! ## `getBetType_` and `getBetType` (lines 281-336) -/

/-- A transaction output (`CTxOut`): its value and its locking script. -/
structure CTxOut where
  nValue : Int
  scriptPubKey : List Nat
  deriving DecidableEq, Repr

/-- The range constructor `std::string(it_beg + k, it_end)` on a script: the bytes from
offset `k` to the end.  With `it_beg + k` past `it_end` the distance of the two
iterators is negative and the constructor throws `std::length_error` before it reads a
byte. -/
def strFrom (s : List Nat) (k : Nat) : Except Fault (List Nat) :=
  if k ≤ s.length then .ok (s.drop k) else .error .lengthError

/-- The scan of lines 284-327 over the outputs `vout[i], vout[i+1], ...` that are left.
The result is the returned string and the value of `idx` at the return (`idx = 0` is
set at line 283 and overwritten at line 319 only).  `memcpy` into the zeroed
`unsigned int length` is the little-endian value of the copied bytes (a little-endian
host). -/
def getBetTypeScan : List CTxOut → Nat → Except Fault (List Nat × Nat)
  | [], _ => .ok ([], 0)
  | out :: rest, i => do
    let s := out.scriptPubKey
    let order ← rd s 1
    let first ← rd s 0
    if first = OP_RETURN then
      if order ≤ 0x4b then do
        let hexStr ← strFrom s 2
        let lenBytes ← copy_n s 1 1
        let length := leValue lenBytes
        if hexStr.length ≠ length then pure ([], i) else pure (hexStr, i)
      else if order = 0x4c then do
        let hexStr ← strFrom s 3
        let lenBytes ← copy_n s 2 1
        let length := leValue lenBytes
        if hexStr.length ≠ length then pure ([], i) else pure (hexStr, i)
      else if order = 0x4d then do
        let hexStr ← strFrom s 4
        let lenBytes ← copy_n s 2 2
        let length := leValue lenBytes
        if hexStr.length ≠ length then pure ([], i) else pure (hexStr, i)
      else if order = 0x4e then do
        let hexStr ← strFrom s 6
        let lenBytes ← copy_n s 2 4
        let length := leValue lenBytes
        if hexStr.length ≠ length then pure ([], i) else pure (hexStr, i)
      else pure ([], 0)
    else getBetTypeScan rest (i + 1)

/-- `getBetType_(tx, idx)` on the outputs of `tx`: the returned string and `idx`.  The
loop starts at output 1. -/
def getBetType_ (vout : List CTxOut) : Except Fault (List Nat × Nat) :=
  getBetTypeScan (vout.drop 1) 1

/-- `getBetType(tx)` on the outputs of `tx`. -/
def getBetType (vout : List CTxOut) : Except Fault (List Nat) := do
  let (hexStr, _) ← getBetType_ vout
  pure hexStr

/-! ## The script shapes the specification speaks about -/

/-- A direct push: the length byte, then the data. -/
def directPush (data : List Nat) : List Nat := data.length :: data

/-- The length header of a redeem script of `len` bytes: the marker `0x4c` when `len`
exceeds 75, then one length byte. -/
def lengthHeader (len : Nat) : List Nat :=
  if 75 < len then [0x4c, len] else [len]

/-- One link of the chain of a redeem script, for a number with push byte `g.1` and
4-byte field `g.2`: `OP_DUP <push byte> <4 bytes> OP_EQUAL OP_IF OP_DROP OP_TRUE OP_ELSE`. -/
def betLink (g : Nat × List Nat) : List Nat :=
  [OP_DUP, g.1] ++ g.2 ++ [OP_EQUAL, OP_IF, OP_DROP, OP_TRUE, OP_ELSE]

/-- The redeem script of a bet on the numbers `init ++ [last]` (each a push byte and a
4-byte field), with public-key hash region `pkh` and the five free bytes `tail5`. -/
def redeemScript (pkh : List Nat) (init : List (Nat × List Nat)) (last : Nat × List Nat)
    (tail5 : List Nat) : List Nat :=
  [OP_DUP, OP_HASH160] ++ pkh ++ [OP_EQUALVERIFY, OP_CHECKSIG, OP_IF]
    ++ (init.map betLink).flatten
    ++ ([last.1] ++ last.2 ++ [OP_EQUALVERIFY, OP_TRUE])
    ++ List.replicate init.length OP_ENDIF
    ++ ([OP_ELSE, OP_DROP, OP_FALSE, OP_ENDIF] ++ tail5 ++ [OP_DROP])

/-- The scriptSig that redeems a bet: three direct pushes, the length header and the
redeem script. -/
def betScriptSig (d1 d2 d3 pkh : List Nat) (init : List (Nat × List Nat))
    (last : Nat × List Nat) (tail5 : List Nat) : List Nat :=
  directPush d1 ++ directPush d2 ++ directPush d3
    ++ lengthHeader (31 + 12 * (init.length + 1))
    ++ redeemScript pkh init last tail5

/-- The forward cursor as the specification computes it: `i1 = s[0]+1`,
`i2 = i1+s[i1]+1`, `i3 = i2+s[i2]+1`, and `i3+2` if `s[i3] = 0x4c`, else `i3+1`. -/
def specForwardCursor (s : List Nat) : Nat :=
  let i1 := s.getD 0 0 + 1
  let i2 := i1 + s.getD i1 0 + 1
  let i3 := i2 + s.getD i2 0 + 1
  if s.getD i3 0 = 0x4c then i3 + 2 else i3 + 1

/-- The byte the template fixes in a link `OP_DUP <push byte> <4 bytes> OP_EQUAL OP_IF
OP_DROP OP_TRUE OP_ELSE`, counted from the end of the link (`q = 0` is `OP_ELSE`);
`none` for the push byte and the four bytes of the number. -/
def linkFixed (q : Nat) : Option Nat :=
  match q with
  | 0 => some OP_ELSE
  | 1 => some OP_TRUE
  | 2 => some OP_DROP
  | 3 => some OP_IF
  | 4 => some OP_EQUAL
  | 10 => some OP_DUP
  | _ => none

/-- The byte the template fixes at distance `d` from the end of the script (`d = 1` is
the last byte) in a match that reports `N` numbers; `none` where the template leaves
the byte free or says nothing.  From the end: the trailing window, the chain of
`OP_ENDIF`, the `OP_TRUE` terminator, `OP_EQUALVERIFY`, the last number, then `N - 1`
links, the closing `OP_EQUALVERIFY OP_CHECKSIG OP_IF`, the public-key hash region and
`OP_DUP OP_HASH160`. -/
def fixedByte (N d : Nat) : Option Nat :=
  if d = 1 then some OP_DROP
  else if d = 7 then some OP_ENDIF
  else if d = 8 then some OP_FALSE
  else if d = 9 then some OP_DROP
  else if d = 10 then some OP_ELSE
  else if 11 ≤ d ∧ d < 10 + N then some OP_ENDIF
  else if d = 10 + N then some OP_TRUE
  else if d = 11 + N then some OP_EQUALVERIFY
  else if 17 + N ≤ d ∧ d ≤ 12 * N + 5 then linkFixed ((d - (17 + N)) % 11)
  else if d = 12 * N + 6 then some OP_IF
  else if d = 12 * N + 7 then some OP_CHECKSIG
  else if d = 12 * N + 8 then some OP_EQUALVERIFY
  else if d = 12 * N + 30 then some OP_HASH160
  else if d = 12 * N + 31 then some OP_DUP
  else none

/-- The push-length headers and the length each declares: the single byte `L` when
`L ≤ 0x4b`; `0x4c` and one length byte; `0x4d` and two little-endian length bytes;
`0x4e` and four little-endian length bytes. -/
inductive LengthHeader : List Nat → Nat → Prop where
  | direct (L : Nat) (h : L ≤ 0x4b) : LengthHeader [L] L
  | pushdata1 (L : Nat) : LengthHeader [0x4c, L] L
  | pushdata2 (b0 b1 : Nat) : LengthHeader [0x4d, b0, b1] (b0 + 256 * b1)
  | pushdata4 (b0 b1 b2 b3 : Nat) :
      LengthHeader [0x4e, b0, b1, b2, b3] (b0 + 256 * b1 + 65536 * b2 + 16777216 * b3)

/-- The script starts with `OP_RETURN`. -/
def startsWithReturn (o : CTxOut) : Prop := o.scriptPubKey.head? = some OP_RETURN

instance (o : CTxOut) : Decidable (startsWithReturn o) := by
  unfold startsWithReturn; infer_instance


/-- A scriptSig that encodes nineteen numbers `0, 1, ..., 18`: three direct pushes, a
two-byte length header, and the redeem script of the template with eighteen links,
eighteen `OP_ENDIF` and the `OP_TRUE` terminator. -/
def nineteenBets : List Nat :=
  directPush [1] ++ directPush [2] ++ directPush [3] ++ [0x4c, 3]
    ++ redeemScript (List.replicate 21 9)
        ((List.range 18).map fun i => (4, [i, 0, 0, 0])) (4, [18, 0, 0, 0]) [4, 0, 0, 0, 0]

/-! ## Transactions, ledger lookups and injected policies -/

/-- An outpoint (`COutPoint`): the id of the prior transaction and the output index. -/
structure COutPoint where
  hash : Nat
  n : Nat
  deriving DecidableEq, Repr

/-- A transaction input (`CTxIn`): the outpoint it spends and its unlocking script. -/
structure CTxIn where
  prevout : COutPoint
  scriptSig : List Nat
  deriving DecidableEq, Repr

/-- A transaction (`CTransaction`): version, inputs and outputs. -/
structure CTransaction where
  nVersion : Int
  vin : List CTxIn
  vout : List CTxOut
  deriving DecidableEq, Repr

/-- What `findTxData` returns for a transaction id: of the decoded form `txPrev` the two
fields that are read, `txPrev["version"]` and `txPrev["blockhash"]`, and the transaction
`*txPrevRef` itself.  Strings are lists of bytes. -/
structure TxData where
  version : Int
  blockhash : List Nat
  tx : CTransaction
  deriving DecidableEq, Repr

/-- The code `gamesverify.cpp` calls and does not define: the helpers of
`games/gamesutils.h` and `games/gamestxs.h`, the injected policy objects of
`gamesverify.h` (pure functions of their arguments) and the constant
`CTransaction::MAX_STANDARD_VERSION`.  They are parameters of the embedding.
`operation a h` is `operation->setArgument(a)` followed by `(*operation)(h)`; `none` is a
thrown exception of `findTxData` and `getArgumentFromBetType`; the second argument of
`getArgumentFromBetType` is `none` where the call leaves it out;
`IsPayToScriptHash s b` is `s.IsPayToScriptHash(b)` on the script `s`.  An `unsigned int` is a
natural number and an `int` an integer, as the helper returns them; the one conversion
between the two in the code, at line 247, is `toInt32`. -/
structure Collaborators where
  getArgument : List Nat → Nat
  blockHashStr2Int : List Nat → Nat
  operation : Nat → Nat → Nat
  getReward : List Nat → Nat → Int
  compareBet2Vector : Int → List Nat → List Int → Bool
  isWinning : List Nat → Nat → Nat → Bool
  getArgumentFromBetType : List Nat → Option Int → Option Nat
  findTxData : Nat → Option TxData
  MAX_STANDARD_VERSION : Int
  IsPayToScriptHash : List Nat → Bool → Bool

/-- The conversion of an `unsigned int` value to `int` (two's complement, 32 bits). -/
def toInt32 (u : Nat) : Int :=
  if u % 2 ^ 32 < 2 ^ 31 then ((u % 2 ^ 32 : Nat) : Int) else ((u % 2 ^ 32 : Nat) : Int) - 2 ^ 32

/-- The value a `CAmount` (`int64_t`) holds after an operation with the exact result `x`:
64-bit two's complement. -/
def toInt64 (x : Int) : Int := (x + 2 ^ 63) % 2 ^ 64 - 2 ^ 63

/-- Modelled from the spec: `array2type(v, out)` for `unsigned int out`
(`games/gamesutils.h` is not among the sources): the unsigned 32-bit little-endian value
of the bytes. -/
def array2typeU (v : List Nat) : Nat := leValue v % 2 ^ 32

/-- The character `'+'` that separates the segments of a descriptor. -/
def plusChar : Nat := 43

/-- `betType.find("+")`: the position of the first `'+'`, `none` for `std::string::npos`. -/
def findPlus : List Nat → Option Nat
  | [] => none
  | ch :: rest => if ch = plusChar then some 0 else (findPlus rest).map (· + 1)

/-- `betType.substr(0, pos)` for `pos = betType.find("+")`: the text before the first
`'+'`, the whole string when there is none. -/
def firstSegment (betType : List Nat) : List Nat :=
  match findPlus betType with
  | none => betType
  | some pos => betType.take pos

/-- The loop of lines 223-232 with `n` iterations left: each drops one segment and its
`'+'`, and returns false when there is no `'+'`. -/
def skipSegments : Nat → List Nat → Except Fault (List Nat)
  | 0, betType => .ok betType
  | n + 1, betType =>
    match findPlus betType with
    | none => .error .returnFalse
    | some pos => skipSegments n (betType.drop (pos + 1))

/-- The descriptor split on `'+'`, as the specification describes it: the list of its
segments, left to right (a descriptor without `'+'` is one segment). -/
def segments : List Nat → List (List Nat)
  | [] => [[]]
  | ch :: rest =>
    if ch = plusChar then [] :: segments rest
    else
      match segments rest with
      | [] => [[ch]]
      | seg :: segs => (ch :: seg) :: segs

/-- `getMakeTxBlockHash` (lines 10-15). -/
def getMakeTxBlockHash (c : Collaborators) (makeTxBlockHash : List Nat) (argument : Nat) : Nat :=
  let blockhashTmp := c.blockHashStr2Int makeTxBlockHash
  c.operation argument blockhashTmp

/-- `isMakeBetTx` (lines 338-346 and 461-469): the version, XOR-ed with the indicator, is
between 1 and `MAX_STANDARD_VERSION`. -/
def isMakeBetTx (c : Collaborators) (nVersion makeBetIndicator : Int) : Bool :=
  let txMakeBetVersion := Int.xor nVersion makeBetIndicator
  decide (txMakeBetVersion ≤ c.MAX_STANDARD_VERSION ∧ txMakeBetVersion ≥ 1)

/-! ## The per-input `txVerify` (lines 181-271) -/

/-- Lines 236-270 of the per-input `txVerify` as a function of the locals they start
from: the script argument and the selected segment `betType`. -/
def txVerifyInputTail (c : Collaborators) (nSpendHeight : Int) (input : CTxIn) (prev : TxData)
    (maxReward totalReward inputSum : Int) (argument : Nat) (betType : List Nat) :
    Except Fault (Bool × Int × Int) := do
  let opReturnReward := c.getReward betType argument
  match isInputBet input.scriptSig 0 [] with
  | none => throw .outOfRange
  | some r =>
    if r.ret = false ∨ r.numOfBetsNumbers = 0 ∨ r.betNumbers = [] then throw .returnFalse
    let numOfBetsNumbers := r.numOfBetsNumbers
    let betNumbers := r.betNumbers
    let scriptReward := toInt32 (argument / numOfBetsNumbers)
    if opReturnReward ≠ scriptReward then throw .returnFalse
    if c.compareBet2Vector nSpendHeight betType betNumbers = false then throw .returnFalse
    let outIdx := input.prevout.n
    match prev.tx.vout[outIdx]? with
    | none => throw .outOfRange
    | some out =>
      let amount := out.nValue
      let totalReward := toInt64 (totalReward + toInt64 (scriptReward * amount))
      let inputSum := toInt64 (inputSum + amount)
      if opReturnReward > maxReward ∨ scriptReward > maxReward then
        pure (false, totalReward, inputSum)
      else pure (true, totalReward, inputSum)

/-- The body of the per-input `txVerify` on input `tx.vin[idx]`, with `(txPrev,
txPrevRef) = prev` and the accumulators holding `totalReward` and `inputSum` at the call.
`Fault.returnFalse` is a `return false` before line 262, where the accumulators are
untouched; a result `(b, totalReward, inputSum)` is the return of lines 265-270 with the
accumulators as lines 262-263 leave them.  `Fault.outOfRange` is a read outside the
scriptSig or a script, or `vout[outIdx]` past the end of `vout`; `Fault.lengthError` is
the exception of `getBetType` (line 207), which nothing here catches.  The product and the
sums of lines 262-263 are `CAmount` operations. -/
def txVerifyInputBody (c : Collaborators) (nSpendHeight : Int) (input : CTxIn) (prev : TxData)
    (indicator maxReward totalReward inputSum : Int) : Except Fault (Bool × Int × Int) := do
  -- lines 183-188
  let txVersion := prev.version
  let makeBetIndicator := Int.xor txVersion indicator
  if makeBetIndicator > c.MAX_STANDARD_VERSION ∨ makeBetIndicator < 1 then throw .returnFalse
  -- lines 189-193
  let blockhashStr := prev.blockhash
  let redeemScript := input.scriptSig
  let argument := c.getArgument redeemScript
  let blockhash := getMakeTxBlockHash c blockhashStr argument
  -- lines 195-205
  let blockhashFromScript_ ← copy_n input.scriptSig 1 4
  let blockhashFromScript := array2typeU blockhashFromScript_
  if blockhash ≠ blockhashFromScript then throw .returnFalse
  -- lines 207-212
  let betType ← getBetType prev.tx.vout
  if betType = [] then throw .returnFalse
  -- lines 214-220
  if c.getArgumentFromBetType betType (some maxReward) = none then throw .returnFalse
  -- lines 222-234
  let nPrevOut := input.prevout.n
  let betType ← skipSegments nPrevOut betType
  let betType := firstSegment betType
  -- line 236
  let opReturnReward := c.getReward betType argument
  -- lines 238-245
  match isInputBet input.scriptSig 0 [] with
  | none => throw .outOfRange
  | some r =>
    if r.ret = false ∨ r.numOfBetsNumbers = 0 ∨ r.betNumbers = [] then throw .returnFalse
    let numOfBetsNumbers := r.numOfBetsNumbers
    let betNumbers := r.betNumbers
    -- lines 247-252
    let scriptReward := toInt32 (argument / numOfBetsNumbers)
    if opReturnReward ≠ scriptReward then throw .returnFalse
    -- lines 254-258
    if c.compareBet2Vector nSpendHeight betType betNumbers = false then throw .returnFalse
    -- lines 260-263
    let outIdx := input.prevout.n
    match prev.tx.vout[outIdx]? with
    | none => throw .outOfRange
    | some out =>
      let amount := out.nValue
      let totalReward := toInt64 (totalReward + toInt64 (scriptReward * amount))
      let inputSum := toInt64 (inputSum + amount)
      -- lines 265-270
      if opReturnReward > maxReward ∨ scriptReward > maxReward then
        pure (false, totalReward, inputSum)
      else pure (true, totalReward, inputSum)

/-- What a call of a `txVerify` overload leaves behind: the returned boolean and the
two accumulators passed by reference. -/
structure VerifyResult where
  ret : Bool
  totalReward : Int
  inputSum : Int
  deriving DecidableEq, Repr

/-- The per-input `txVerify` (lines 181-271): `none` is a run that does not return, by
undefined behaviour or by the exception of `getBetType`. -/
def txVerifyInput (c : Collaborators) (nSpendHeight : Int) (input : CTxIn) (prev : TxData)
    (indicator maxReward totalReward inputSum : Int) : Option VerifyResult :=
  match txVerifyInputBody c nSpendHeight input prev indicator maxReward totalReward inputSum with
  | .error .outOfRange => none
  | .error .lengthError => none
  | .error .returnFalse => some ⟨false, totalReward, inputSum⟩
  | .ok (b, totalReward, inputSum) => some ⟨b, totalReward, inputSum⟩

/-! ## The whole-transaction `txVerify` (lines 136-179) -/

/-- The loop of lines 141-158 over the inputs that are left, the accumulators holding
`totalReward` and `inputSum`: the accumulators after the last input, or the `return
false` of a failed lookup (line 151) or of a failed input (line 156). -/
def txVerifyLoop (c : Collaborators) (nSpendHeight indicator maxReward : Int) :
    List CTxIn → Int → Int → Except Fault (Int × Int)
  | [], totalReward, inputSum => .ok (totalReward, inputSum)
  | input :: rest, totalReward, inputSum =>
    match c.findTxData input.prevout.hash with
    | none => .error .returnFalse
    | some prev =>
      match txVerifyInput c nSpendHeight input prev indicator maxReward totalReward inputSum with
      | none => .error .outOfRange
      | some r =>
        if r.ret = false then .error .returnFalse
        else txVerifyLoop c nSpendHeight indicator maxReward rest r.totalReward r.inputSum

/-- What the whole-transaction `txVerify` leaves behind: the returned boolean and the
out-parameter `fee`. -/
structure FeeResult where
  ret : Bool
  fee : Int
  deriving DecidableEq, Repr

/-- The whole-transaction `txVerify` (lines 136-179); `inValue` and `outValue` are the
parameters `in` and `out`.  `fee` is set to 0 at line 138 and written again at line 177
only, with the `CAmount` difference.  `none` is a run in which a per-input call does not
return. -/
def txVerify (c : Collaborators) (nSpendHeight : Int) (tx : CTransaction)
    (inValue outValue indicator maxPayoff maxReward : Int) : Option FeeResult :=
  match txVerifyLoop c nSpendHeight indicator maxReward tx.vin 0 0 with
  | .error .outOfRange => none
  | .error .lengthError => none
  | .error .returnFalse => some ⟨false, 0⟩
  | .ok (totalReward, inputSum) =>
    if inValue ≠ inputSum then some ⟨false, 0⟩
    else if outValue > maxPayoff then some ⟨false, 0⟩
    else if outValue > totalReward then some ⟨false, 0⟩
    else some ⟨true, toInt64 (totalReward - outValue)⟩

/-! ## `VerifyBlockReward::isBetPayoffExceeded` (lines 348-411) -/

/-- `MAKEBET_FORMAT_VERIFY` (`gamesverify.h`, line 17). -/
def MAKEBET_FORMAT_VERIFY : Int := 177750

/-- The members of `VerifyBlockReward` that `isBetPayoffExceeded` reads: the
transactions of the block, and `blockHash`, `makeBetIndicator` and `blockSubsidy` as the
constructor (lines 273-279) leaves them. -/
structure VerifyBlockReward where
  vtx : List CTransaction
  blockHash : Nat
  makeBetIndicator : Int
  blockSubsidy : Int
  deriving Repr

/-- The loop of lines 374-391 over the segments of `betType`, at output index `i`, the
accumulators holding `inAcc` and `payoffAcc`.  `fuel` bounds the iterations that are
left; every iteration but the last removes a `'+'` from `betType`, so
`betType.length + 1` is enough.  `tx->vout[i]` past the end of `vout` is
`Fault.outOfRange`.  The product of line 380 and the sums of lines 381 and 383 are
`CAmount` operations. -/
def payoffLoop (c : Collaborators) (argument argumentResult : Nat) (vout : List CTxOut) :
    Nat → Nat → List Nat → Int → Int → Except Fault (Int × Int)
  | 0, _, _, inAcc, payoffAcc => .ok (inAcc, payoffAcc)
  | fuel + 1, i, betType, inAcc, payoffAcc =>
    let pos := findPlus betType
    let reward := c.getReward (firstSegment betType) argument
    match vout[i]? with
    | none => .error .outOfRange
    | some out =>
      let payoffAcc :=
        if c.isWinning (firstSegment betType) argument argumentResult then
          toInt64 (payoffAcc + toInt64 (out.nValue * reward))
        else payoffAcc
      let inAcc := toInt64 (inAcc + out.nValue)
      match pos with
      | none => .ok (inAcc, payoffAcc)
      | some pos => payoffLoop c argument argumentResult vout fuel (i + 1)
          (betType.drop (pos + 1)) inAcc payoffAcc

/-- The body of the loop of lines 358-399 for one transaction of the block: the
accumulators after it.  A transaction that is not bet-tagged, or has an empty
descriptor, leaves them alone (`continue`); so does one on which `getBetType` or
`getArgumentFromBetType` throws, the exception being caught at line 394.  A read
outside a script or past the end of `vout` is undefined behaviour, which no `catch`
handles. -/
def payoffTx (c : Collaborators) (v : VerifyBlockReward) (tx : CTransaction)
    (inAcc payoffAcc : Int) : Except Fault (Int × Int) :=
  if isMakeBetTx c tx.nVersion v.makeBetIndicator = true then
    match getBetType tx.vout with
    | .error .lengthError => pure (inAcc, payoffAcc)
    | .error e => .error e
    | .ok betType =>
      if betType = [] then pure (inAcc, payoffAcc)
      else
        match c.getArgumentFromBetType betType none with
        | none => pure (inAcc, payoffAcc)
        | some argument =>
          let argumentResult := c.operation argument v.blockHash
          payoffLoop c argument argumentResult tx.vout (betType.length + 1) 0 betType
            inAcc payoffAcc
  else pure (inAcc, payoffAcc)

/-- The loop of lines 358-399 over the transactions that are left. -/
def payoffBlock (c : Collaborators) (v : VerifyBlockReward) :
    List CTransaction → Int → Int → Except Fault (Int × Int)
  | [], inAcc, payoffAcc => .ok (inAcc, payoffAcc)
  | tx :: rest, inAcc, payoffAcc => do
    let (inAcc, payoffAcc) ← payoffTx c v tx inAcc payoffAcc
    payoffBlock c v rest inAcc payoffAcc

/-- `VerifyBlockReward::isBetPayoffExceeded()` (lines 348-411) at chain height `height`
(`chainActive.Height()`).  The division of line 401 truncates; its product
`9*blockSubsidy` is exact, `blockSubsidy` being the subsidy of a block, which
`GetBlockSubsidy` keeps far below `2^63 / 9`.  The sum of line 403 is a `CAmount`
operation. -/
def isBetPayoffExceeded (c : Collaborators) (height : Int) (v : VerifyBlockReward) :
    Except Fault Bool :=
  if height < MAKEBET_FORMAT_VERIFY then pure false
  else do
    let (inAcc, payoffAcc) ← payoffBlock c v v.vtx 0 0
    if inAcc ≥ Int.tdiv (9 * v.blockSubsidy) 10 then
      if payoffAcc > toInt64 (inAcc + v.blockSubsidy) then pure true else pure false
    else pure false

/-! ## `VerifyBlockReward::checkPotentialRewardLimit` (lines 413-459) -/

/-- The ways a call can end without returning: a read outside a script or a vector
(undefined behaviour), or a C++ exception that leaves the function. -/
inductive Abort where
  /-- a read outside a script or past the end of `vout` -/
  | outOfRange
  /-- an exception that the function does not catch -/
  | thrown
  deriving DecidableEq, Repr

/-- `MAKEBET_REWARD_LIMIT` (`gamesverify.h`, line 21). -/
def MAKEBET_REWARD_LIMIT : Int := 177750

/-- The loop of lines 430-448 over the segments of `betType`, at output index `i`, with
`rewardSum` as it stands.  The boolean of the result is `false` for the `return false`
of line 438 and `true` for the `break` of line 445; the integer is `rewardSum` at that
point.  `fuel` bounds the iterations that are left; `betType.length + 1` is enough.  The
product of line 434 and the sum of line 442 are `CAmount` operations. -/
def rewardLimitLoop (c : Collaborators) (argument : Nat) (blockSubsidy : Int)
    (vout : List CTxOut) : Nat → Nat → List Nat → Int → Except Abort (Bool × Int)
  | 0, _, _, rewardSum => .ok (true, rewardSum)
  | fuel + 1, i, betType, rewardSum =>
    let pos := findPlus betType
    let reward := c.getReward (firstSegment betType) argument
    match vout[i]? with
    | none => .error .outOfRange
    | some out =>
      let payoff := toInt64 (reward * out.nValue)
      if payoff > Int.tdiv blockSubsidy 2 then .ok (false, rewardSum)
      else
        let rewardSum := toInt64 (rewardSum + payoff)
        match pos with
        | none => .ok (true, rewardSum)
        | some pos => rewardLimitLoop c argument blockSubsidy vout fuel (i + 1)
            (betType.drop (pos + 1)) rewardSum

/-- `VerifyBlockReward::checkPotentialRewardLimit(rewardSum, txn, ignoreHardfork)` at
chain height `height`; `maxPayoff` is the member of that name.  The result is the
returned boolean and `rewardSum` after the call.  `getBetType` and
`getArgumentFromBetType` are called outside any `try` (lines 422 and 428). -/
def checkPotentialRewardLimit (c : Collaborators) (height : Int) (v : VerifyBlockReward)
    (maxPayoff rewardSum : Int) (txn : CTransaction) (ignoreHardfork : Bool) :
    Except Abort (Bool × Int) :=
  if ignoreHardfork = false ∧ height < MAKEBET_REWARD_LIMIT then .ok (true, rewardSum)
  else if isMakeBetTx c txn.nVersion v.makeBetIndicator = true then
    match getBetType txn.vout with
    | .error .lengthError => .error .thrown
    | .error _ => .error .outOfRange
    | .ok betType =>
      if betType = [] then .ok (false, rewardSum)
      else
        match c.getArgumentFromBetType betType none with
        | none => .error .thrown
        | some argument =>
          match rewardLimitLoop c argument v.blockSubsidy txn.vout (betType.length + 1) 0
              betType rewardSum with
          | .error e => .error e
          | .ok (false, rewardSum) => .ok (false, rewardSum)
          | .ok (true, rewardSum) =>
            let rv := decide (rewardSum ≤ maxPayoff)
            .ok (rv, rewardSum)
  else .ok (true, rewardSum)

/-! ## `VerifyMakeBetFormat` (lines 476-587) -/

/-- A decimal digit, `'0'` to `'9'`. -/
def isDigit (ch : Nat) : Bool := decide (48 ≤ ch ∧ ch ≤ 57)

/-- `betStr.find_first_not_of("0123456789")`: the position of the first character that
is not a digit, `none` for `std::string::npos`. -/
def find_first_not_of_digits : List Nat → Option Nat
  | [] => none
  | ch :: rest => if isDigit ch then (find_first_not_of_digits rest).map (· + 1) else some 0

/-- `is_lottery` (lines 476-479). -/
def is_lottery (betStr : List Nat) : Bool := (find_first_not_of_digits betStr).isNone

/-- `str.find_last_of("_")`: the position of the last `'_'`, `none` for
`std::string::npos`. -/
def find_last_of_underscore : List Nat → Option Nat
  | [] => none
  | ch :: rest =>
    match find_last_of_underscore rest with
    | some p => some (p + 1)
    | none => if ch = 95 then some 0 else none

/-- White space for `strtol` in the C locale: space, and `\t \n \v \f \r`. -/
def isspace (ch : Nat) : Bool := decide (ch = 32 ∨ (9 ≤ ch ∧ ch ≤ 13))

/-- The value of a string of decimal digits. -/
def digitsValue (ds : List Nat) : Nat := ds.foldl (fun acc ch => 10 * acc + (ch - 48)) 0

/-- `std::stoi(str)` of the C++ standard library (base 10, no position argument): white
space is skipped, then an optional sign and the longest run of digits are read.  `none`
is a thrown exception: `std::invalid_argument` when there is no digit to read,
`std::out_of_range` when the value is not that of an `int`. -/
def stoi (str : List Nat) : Option Int :=
  let s := str.dropWhile isspace
  let negative := decide (s.head? = some 45)
  let s := if s.head? = some 45 ∨ s.head? = some 43 then s.drop 1 else s
  let ds := s.takeWhile isDigit
  if ds = [] then none
  else
    let value : Int := if negative then -(digitsValue ds : Int) else (digitsValue ds : Int)
    if value < -2 ^ 31 ∨ 2 ^ 31 - 1 < value then none else some value

/-- The conversion of an `int` value to `unsigned int` (32 bits). -/
def toUInt32 (value : Int) : Nat := (value % 2 ^ 32).toNat

/-- `VerifyMakeBetFormat::checkBetAmountLimit(mod_argument, bet_type)` (lines 481-513):
`none` is an exception that leaves the function.  The `std::stoi` of line 487 is inside
`try { } catch (...) { }`, the one of line 504 is not. -/
def checkBetAmountLimit (mod_argument : Int) (bet_type : List Nat) : Option Bool :=
  if is_lottery bet_type = true then
    let betAmount : Nat :=
      match stoi bet_type with
      | some value => toUInt32 value
      | none => 0
    if betAmount = 0 then some false
    else if toInt32 betAmount > mod_argument then some false
    else some true
  else
    match find_last_of_underscore bet_type with
    | none => some true
    | some pos_ =>
      if pos_ < bet_type.length - 1 then
        match stoi (bet_type.drop (pos_ + 1)) with
        | none => none
        | some value => if toUInt32 value = 0 then some false else some true
      else some true

/-- The loop of lines 548-575 over the segments of `betType`, at output index `i`: the
result is `false` for a `return false` and `true` for the `break` of line 572.  The
`unsigned int argument` is converted to the `int` parameter of `checkBetAmountLimit`.
`fuel` bounds the iterations that are left; `betType.length + 1` is enough. -/
def makeBetLoop (c : Collaborators) (argument : Nat) (vout : List CTxOut) :
    Nat → Nat → List Nat → Except Abort Bool
  | 0, _, _ => .ok true
  | fuel + 1, i, betType =>
    let pos := findPlus betType
    let reward := c.getReward (firstSegment betType) argument
    if reward = 0 then .ok false
    else
      match checkBetAmountLimit (toInt32 argument) (firstSegment betType) with
      | none => .error .thrown
      | some false => .ok false
      | some true =>
        match vout[i]? with
        | none => .error .outOfRange
        | some out =>
          if out.nValue = 0 then .ok false
          else
            match pos with
            | none => .ok true
            | some pos => makeBetLoop c argument vout fuel (i + 1) (betType.drop (pos + 1))

/-- The loop of lines 577-584 with `n` iterations left, at output index `i`: `false` for
the `return false` of line 582, `true` when the loop ends. -/
def p2shLoop (c : Collaborators) (vout : List CTxOut) : Nat → Nat → Except Abort Bool
  | 0, _ => .ok true
  | n + 1, i =>
    match vout[i]? with
    | none => .error .outOfRange
    | some out =>
      if c.IsPayToScriptHash out.scriptPubKey false = false then .ok false
      else p2shLoop c vout n (i + 1)

/-- `VerifyMakeBetFormat::txMakeBetVerify(tx, ignoreHardfork)` (lines 515-587) at chain
height `height`; `indicator` and `maxReward` are the members `m_indicator` and
`m_maxReward`.  `getBetType_` and `getArgumentFromBetType` are called outside any `try`
(lines 532 and 541). -/
def txMakeBetVerify (c : Collaborators) (height indicator maxReward : Int) (tx : CTransaction)
    (ignoreHardfork : Bool) : Except Abort Bool :=
  if ignoreHardfork = false ∧ height < MAKEBET_FORMAT_VERIFY then .ok true
  else if tx.vout.length < 2 then .ok false
  else if isMakeBetTx c tx.nVersion indicator = false then .ok true
  else
    match getBetType_ tx.vout with
    | .error .lengthError => .error .thrown
    | .error _ => .error .outOfRange
    | .ok (betType, opReturnIdx) =>
      if betType = [] then .ok false
      else
        match c.getArgumentFromBetType betType (some maxReward) with
        | none => .error .thrown
        | some argument =>
          if (argument : Int) > maxReward then .ok false
          else
            match makeBetLoop c argument tx.vout (betType.length + 1) 0 betType with
            | .error e => .error e
            | .ok false => .ok false
            | .ok true => p2shLoop c tx.vout opReturnIdx 0

/-! ## The statements of the settlement and block checks -/

/-- Spec-side reading of "for every input in order, the referenced prior transaction is
found and the per-input `txVerify` returns true": the inputs are taken from the left, the
accumulators `tr` and `sm` before the first input being carried to `tr2` and `sm2` after
the last. -/
inductive InputsPass (c : Collaborators) (nSpendHeight indicator maxReward : Int) :
    List CTxIn → Int → Int → Int → Int → Prop
  | nil (tr sm : Int) : InputsPass c nSpendHeight indicator maxReward [] tr sm tr sm
  | cons (input : CTxIn) (rest : List CTxIn) (prev : TxData) (tr sm tr1 sm1 tr2 sm2 : Int) :
      c.findTxData input.prevout.hash = some prev →
      txVerifyInput c nSpendHeight input prev indicator maxReward tr sm
        = some ⟨true, tr1, sm1⟩ →
      InputsPass c nSpendHeight indicator maxReward rest tr1 sm1 tr2 sm2 →
      InputsPass c nSpendHeight indicator maxReward (input :: rest) tr sm tr2 sm2

/-- Spec-side: the `'+'`-separated segments of a descriptor, segment `i` paired with
output `i`. -/
def betPairs (d : List Nat) (vout : List CTxOut) : List (List Nat × CTxOut) :=
  (segments d).zip vout

/-- Spec-side: the descriptor and the argument of a transaction that counts for the block
check: it is bet-tagged, its descriptor is not empty, and `getArgumentFromBetType` gives
an argument for it. -/
def countedBet (c : Collaborators) (v : VerifyBlockReward) (tx : CTransaction) :
    Option (List Nat × Nat) :=
  if isMakeBetTx c tx.nVersion v.makeBetIndicator = true then
    match getBetType tx.vout with
    | .ok d => if d = [] then none else (c.getArgumentFromBetType d none).map fun a => (d, a)
    | .error _ => none
  else none

/-- Spec-side: the values wagered in one transaction, the sum of the paired outputs. -/
def wagered (c : Collaborators) (v : VerifyBlockReward) (tx : CTransaction) : Int :=
  match countedBet c v tx with
  | none => 0
  | some (d, _) => ((betPairs d tx.vout).map fun p => p.2.nValue).sum

/-- Spec-side: the payoff of one transaction, the sum of `value * getReward(segment,
argument)` over the pairs whose segment wins for the draw derived from the block hash. -/
def payoff (c : Collaborators) (v : VerifyBlockReward) (tx : CTransaction) : Int :=
  match countedBet c v tx with
  | none => 0
  | some (d, a) =>
    ((betPairs d tx.vout).map fun p =>
      if c.isWinning p.1 a (c.operation a v.blockHash) then p.2.nValue * c.getReward p.1 a
      else 0).sum

/-- Spec-side `inAcc`: the values wagered in the block. -/
def specInAcc (c : Collaborators) (v : VerifyBlockReward) : Int :=
  (v.vtx.map (wagered c v)).sum

/-- Spec-side `payoffAcc`: the payoff of the block. -/
def specPayoffAcc (c : Collaborators) (v : VerifyBlockReward) : Int :=
  (v.vtx.map (payoff c v)).sum

/-! ## Scenario data -/

/-- A one-wager scriptSig on the number 5: bytes 1..4 hold the value 7, the five free
bytes are a push of `24 00 00 00`. -/
def oneBetScriptSig : List Nat :=
  betScriptSig [7, 0, 0, 0] [1] [2] (List.replicate 21 9) [] (4, [5, 0, 0, 0]) [4, 36, 0, 0, 0]

/-- A pay-to-script-hash script. -/
def p2shScript : List Nat := [OP_HASH160, 20] ++ List.replicate 20 9 ++ [OP_EQUAL]

/-- The data-carrier script of a descriptor shorter than 76 bytes. -/
def carrierScript (d : List Nat) : List Nat := OP_RETURN :: directPush d

/-- The bet transaction of the scenarios: one output of 100 and the descriptor `1`. -/
def oneBetTx : CTransaction :=
  ⟨1, [], [⟨100, p2shScript⟩, ⟨0, carrierScript [49]⟩]⟩

/-- A bet transaction with the descriptor `1+1+1` and two outputs. -/
def threeSegmentTx : CTransaction :=
  ⟨1, [], [⟨950, p2shScript⟩, ⟨0, carrierScript [49, 43, 49, 43, 49]⟩]⟩

/-- A bet transaction with the descriptor `1+2`: 700 on `1`, 250 on `2`. -/
def twoBetTx : CTransaction :=
  ⟨1, [], [⟨700, p2shScript⟩, ⟨250, p2shScript⟩, ⟨0, carrierScript [49, 43, 50]⟩]⟩

/-- Collaborators of the scenarios: the script argument is `argument`, every reward is
`reward`, the block-hash integer is 7 and the argument operation leaves it alone, every
bet matches its numbers, the segment `1` wins, the transactions known are `oneBetTx`
under id 1 and `threeSegmentTx` under id 3, and a pay-to-script-hash script is
`OP_HASH160 20 <20 bytes> OP_EQUAL`. -/
def scenario (argument : Nat) (reward : Int) : Collaborators where
  getArgument := fun _ => argument
  blockHashStr2Int := fun _ => 7
  operation := fun _ h => h
  getReward := fun _ _ => reward
  compareBet2Vector := fun _ _ _ => true
  isWinning := fun betType _ _ => decide (betType = [49])
  getArgumentFromBetType := fun _ _ => some argument
  findTxData := fun h =>
    if h = 1 then some ⟨1, [], oneBetTx⟩
    else if h = 3 then some ⟨1, [], threeSegmentTx⟩
    else none
  MAX_STANDARD_VERSION := 2
  IsPayToScriptHash := fun s _ =>
    decide (s.length = 23 ∧ s[0]? = some OP_HASH160 ∧ s[1]? = some 20 ∧ s[22]? = some OP_EQUAL)

/-- Spec-side: the payoff the reward-limit rule computes for a pair of a segment and
an output, `getReward(segment, argument) * value`. -/
def potentialPayoff (c : Collaborators) (argument : Nat) (p : List Nat × CTxOut) : Int :=
  c.getReward p.1 argument * p.2.nValue

/-- Spec-side: the decimal value of a string of digits, most significant first. -/
def decimalValue (seg : List Nat) : Nat := Nat.ofDigits 10 (seg.reverse.map (· - 48))

/-- Spec-side: what the loop of lines 548-575 demands of segment `k` of the descriptor
`d`: a nonzero reward, a passing amount check and a paired output with a nonzero value. -/
def SegmentPasses (c : Collaborators) (argument : Nat) (vout : List CTxOut) (k : Nat)
    (seg : List Nat) : Prop :=
  c.getReward seg argument ≠ 0 ∧ checkBetAmountLimit (toInt32 argument) seg = some true ∧
    ∃ out, vout[k]? = some out ∧ out.nValue ≠ 0

/-- A bet transaction with one output of 100 and the descriptor `d`. -/
def lotteryTx (d : List Nat) : CTransaction :=
  ⟨1, [], [⟨100, p2shScript⟩, ⟨0, carrierScript d⟩]⟩

/-- A transaction that is not bet-tagged (version 7), with the outputs `vout`. -/
def plainTx (vout : List CTxOut) : CTransaction := ⟨7, [], vout⟩

/-- Spec-side: the positions, by distance `d` from the end of a scriptSig accepted with
`N` numbers (`d = 1` is the last byte), of the bytes that no check reads: the five
wildcard bytes of the trailing window, the 21 bytes of the public-key-hash region, and
the byte in front of each 4-byte number field (the last number, then the links). -/
def uncheckedByte (N d : Nat) : Bool :=
  decide ((2 ≤ d ∧ d ≤ 6) ∨ (12 * N + 9 ≤ d ∧ d ≤ 12 * N + 29) ∨ d = 16 + N ∨
    (17 + N ≤ d ∧ d ≤ 12 * N + 5 ∧ (d - (17 + N)) % 11 = 9))

/-- A bet transaction with the descriptor `1+1+1` whose data carrier is output 1: the
outputs paired with the segments are a pay-to-script-hash output of 100, the data
carrier itself with the value 5, and an output of 7 locked by the script `OP_TRUE`. -/
def unescrowedTx : CTransaction :=
  ⟨1, [], [⟨100, p2shScript⟩, ⟨5, carrierScript [49, 43, 49, 43, 49]⟩, ⟨7, [OP_TRUE]⟩]⟩

/-- Collaborators of the scenarios with a game that is not known: as `scenario 36 reward`,
but `getArgumentFromBetType` throws on the descriptor `2`. -/
def unknownGameScenario (reward : Int) : Collaborators :=
  { scenario 36 reward with
    getArgumentFromBetType := fun d _ => if d = [50] then none else some 36 }

/-- A bet transaction with one output of 950 and the descriptor `2`. -/
def unknownGameTx : CTransaction :=
  ⟨1, [], [⟨950, p2shScript⟩, ⟨0, carrierScript [50]⟩]⟩

/-- A bet-tagged transaction whose data carrier `OP_RETURN 4d` ends in front of the two
length bytes its header announces: `getBetType` throws on it. -/
def truncatedCarrierTx : CTransaction :=
  ⟨1, [], [⟨100, p2shScript⟩, ⟨0, [OP_RETURN, 0x4d]⟩]⟩

/-- A bet transaction with one output of `2^62` and the descriptor `1`. -/
def hugeBetTx : CTransaction :=
  ⟨1, [], [⟨4611686018427387904, p2shScript⟩, ⟨0, carrierScript [49]⟩]⟩

/-! ## Reads outside a buffer as unspecified values

What a function returns when a read outside a buffer does not stop the run depends on
the value that read yields, which C++ leaves open.  The functions of this section are
`getBetType_`, `isInputBet` and the per-input `txVerify` once more, statement for
statement, with every such read yielding a value taken from a parameter; what is proved
of them holds for every choice of these values.  The functions above, which stop at such
a read, say where the reads outside a buffer are. -/

/-- The values that reads outside a buffer yield: the byte at offset `i` of the scriptSig,
the byte at offset `i` of the script of output `k`, and the value of an output `vout[k]`
past the end of `vout`. -/
structure Stray where
  scriptSig : Int → Nat
  scriptPubKey : Nat → Int → Nat
  nValue : Nat → Int

/-- The dereference `*it` of an iterator at offset `i` of script `s`, a read outside the
script yielding `stray i`. -/
def rdAny (stray : Int → Nat) (s : List Nat) (i : Int) : Nat :=
  match rd s i with
  | .ok b => b
  | .error _ => stray i

/-- The reads of `std::copy_n(first, n, out)` and of the range constructor
`std::vector<unsigned char>(first, first + n)`, with `rdAny`. -/
def copy_nAny (stray : Int → Nat) (s : List Nat) (first : Int) : Nat → List Nat
  | 0 => []
  | n + 1 => rdAny stray s first :: copy_nAny stray s (first + 1) n

/-- The scan of lines 284-327 over the outputs `vout[i], vout[i+1], ...` that are left,
with `rdAny`; `stray i` gives the bytes outside the script of output `i`.  The only fault
left is the exception of the `std::string` constructor. -/
def getBetTypeScanAny (stray : Nat → Int → Nat) : List CTxOut → Nat →
    Except Fault (List Nat × Nat)
  | [], _ => .ok ([], 0)
  | out :: rest, i => do
    let s := out.scriptPubKey
    let order := rdAny (stray i) s 1
    let first := rdAny (stray i) s 0
    if first = OP_RETURN then
      if order ≤ 0x4b then do
        let hexStr ← strFrom s 2
        let lenBytes := copy_nAny (stray i) s 1 1
        let length := leValue lenBytes
        if hexStr.length ≠ length then pure ([], i) else pure (hexStr, i)
      else if order = 0x4c then do
        let hexStr ← strFrom s 3
        let lenBytes := copy_nAny (stray i) s 2 1
        let length := leValue lenBytes
        if hexStr.length ≠ length then pure ([], i) else pure (hexStr, i)
      else if order = 0x4d then do
        let hexStr ← strFrom s 4
        let lenBytes := copy_nAny (stray i) s 2 2
        let length := leValue lenBytes
        if hexStr.length ≠ length then pure ([], i) else pure (hexStr, i)
      else if order = 0x4e then do
        let hexStr ← strFrom s 6
        let lenBytes := copy_nAny (stray i) s 2 4
        let length := leValue lenBytes
        if hexStr.length ≠ length then pure ([], i) else pure (hexStr, i)
      else pure ([], 0)
    else getBetTypeScanAny stray rest (i + 1)

/-- `getBetType_(tx, idx)` on the outputs of `tx`, with `rdAny`. -/
def getBetType_Any (stray : Nat → Int → Nat) (vout : List CTxOut) :
    Except Fault (List Nat × Nat) :=
  getBetTypeScanAny stray (vout.drop 1) 1

/-- `getBetType(tx)` on the outputs of `tx`, with `rdAny`. -/
def getBetTypeAny (stray : Nat → Int → Nat) (vout : List CTxOut) : Except Fault (List Nat) := do
  let (hexStr, _) ← getBetType_Any stray vout
  pure hexStr

/-- The counting loop of lines 42-50, with `rdAny`. -/
def countLoopAny (stray : Int → Nat) (s : List Nat) (it_end : Int) :
    Nat → Nat → Except Fault Nat
  | 0, n => .ok n
  | fuel + 1, n =>
    if rdAny stray s (it_end - n) = OP_TRUE then pure n
    else if rdAny stray s (it_end - n) ≠ OP_ENDIF then throw .returnFalse
    else countLoopAny stray s it_end fuel (n + 1)

/-- The loop of lines 68-91 with `k` iterations left, with `rdAny`. -/
def betLoopAny (stray : Int → Nat) (s : List Nat) :
    Nat → Int → List Nat → List Int → Except Fault (Int × List Nat × List Int)
  | 0, it_end, chunk, betNumbers => .ok (it_end, chunk, betNumbers)
  | k + 1, it_end, chunk, betNumbers => do
    let bytes := copy_nAny stray s (it_end - 5) 5
    let chunk := overwrite chunk bytes
    if !filterCompare chunk byte_mask2 then throw .returnFalse
    let it_end := it_end - 5
    let betNumber_ := copy_nAny stray s (it_end - 4) 4
    let it_end := it_end - (4 + 2)
    let b := rdAny stray s it_end
    if b ≠ OP_DUP then throw .returnFalse
    let betNumber := array2type betNumber_
    betLoopAny stray s k it_end chunk (betNumbers ++ [betNumber])

/-- Lines 113-121, with `rdAny`. -/
def forwardCursorAny (stray : Int → Nat) (s : List Nat) : Int :=
  let it_begin : Int := 0
  let b := rdAny stray s it_begin
  let it_begin := it_begin + (b + 1)
  let b := rdAny stray s it_begin
  let it_begin := it_begin + (b + 1)
  let b := rdAny stray s it_begin
  let it_begin := it_begin + (b + 1)
  let b := rdAny stray s it_begin
  let it_begin := if b = 0x4c then it_begin + 1 else it_begin
  it_begin + 1

/-- Lines 31-127 of `isInputBet`, with `rdAny`: the only fault left is `return false`. -/
def isInputBetBodyAny (stray : Int → Nat) (s : List Nat) : Except Fault (Nat × List Int) := do
  let size : Int := s.length
  -- lines 31-38
  let input_script_chunk := copy_nAny stray s (size - 10) 10
  if !filterCompare input_script_chunk byte_mask then throw .returnFalse
  -- lines 40-52
  let it_end : Int := size - (10 + 1)
  let numOfBetsNumbers ← countLoopAny stray s it_end 18 0
  let numOfBetsNumbers := numOfBetsNumbers + 1
  let it_end := it_end - numOfBetsNumbers
  -- lines 54-64
  let b := rdAny stray s it_end
  if b ≠ OP_EQUALVERIFY then throw .returnFalse
  let betNumber_ := copy_nAny stray s (it_end - 4) 4
  let betNumber := array2type betNumber_
  let betNumbers := [betNumber]
  let it_end := it_end - 5
  -- lines 66-91
  let (it_end, input_script_chunk, betNumbers) ←
    betLoopAny stray s (numOfBetsNumbers - 1) it_end input_script_chunk betNumbers
  -- lines 93-101
  let bytes := copy_nAny stray s (it_end - 3) 3
  let input_script_chunk := overwrite input_script_chunk bytes
  if !filterCompare input_script_chunk byte_mask3 then throw .returnFalse
  let it_end := it_end - (3 + 21)
  -- lines 103-111
  let bytes := copy_nAny stray s (it_end - 2) 2
  let input_script_chunk := overwrite input_script_chunk bytes
  if !filterCompare input_script_chunk byte_mask4 then throw .returnFalse
  let it_end := it_end - 2
  -- lines 113-127
  let it_begin := forwardCursorAny stray s
  if it_end ≠ it_begin then throw .returnFalse
  pure (numOfBetsNumbers, betNumbers)

/-- `isInputBet(input, &numOfBetsNumbers_, &betNumbers_)` on the input's `scriptSig`, with
`rdAny`: every run returns. -/
def isInputBetAny (stray : Int → Nat) (scriptSig : List Nat) (num0 : Nat) (bets0 : List Int) :
    BetResult :=
  match isInputBetBodyAny stray scriptSig with
  | .error _ => ⟨false, num0, bets0⟩
  | .ok (numOfBetsNumbers, betNumbers) =>
    -- lines 129-133
    ⟨true, numOfBetsNumbers, bets0 ++ betNumbers⟩

/-- Lines 236-270 of the per-input `txVerify` as a function of the locals they start
from, the script argument and the selected segment `betType`, with the reads outside a
buffer taken from `w`. -/
def txVerifyInputTailAny (w : Stray) (c : Collaborators) (nSpendHeight : Int) (input : CTxIn)
    (prev : TxData) (maxReward totalReward inputSum : Int) (argument : Nat)
    (betType : List Nat) : Except Fault (Bool × Int × Int) := do
  -- line 236
  let opReturnReward := c.getReward betType argument
  -- lines 238-245
  let r := isInputBetAny w.scriptSig input.scriptSig 0 []
  if r.ret = false ∨ r.numOfBetsNumbers = 0 ∨ r.betNumbers = [] then throw .returnFalse
  let numOfBetsNumbers := r.numOfBetsNumbers
  let betNumbers := r.betNumbers
  -- lines 247-252
  let scriptReward := toInt32 (argument / numOfBetsNumbers)
  if opReturnReward ≠ scriptReward then throw .returnFalse
  -- lines 254-258
  if c.compareBet2Vector nSpendHeight betType betNumbers = false then throw .returnFalse
  -- lines 260-263
  let outIdx := input.prevout.n
  let amount :=
    match prev.tx.vout[outIdx]? with
    | some out => out.nValue
    | none => w.nValue outIdx
  let totalReward := toInt64 (totalReward + toInt64 (scriptReward * amount))
  let inputSum := toInt64 (inputSum + amount)
  -- lines 265-270
  if opReturnReward > maxReward ∨ scriptReward > maxReward then
    pure (false, totalReward, inputSum)
  else pure (true, totalReward, inputSum)

/-- The body of the per-input `txVerify` (lines 181-271) with the reads outside a buffer
taken from `w`: `Fault.returnFalse` is a `return false` before line 262,
`Fault.lengthError` the exception of `getBetType` (line 207). -/
def txVerifyInputBodyAny (w : Stray) (c : Collaborators) (nSpendHeight : Int) (input : CTxIn)
    (prev : TxData) (indicator maxReward totalReward inputSum : Int) :
    Except Fault (Bool × Int × Int) := do
  -- lines 183-188
  let txVersion := prev.version
  let makeBetIndicator := Int.xor txVersion indicator
  if makeBetIndicator > c.MAX_STANDARD_VERSION ∨ makeBetIndicator < 1 then throw .returnFalse
  -- lines 189-193
  let blockhashStr := prev.blockhash
  let redeemScript := input.scriptSig
  let argument := c.getArgument redeemScript
  let blockhash := getMakeTxBlockHash c blockhashStr argument
  -- lines 195-205
  let blockhashFromScript_ := copy_nAny w.scriptSig input.scriptSig 1 4
  let blockhashFromScript := array2typeU blockhashFromScript_
  if blockhash ≠ blockhashFromScript then throw .returnFalse
  -- lines 207-212
  let betType ← getBetTypeAny w.scriptPubKey prev.tx.vout
  if betType = [] then throw .returnFalse
  -- lines 214-220
  if c.getArgumentFromBetType betType (some maxReward) = none then throw .returnFalse
  -- lines 222-234
  let nPrevOut := input.prevout.n
  let betType ← skipSegments nPrevOut betType
  let betType := firstSegment betType
  -- lines 236-270
  txVerifyInputTailAny w c nSpendHeight input prev maxReward totalReward inputSum argument
    betType

/-- The per-input `txVerify` (lines 181-271) with the reads outside a buffer taken from
`w`: `none` is the exception of `getBetType`, which leaves the function. -/
def txVerifyInputAny (w : Stray) (c : Collaborators) (nSpendHeight : Int) (input : CTxIn)
    (prev : TxData) (indicator maxReward totalReward inputSum : Int) : Option VerifyResult :=
  match txVerifyInputBodyAny w c nSpendHeight input prev indicator maxReward totalReward
      inputSum with
  | .error .returnFalse => some ⟨false, totalReward, inputSum⟩
  | .error _ => none
  | .ok (b, totalReward, inputSum) => some ⟨b, totalReward, inputSum⟩

/-- A `Stray` of the scenarios: every read outside a buffer yields 0. -/
def zeroStray : Stray := ⟨fun _ => 0, fun _ _ => 0, fun _ => 0⟩

/-- Spec-side: the integer `x` is a value of `CAmount`, a signed 64-bit integer. -/
@[reducible] def InInt64 (x : Int) : Prop := -2 ^ 63 ≤ x ∧ x < 2 ^ 63

/-! ## Lemmas on 64-bit arithmetic -/

theorem toInt64_of_range {x : Int} (h : InInt64 x) : toInt64 x = x := by
  unfold InInt64 at h
  unfold toInt64
  omega

theorem toInt64_range (x : Int) : InInt64 (toInt64 x) := by
  unfold InInt64 toInt64
  omega

theorem toInt64_idem (x : Int) : toInt64 (toInt64 x) = toInt64 x := by
  unfold toInt64
  omega

theorem toInt64_add_left (a b : Int) : toInt64 (toInt64 a + b) = toInt64 (a + b) := by
  unfold toInt64
  omega

theorem toInt64_add_right (a b : Int) : toInt64 (a + toInt64 b) = toInt64 (a + b) := by
  unfold toInt64
  omega

theorem toInt64_zero : toInt64 0 = 0 := by decide

/-! ## Lemmas on reading a script -/

theorem rd_natCast (s : List Nat) (k : Nat) :
    rd s (k : Int) = match s[k]? with
      | some b => .ok b
      | none => .error .outOfRange := rfl

theorem rd_of_getElem? {s : List Nat} {k : Nat} {b : Nat} {i : Int}
    (hi : i = k) (h : s[k]? = some b) : rd s i = .ok b := by
  subst hi
  rw [rd_natCast, h]

theorem rd_ok_iff {s : List Nat} {i : Int} {b : Nat} :
    rd s i = .ok b ↔ ∃ k : Nat, i = k ∧ s[k]? = some b := by
  constructor
  · intro h
    cases i with
    | ofNat k =>
      refine ⟨k, rfl, ?_⟩
      change rd s (k : Int) = .ok b at h
      rw [rd_natCast] at h
      cases hk : s[k]? with
      | none => rw [hk] at h; cases h
      | some v => rw [hk] at h; cases h; rfl
    | negSucc k => cases h
  · rintro ⟨k, hi, h⟩
    exact rd_of_getElem? hi h

theorem rd_error {s : List Nat} {i : Int} {e : Fault} (h : rd s i = .error e) :
    e = .outOfRange := by
  cases i with
  | ofNat k =>
    change rd s (k : Int) = .error e at h
    rw [rd_natCast] at h
    cases hk : s[k]? with
    | none => rw [hk] at h; cases h; rfl
    | some v => rw [hk] at h; cases h
  | negSucc k => cases h; rfl

theorem rd_outOfRange {s : List Nat} {i : Int} (h : i < 0 ∨ (s.length : Int) ≤ i) :
    rd s i = .error .outOfRange := by
  cases i with
  | ofNat k =>
    change rd s (k : Int) = _
    rw [rd_natCast]
    have hk : s.length ≤ k := by
      rcases h with h | h
      · exact absurd h (by simp)
      · simp only [Int.ofNat_eq_coe] at h; exact_mod_cast h
    rw [List.getElem?_eq_none hk]
  | negSucc k => rfl

theorem rd_inRange {s : List Nat} {i : Int} (h0 : 0 ≤ i) (h1 : i < s.length) :
    ∃ b, rd s i = .ok b := by
  obtain ⟨k, rfl⟩ := Int.eq_ofNat_of_zero_le h0
  have hk : k < s.length := by exact_mod_cast h1
  exact ⟨s[k], rd_of_getElem? rfl (List.getElem?_eq_getElem hk)⟩

theorem rd_append_cons (L R : List Nat) (b : Nat) {i : Int} (hi : i = L.length) :
    rd (L ++ b :: R) i = .ok b :=
  rd_of_getElem? hi (by rw [List.getElem?_append_right (le_refl _)]; simp)

theorem copy_n_append (L bs R : List Nat) {i : Int} (hi : i = L.length) :
    copy_n (L ++ bs ++ R) i bs.length = .ok bs := by
  induction bs generalizing L i with
  | nil => rfl
  | cons b bs ih =>
    have h1 : rd (L ++ (b :: bs) ++ R) i = .ok b := by
      rw [List.append_assoc, List.cons_append]
      exact rd_append_cons L (bs ++ R) b hi
    have h2 : copy_n (L ++ (b :: bs) ++ R) (i + 1) bs.length = .ok bs := by
      have := ih (L ++ [b]) (i := i + 1) (by simp [hi])
      simpa [List.append_assoc] using this
    simp only [List.length_cons, copy_n, h1, h2, bind, Except.bind, pure, Except.pure]

theorem copy_n_error {s : List Nat} {i : Int} {n : Nat} {e : Fault}
    (h : copy_n s i n = .error e) : e = .outOfRange := by
  induction n generalizing i with
  | zero => cases h
  | succ n ih =>
    simp only [copy_n, bind, Except.bind] at h
    split at h
    · rename_i e1 h1; cases h; exact rd_error h1
    · split at h
      · rename_i e2 h2; cases h; exact ih h2
      · cases h

theorem copy_n_ok {s : List Nat} {i : Int} {n : Nat} {bs : List Nat}
    (h : copy_n s i n = .ok bs) :
    bs.length = n ∧ ∀ j : Nat, j < n → rd s (i + j) = .ok (bs.getD j 0) := by
  induction n generalizing i bs with
  | zero => cases h; simp
  | succ n ih =>
    simp only [copy_n, bind, Except.bind] at h
    split at h
    · cases h
    · rename_i b hb
      split at h
      · cases h
      · rename_i bs1 hbs
        cases h
        obtain ⟨hl, hj⟩ := ih hbs
        refine ⟨by simp [hl], ?_⟩
        intro j hjn
        cases j with
        | zero => simpa using hb
        | succ j =>
          have := hj j (by omega)
          simp only [List.getD_cons_succ]
          rw [← this]
          congr 1
          push_cast
          ring

/-! ### `filterCompare` -/

theorem filterCompareLoop_iff (data mask : List Nat) :
    filterCompareLoop data mask = true ↔
      mask.length ≤ data.length ∧
        ∀ i : Nat, i < mask.length → mask.getD i 0 = 0xFF ∨ mask.getD i 0 = data.getD i 0 := by
  induction mask generalizing data with
  | nil => simp [filterCompareLoop]
  | cons m mask ih =>
    cases data with
    | nil => simp [filterCompareLoop]
    | cons d data =>
      simp only [filterCompareLoop, List.length_cons, Nat.add_le_add_iff_right]
      by_cases hm : m ≠ 0xFF ∧ m ≠ d
      · rw [if_pos hm]
        simp only [Bool.false_eq_true, false_iff, not_and, not_forall]
        intro _
        refine ⟨0, by simp, ?_⟩
        simpa using hm
      · rw [if_neg hm, ih]
        refine and_congr_right fun _ => ?_
        constructor
        · intro h i hi
          cases i with
          | zero =>
            simp only [List.getD_cons_zero]
            by_contra hc
            exact hm ⟨fun h1 => hc (Or.inl h1), fun h2 => hc (Or.inr h2)⟩
          | succ i => simpa using h i (by omega)
        · intro h i hi
          simpa using h (i + 1) (by omega)

theorem filterCompare_iff (data mask : List Nat) :
    filterCompare data mask = true ↔
      mask.length ≤ data.length ∧
        ∀ i : Nat, i < mask.length → mask.getD i 0 = 0xFF ∨ mask.getD i 0 = data.getD i 0 := by
  unfold filterCompare
  by_cases h : data.length < mask.length
  · rw [if_pos h]
    simp only [Bool.false_eq_true, false_iff, not_and]
    intro h2
    omega
  · rw [if_neg h, filterCompareLoop_iff]

theorem getD_overwrite (out bytes : List Nat) (i : Nat) (hi : i < bytes.length) :
    (overwrite out bytes).getD i 0 = bytes.getD i 0 := by
  unfold overwrite
  simp [List.getD_eq_getElem?_getD, List.getElem?_append_left hi]

theorem length_overwrite (out bytes : List Nat) (h : bytes.length ≤ out.length) :
    (overwrite out bytes).length = out.length := by
  unfold overwrite
  simp
  omega

theorem filterCompare_overwrite (out bytes mask : List Nat) (h : bytes.length = mask.length) :
    filterCompare (overwrite out bytes) mask = filterCompare bytes mask := by
  rw [Bool.eq_iff_iff, filterCompare_iff, filterCompare_iff]
  have hl : mask.length ≤ (overwrite out bytes).length := by
    unfold overwrite; simp; omega
  constructor
  · rintro ⟨_, h2⟩
    refine ⟨by omega, fun i hi => ?_⟩
    rw [← getD_overwrite out bytes i (by omega)]
    exact h2 i hi
  · rintro ⟨_, h2⟩
    refine ⟨hl, fun i hi => ?_⟩
    rw [getD_overwrite out bytes i (by omega)]
    exact h2 i hi

/-! ## The matcher on well-formed scripts -/

theorem countLoop_chain (L R : List Nat) (k : Nat) (it_end : Int)
    (hit : it_end = L.length + k) :
    ∀ fuel n : Nat, n ≤ k → k < n + fuel →
      countLoop (L ++ OP_TRUE :: (List.replicate k OP_ENDIF ++ R)) it_end fuel n = .ok k := by
  intro fuel
  induction fuel with
  | zero => intro n h1 h2; omega
  | succ fuel ih =>
    intro n h1 h2
    rcases Nat.eq_or_lt_of_le h1 with h | h
    · subst h
      have hr : rd (L ++ OP_TRUE :: (List.replicate n OP_ENDIF ++ R)) (it_end - (n : Int))
          = .ok OP_TRUE := rd_append_cons L _ _ (by omega)
      simp only [countLoop, hr, bind, Except.bind, pure, Except.pure, if_true]
    · have hr : rd (L ++ OP_TRUE :: (List.replicate k OP_ENDIF ++ R)) (it_end - (n : Int))
          = .ok OP_ENDIF := by
        apply rd_of_getElem? (k := L.length + 1 + (k - n - 1)) (by omega)
        rw [List.getElem?_append_right (by omega)]
        have : L.length + 1 + (k - n - 1) - L.length = (k - n - 1) + 1 := by omega
        rw [this, List.getElem?_cons_succ, List.getElem?_append_left (by simp; omega)]
        simp [List.getElem?_replicate]
        omega
      have hne : ¬ (OP_ENDIF = OP_TRUE) := by decide
      simp only [countLoop, hr, bind, Except.bind, pure, Except.pure, hne, if_false,
        ne_eq, not_true_eq_false]
      exact ih (n + 1) (by omega) (by omega)

theorem filterCompare_mask2 (chunk : List Nat) :
    filterCompare (overwrite chunk [OP_EQUAL, OP_IF, OP_DROP, OP_TRUE, OP_ELSE]) byte_mask2
      = true := by
  rw [filterCompare_overwrite chunk [OP_EQUAL, OP_IF, OP_DROP, OP_TRUE, OP_ELSE] byte_mask2 rfl]; rfl

theorem betLink_length (g : Nat × List Nat) (hg : g.2.length = 4) : (betLink g).length = 11 := by
  simp [betLink, hg]

theorem betLoop_links (L : List Nat) (links : List (Nat × List Nat))
    (hf : ∀ g ∈ links, g.2.length = 4) :
    ∀ (R : List Nat) (it_end : Int) (chunk : List Nat) (acc : List Int),
      it_end = L.length + 11 * links.length → 5 ≤ chunk.length →
      ∃ chunk', chunk'.length = chunk.length ∧
        betLoop (L ++ (links.map betLink).flatten ++ R) links.length it_end chunk acc
          = .ok ((L.length : Int), chunk', acc ++ links.reverse.map fun g => array2type g.2) := by
  induction links using List.reverseRecOn with
  | nil =>
    intro R it_end chunk acc hit _
    exact ⟨chunk, rfl, by simp [betLoop, hit]⟩
  | append_singleton links g ih =>
    intro R it_end chunk acc hit hchunk
    have hg : g.2.length = 4 := hf g (by simp)
    have hf' : ∀ g ∈ links, g.2.length = 4 := fun g' h' => hf g' (by simp [h'])
    have hlen : ((links.map betLink).flatten).length = 11 * links.length := by
      clear ih hit
      induction links with
      | nil => rfl
      | cons a l ihl =>
        simp only [List.map_cons, List.flatten_cons, List.length_append, List.length_cons]
        rw [ihl (fun g' h' => hf g' (by simp at h' ⊢; tauto))
          (fun g' h' => hf' g' (by simp [h'])), betLink_length a (hf' a (by simp))]
        omega
    simp only [List.length_append, List.length_singleton] at hit
    -- the script, with the last link spelled out
    set P := L ++ (links.map betLink).flatten with hP
    have hPlen : (P.length : Int) = L.length + 11 * links.length := by
      simp [hP, hlen]
    have hs : L ++ ((links ++ [g]).map betLink).flatten ++ R
        = P ++ ([OP_DUP, g.1] ++ g.2 ++ [OP_EQUAL, OP_IF, OP_DROP, OP_TRUE, OP_ELSE]) ++ R := by
      simp [hP, betLink, List.append_assoc]
    rw [hs]
    have h1 : copy_n (P ++ ([OP_DUP, g.1] ++ g.2 ++ [OP_EQUAL, OP_IF, OP_DROP, OP_TRUE, OP_ELSE]) ++ R)
        (it_end - 5) 5 = .ok [OP_EQUAL, OP_IF, OP_DROP, OP_TRUE, OP_ELSE] := by
      have := copy_n_append (P ++ ([OP_DUP, g.1] ++ g.2)) [OP_EQUAL, OP_IF, OP_DROP, OP_TRUE, OP_ELSE] R
        (i := it_end - 5) (by simp [hg]; omega)
      simpa [List.append_assoc] using this
    have h2 : copy_n (P ++ ([OP_DUP, g.1] ++ g.2 ++ [OP_EQUAL, OP_IF, OP_DROP, OP_TRUE, OP_ELSE]) ++ R)
        (it_end - 5 - 4) 4 = .ok g.2 := by
      have := copy_n_append (P ++ [OP_DUP, g.1]) g.2
        ([OP_EQUAL, OP_IF, OP_DROP, OP_TRUE, OP_ELSE] ++ R)
        (i := it_end - 5 - 4) (by simp; omega)
      rw [hg] at this
      simpa [List.append_assoc] using this
    have h3 : rd (P ++ ([OP_DUP, g.1] ++ g.2 ++ [OP_EQUAL, OP_IF, OP_DROP, OP_TRUE, OP_ELSE]) ++ R)
        (it_end - 5 - (4 + 2)) = .ok OP_DUP := by
      have := rd_append_cons P (g.1 :: (g.2 ++ [OP_EQUAL, OP_IF, OP_DROP, OP_TRUE, OP_ELSE] ++ R))
        OP_DUP (i := it_end - 5 - (4 + 2)) (by omega)
      simpa [List.append_assoc] using this
    obtain ⟨chunk', hc', hrec⟩ := ih hf'
      (betLink g ++ R) (it_end - 5 - (4 + 2))
      (overwrite chunk [OP_EQUAL, OP_IF, OP_DROP, OP_TRUE, OP_ELSE])
      (acc ++ [array2type g.2]) (by omega) (by unfold overwrite; simp)
    refine ⟨chunk', ?_, ?_⟩
    · rw [hc']; unfold overwrite; simp; omega
    · have hrec' :
          betLoop (P ++ ([OP_DUP, g.1] ++ g.2 ++ [OP_EQUAL, OP_IF, OP_DROP, OP_TRUE, OP_ELSE]) ++ R)
            links.length (it_end - 5 - (4 + 2))
            (overwrite chunk [OP_EQUAL, OP_IF, OP_DROP, OP_TRUE, OP_ELSE])
            (acc ++ [array2type g.2])
          = .ok ((L.length : Int), chunk',
              acc ++ [array2type g.2] ++ links.reverse.map fun g => array2type g.2) := by
        rw [← hrec]
        congr 1
        simp [hP, betLink, List.append_assoc]
      simp only [List.length_append, List.length_singleton, betLoop, h1, h2, h3, bind,
        Except.bind, pure, Except.pure, filterCompare_mask2, Bool.not_true, Bool.false_eq_true,
        if_false, ne_eq, not_true_eq_false, hrec']
      simp

theorem isInputBetBody_eq (s : List Nat) :
    isInputBetBody s = (do
      let input_script_chunk ← copy_n s ((s.length : Int) - 10) 10
      if !filterCompare input_script_chunk byte_mask then throw .returnFalse
      let n ← countLoop s ((s.length : Int) - (10 + 1)) 18 0
      isInputBetMid s ((s.length : Int) - (10 + 1) - ((n + 1 : Nat) : Int))
        input_script_chunk (n + 1)) := rfl

theorem flatten_betLink_length (links : List (Nat × List Nat))
    (hf : ∀ g ∈ links, g.2.length = 4) :
    ((links.map betLink).flatten).length = 11 * links.length := by
  induction links with
  | nil => rfl
  | cons a l ihl =>
    simp only [List.map_cons, List.flatten_cons, List.length_append, List.length_cons]
    rw [ihl (fun g' h' => hf g' (by simp [h'])), betLink_length a (hf a (by simp))]
    omega

theorem forwardCursor_pushes (d1 d2 d3 H R : List Nat)
    (hH : (∃ x, H = [0x4c, x]) ∨ (∃ x, x ≠ 0x4c ∧ H = [x])) :
    forwardCursor (directPush d1 ++ directPush d2 ++ directPush d3 ++ H ++ R)
      = .ok ((directPush d1 ++ directPush d2 ++ directPush d3 ++ H).length : Int) := by
  have h1 : rd (directPush d1 ++ directPush d2 ++ directPush d3 ++ H ++ R) 0 = .ok d1.length := by
    have := rd_append_cons [] (d1 ++ directPush d2 ++ directPush d3 ++ H ++ R) d1.length
      (i := 0) (by simp)
    simpa [directPush, List.append_assoc] using this
  have h2 : rd (directPush d1 ++ directPush d2 ++ directPush d3 ++ H ++ R)
      (0 + ((d1.length : Int) + 1)) = .ok d2.length := by
    have := rd_append_cons (directPush d1) (d2 ++ directPush d3 ++ H ++ R) d2.length
      (i := 0 + ((d1.length : Int) + 1)) (by simp [directPush])
    simpa [directPush, List.append_assoc] using this
  have h3 : rd (directPush d1 ++ directPush d2 ++ directPush d3 ++ H ++ R)
      (0 + ((d1.length : Int) + 1) + ((d2.length : Int) + 1)) = .ok d3.length := by
    have := rd_append_cons (directPush d1 ++ directPush d2) (d3 ++ H ++ R) d3.length
      (i := 0 + ((d1.length : Int) + 1) + ((d2.length : Int) + 1)) (by simp [directPush]; ring)
    simpa [directPush, List.append_assoc] using this
  rcases hH with ⟨x, rfl⟩ | ⟨x, hx, rfl⟩
  · have h4 : rd (directPush d1 ++ directPush d2 ++ directPush d3 ++ [0x4c, x] ++ R)
        (0 + ((d1.length : Int) + 1) + ((d2.length : Int) + 1) + ((d3.length : Int) + 1))
        = .ok 0x4c := by
      have := rd_append_cons (directPush d1 ++ directPush d2 ++ directPush d3) (x :: R) 0x4c
        (i := 0 + ((d1.length : Int) + 1) + ((d2.length : Int) + 1) + ((d3.length : Int) + 1))
        (by simp [directPush]; ring)
      simpa [List.append_assoc] using this
    simp only [forwardCursor, h1, h2, h3, h4, bind, Except.bind, pure, Except.pure, if_true]
    congr 1
    simp [directPush]
    ring
  · have h4 : rd (directPush d1 ++ directPush d2 ++ directPush d3 ++ [x] ++ R)
        (0 + ((d1.length : Int) + 1) + ((d2.length : Int) + 1) + ((d3.length : Int) + 1))
        = .ok x := by
      have := rd_append_cons (directPush d1 ++ directPush d2 ++ directPush d3) R x
        (i := 0 + ((d1.length : Int) + 1) + ((d2.length : Int) + 1) + ((d3.length : Int) + 1))
        (by simp [directPush]; ring)
      simpa [List.append_assoc] using this
    simp only [forwardCursor, h1, h2, h3, h4, bind, Except.bind, pure, Except.pure, hx, if_false]
    congr 1
    simp [directPush]
    ring

theorem lengthHeader_shape (len : Nat) :
    (∃ x, lengthHeader len = [0x4c, x]) ∨ (∃ x, x ≠ 0x4c ∧ lengthHeader len = [x]) := by
  unfold lengthHeader
  by_cases h : 75 < len
  · exact Or.inl ⟨len, by rw [if_pos h]⟩
  · exact Or.inr ⟨len, by omega, by rw [if_neg h]⟩

theorem filterCompare_window (tail5 : List Nat) (h5 : tail5.length = 5) :
    filterCompare ([OP_ELSE, OP_DROP, OP_FALSE, OP_ENDIF] ++ tail5 ++ [OP_DROP]) byte_mask
      = true := by
  match tail5, h5 with
  | [a, b, c, d, e], _ => simp [filterCompare, filterCompareLoop, byte_mask]

theorem isInputBetBody_redeem (A pkh tail5 : List Nat) (init : List (Nat × List Nat))
    (last : Nat × List Nat) (hpkh : pkh.length = 21) (h5 : tail5.length = 5)
    (hf : ∀ g ∈ init, g.2.length = 4) (hl : last.2.length = 4) (hk : init.length ≤ 17)
    (hfw : forwardCursor (A ++ redeemScript pkh init last tail5) = .ok (A.length : Int)) :
    isInputBetBody (A ++ redeemScript pkh init last tail5)
      = .ok (init.length + 1, array2type last.2 :: init.reverse.map fun g => array2type g.2) := by
  have hG := flatten_betLink_length init hf
  set G := (init.map betLink).flatten with hGdef
  set k := init.length with hkdef
  set W := [OP_ELSE, OP_DROP, OP_FALSE, OP_ENDIF] ++ tail5 ++ [OP_DROP] with hW
  have hWlen : W.length = 10 := by simp [hW, h5]
  set s := A ++ redeemScript pkh init last tail5 with hs
  -- the script, cut at the places the matcher visits
  set B := A ++ [OP_DUP, OP_HASH160] ++ pkh with hB
  set C := B ++ [OP_EQUALVERIFY, OP_CHECKSIG, OP_IF] with hC
  have hBlen : (B.length : Int) = A.length + 23 := by simp [hB, hpkh]
  have hClen : (C.length : Int) = A.length + 26 := by
    rw [hC, List.length_append]; push_cast; rw [hBlen]; simp; ring
  have hs1 : s = C ++ G ++ ([last.1] ++ last.2 ++ [OP_EQUALVERIFY, OP_TRUE])
      ++ List.replicate k OP_ENDIF ++ W := by
    simp [hs, redeemScript, hC, hB, hW, List.append_assoc]
  have hslen : (s.length : Int) = A.length + 31 + 12 * (k + 1) := by
    rw [hs1]; simp [hClen, hG, hl, hWlen]; ring
  -- lines 31-38
  have e1 : copy_n s ((s.length : Int) - 10) 10 = .ok W := by
    have := copy_n_append (C ++ G ++ ([last.1] ++ last.2 ++ [OP_EQUALVERIFY, OP_TRUE])
      ++ List.replicate k OP_ENDIF) W [] (i := (s.length : Int) - 10)
      (by rw [hslen]; simp [hClen, hG, hl]; ring)
    rw [hWlen, List.append_nil, ← hs1] at this
    exact this
  have e2 : filterCompare W byte_mask = true := filterCompare_window tail5 h5
  -- lines 42-50
  have e3 : countLoop s ((s.length : Int) - (10 + 1)) 18 0 = .ok k := by
    have := countLoop_chain (C ++ G ++ ([last.1] ++ last.2 ++ [OP_EQUALVERIFY])) W k
      ((s.length : Int) - (10 + 1)) (by rw [hslen]; simp [hClen, hG, hl]; ring) 18 0
      (Nat.zero_le _) (by omega)
    rw [← this, hs1]
    congr 1
    simp [List.append_assoc]
  -- lines 54-64
  have e4 : rd s ((s.length : Int) - (10 + 1) - ((k + 1 : Nat) : Int)) = .ok OP_EQUALVERIFY := by
    have := rd_append_cons (C ++ G ++ ([last.1] ++ last.2))
      (OP_TRUE :: (List.replicate k OP_ENDIF ++ W)) OP_EQUALVERIFY
      (i := (s.length : Int) - (10 + 1) - ((k + 1 : Nat) : Int))
      (by rw [hslen]; simp [hClen, hG, hl]; ring)
    rw [← this, hs1]
    congr 1
    simp [List.append_assoc]
  have e5 : copy_n s ((s.length : Int) - (10 + 1) - ((k + 1 : Nat) : Int) - 4) 4 = .ok last.2 := by
    have := copy_n_append (C ++ G ++ [last.1]) last.2
      ([OP_EQUALVERIFY, OP_TRUE] ++ List.replicate k OP_ENDIF ++ W)
      (i := (s.length : Int) - (10 + 1) - ((k + 1 : Nat) : Int) - 4)
      (by rw [hslen]; simp [hClen, hG]; ring)
    rw [hl] at this
    rw [← this, hs1]
    congr 1
    simp [List.append_assoc]
  -- lines 66-91
  obtain ⟨chunk', hc', e6⟩ := betLoop_links C init hf
    (([last.1] ++ last.2 ++ [OP_EQUALVERIFY, OP_TRUE]) ++ List.replicate k OP_ENDIF ++ W)
    ((s.length : Int) - (10 + 1) - ((k + 1 : Nat) : Int) - 5) W [array2type last.2]
    (by rw [hslen, hClen]; push_cast; ring) (by omega)
  have e6' : betLoop s k ((s.length : Int) - (10 + 1) - ((k + 1 : Nat) : Int) - 5) W
      [array2type last.2]
      = .ok ((C.length : Int), chunk', [array2type last.2] ++ init.reverse.map fun g => array2type g.2) := by
    rw [← e6, hs1]
    congr 1
    simp [List.append_assoc]
  -- lines 93-111
  have e7 : copy_n s ((C.length : Int) - 3) 3 = .ok [OP_EQUALVERIFY, OP_CHECKSIG, OP_IF] := by
    have := copy_n_append B [OP_EQUALVERIFY, OP_CHECKSIG, OP_IF]
      (G ++ ([last.1] ++ last.2 ++ [OP_EQUALVERIFY, OP_TRUE]) ++ List.replicate k OP_ENDIF ++ W)
      (i := (C.length : Int) - 3) (by rw [hClen, hBlen]; ring)
    rw [← this, hs1]
    congr 1
    simp [hC, List.append_assoc]
  have e8 : filterCompare (overwrite chunk' [OP_EQUALVERIFY, OP_CHECKSIG, OP_IF]) byte_mask3
      = true := by
    rw [filterCompare_overwrite chunk' [OP_EQUALVERIFY, OP_CHECKSIG, OP_IF] byte_mask3 rfl]; rfl
  have e9 : copy_n s ((C.length : Int) - (3 + 21) - 2) 2 = .ok [OP_DUP, OP_HASH160] := by
    have := copy_n_append A [OP_DUP, OP_HASH160]
      (pkh ++ [OP_EQUALVERIFY, OP_CHECKSIG, OP_IF]
        ++ G ++ ([last.1] ++ last.2 ++ [OP_EQUALVERIFY, OP_TRUE]) ++ List.replicate k OP_ENDIF ++ W)
      (i := (C.length : Int) - (3 + 21) - 2) (by rw [hClen]; ring)
    rw [← this, hs1]
    congr 1
    simp [hC, hB, List.append_assoc]
  have e10 : filterCompare (overwrite (overwrite chunk' [OP_EQUALVERIFY, OP_CHECKSIG, OP_IF])
      [OP_DUP, OP_HASH160]) byte_mask4 = true := by
    rw [filterCompare_overwrite _ [OP_DUP, OP_HASH160] byte_mask4 rfl]; rfl
  have e11 : ¬ ((C.length : Int) - (3 + 21) - 2 ≠ (A.length : Int)) := by
    rw [hClen]; simp; ring
  rw [isInputBetBody_eq]
  simp only [e1, e2, e3, bind, Except.bind, isInputBetMid, e4, e5, e6', isInputBetTail, e7, e8,
    e9, e10, hfw, e11, pure, Except.pure, Bool.not_true, Bool.false_eq_true, if_false, ne_eq,
    not_true_eq_false, Nat.add_sub_cancel, List.singleton_append]


/-! ## What an accepting run has checked -/

theorem bind_ok_iff {α β : Type} {x : Except Fault α} {f : α → Except Fault β} {b : β} :
    (x >>= f) = .ok b ↔ ∃ a, x = .ok a ∧ f a = .ok b := by
  cases x with
  | error e => simp [bind, Except.bind]
  | ok a => simp [bind, Except.bind]

theorem guard_eq {β : Type} (c : Prop) [Decidable c] (k : Except Fault β) :
    (do if c then throw Fault.returnFalse
        k) = if c then .error .returnFalse else k := by
  by_cases h : c
  · simp only [if_pos h]; rfl
  · simp only [if_neg h]; rfl

theorem guard_ok_iff {β : Type} {c : Prop} [Decidable c] {k : Except Fault β} {b : β} :
    (if c then .error .returnFalse else k) = .ok b ↔ ¬c ∧ k = .ok b := by
  by_cases h : c
  · simp [if_pos h, h]
  · simp [if_neg h, h]

theorem isInputBetTail_ok {s : List Nat} {c : Int} {chunk : List Nat} {N : Nat}
    {nums : List Int} {r : Nat × List Int} (h : isInputBetTail s c chunk N nums = .ok r) :
    r = (N, nums) ∧ ∃ m3 m4,
      copy_n s (c - 3) 3 = .ok m3 ∧ filterCompare (overwrite chunk m3) byte_mask3 = true ∧
      copy_n s (c - (3 + 21) - 2) 2 = .ok m4 ∧
      filterCompare (overwrite (overwrite chunk m3) m4) byte_mask4 = true ∧
      forwardCursor s = .ok (c - (3 + 21) - 2) := by
  unfold isInputBetTail at h
  simp only [guard_eq, bind_ok_iff, guard_ok_iff] at h
  obtain ⟨m3, h1, hf3, m4, h2, hf4, f, h3, hne, h⟩ := h
  simp only [pure, Except.pure, Except.ok.injEq] at h
  simp only [ne_eq, not_not] at hne
  refine ⟨h.symm, m3, m4, h1, by simpa using hf3, h2, by simpa using hf4, ?_⟩
  rw [h3, hne]

theorem isInputBetMid_ok {s : List Nat} {c : Int} {chunk : List Nat} {N : Nat}
    {r : Nat × List Int} (h : isInputBetMid s c chunk N = .ok r) :
    ∃ x c' chunk' nums,
      rd s c = .ok OP_EQUALVERIFY ∧ copy_n s (c - 4) 4 = .ok x ∧
      betLoop s (N - 1) (c - 5) chunk [array2type x] = .ok (c', chunk', nums) ∧
      isInputBetTail s c' chunk' N nums = .ok r := by
  unfold isInputBetMid at h
  simp only [guard_eq, bind_ok_iff, guard_ok_iff] at h
  obtain ⟨b, h1, hb, x, h2, ⟨c', chunk', nums⟩, h3, h⟩ := h
  simp only [ne_eq, not_not] at hb
  exact ⟨x, c', chunk', nums, by rw [h1, hb], h2, h3, h⟩

theorem isInputBetBody_ok {s : List Nat} {r : Nat × List Int} (h : isInputBetBody s = .ok r) :
    ∃ w k,
      copy_n s ((s.length : Int) - 10) 10 = .ok w ∧ filterCompare w byte_mask = true ∧
      countLoop s ((s.length : Int) - (10 + 1)) 18 0 = .ok k ∧
      isInputBetMid s ((s.length : Int) - (10 + 1) - ((k + 1 : Nat) : Int)) w (k + 1) = .ok r := by
  rw [isInputBetBody_eq] at h
  simp only [guard_eq, bind_ok_iff, guard_ok_iff] at h
  obtain ⟨w, h1, hw, k, h2, h⟩ := h
  exact ⟨w, k, h1, by simpa using hw, h2, h⟩

theorem countLoop_succ (s : List Nat) (it_end : Int) (fuel n : Nat) :
    countLoop s it_end (fuel + 1) n =
      (rd s (it_end - n) >>= fun b =>
        if b = OP_TRUE then .ok n
        else if b ≠ OP_ENDIF then .error .returnFalse
        else countLoop s it_end fuel (n + 1)) := by
  simp only [countLoop]
  cases h : rd s (it_end - n) with
  | error e => rfl
  | ok b =>
    simp only [bind, Except.bind, h]
    by_cases h1 : b = OP_TRUE
    · simp only [if_pos h1]; rfl
    · simp only [if_neg h1]
      by_cases h2 : b ≠ OP_ENDIF
      · simp only [if_pos h2]; rfl
      · simp only [if_neg h2]

theorem countLoop_bounds {s : List Nat} {it_end : Int} :
    ∀ (fuel n k : Nat), countLoop s it_end fuel n = .ok k → n ≤ k ∧ k ≤ n + fuel := by
  intro fuel
  induction fuel with
  | zero =>
    intro n k h
    simp only [countLoop, Except.ok.injEq] at h
    omega
  | succ fuel ih =>
    intro n k h
    rw [countLoop_succ, bind_ok_iff] at h
    obtain ⟨b, _, h⟩ := h
    by_cases h1 : b = OP_TRUE
    · simp only [if_pos h1, Except.ok.injEq] at h
      omega
    · simp only [if_neg h1, guard_ok_iff] at h
      have := ih _ _ h.2
      omega

theorem betLoop_succ (s : List Nat) (k : Nat) (c : Int) (chunk : List Nat) (acc : List Int) :
    betLoop s (k + 1) c chunk acc =
      (copy_n s (c - 5) 5 >>= fun bytes =>
        if (!filterCompare (overwrite chunk bytes) byte_mask2) = true then .error .returnFalse
        else copy_n s (c - 5 - 4) 4 >>= fun x =>
          rd s (c - 5 - (4 + 2)) >>= fun b =>
            if b ≠ OP_DUP then .error .returnFalse
            else betLoop s k (c - 5 - (4 + 2)) (overwrite chunk bytes) (acc ++ [array2type x])) := by
  simp only [betLoop, guard_eq]

theorem betLoop_cursor {s : List Nat} :
    ∀ (k : Nat) (c : Int) (chunk : List Nat) (acc : List Int) (c' : Int) (chunk' : List Nat)
      (nums : List Int), betLoop s k c chunk acc = .ok (c', chunk', nums) →
      c' = c - 11 * k ∧ nums.length = acc.length + k := by
  intro k
  induction k with
  | zero =>
    intro c chunk acc c' chunk' nums h
    simp only [betLoop, Except.ok.injEq, Prod.mk.injEq] at h
    obtain ⟨rfl, -, rfl⟩ := h
    simp
  | succ k ih =>
    intro c chunk acc c' chunk' nums h
    simp only [betLoop_succ, bind_ok_iff, guard_ok_iff] at h
    obtain ⟨bytes, _, _, x, _, b, _, _, h⟩ := h
    obtain ⟨h1, h2⟩ := ih _ _ _ _ _ _ h
    refine ⟨?_, ?_⟩
    · rw [h1]; push_cast; ring
    · rw [h2]; simp; omega

theorem rd_ok_getD {s : List Nat} {i : Int} {b : Nat} (h : rd s i = .ok b) :
    0 ≤ i ∧ i < s.length ∧ b = s.getD i.toNat 0 := by
  obtain ⟨k, rfl, hk⟩ := rd_ok_iff.mp h
  have hlt : k < s.length := by
    by_contra hc
    rw [List.getElem?_eq_none (by omega)] at hk
    cases hk
  refine ⟨by omega, by exact_mod_cast hlt, ?_⟩
  simp [List.getD_eq_getElem?_getD, hk]

theorem forwardCursor_ok {s : List Nat} {f : Int} (h : forwardCursor s = .ok f) :
    f = (specForwardCursor s : Int) := by
  unfold forwardCursor at h
  simp only [bind_ok_iff] at h
  obtain ⟨b1, h1, b2, h2, b3, h3, b4, h4, h⟩ := h
  simp only [pure, Except.pure, Except.ok.injEq] at h
  obtain ⟨-, -, e1⟩ := rd_ok_getD h1
  obtain ⟨-, -, e2⟩ := rd_ok_getD h2
  obtain ⟨-, -, e3⟩ := rd_ok_getD h3
  obtain ⟨-, -, e4⟩ := rd_ok_getD h4
  have t1 : ((0 : Int) + ((b1 : Int) + 1)).toNat = b1 + 1 := by omega
  have t2 : ((0 : Int) + ((b1 : Int) + 1) + ((b2 : Int) + 1)).toNat = b1 + 1 + b2 + 1 := by omega
  have t3 : ((0 : Int) + ((b1 : Int) + 1) + ((b2 : Int) + 1) + ((b3 : Int) + 1)).toNat
      = b1 + 1 + b2 + 1 + b3 + 1 := by omega
  rw [t1] at e2
  rw [t2] at e3
  rw [t3] at e4
  simp only [Int.toNat_zero] at e1
  unfold specForwardCursor
  simp only [← e1, ← e2, ← e3, ← e4]
  rw [← h]
  by_cases hb : b4 = 0x4c
  · rw [if_pos hb, if_pos hb]; push_cast; ring
  · rw [if_neg hb, if_neg hb]; push_cast; ring

theorem isInputBetBody_length {s : List Nat} {N : Nat} {nums : List Int}
    (h : isInputBetBody s = .ok (N, nums)) :
    1 ≤ N ∧ N ≤ 19 ∧ nums.length = N ∧ s.length = specForwardCursor s + 31 + 12 * N := by
  obtain ⟨w, k, _, _, h3, h⟩ := isInputBetBody_ok h
  obtain ⟨x, c', chunk', nums', _, _, h6, h⟩ := isInputBetMid_ok h
  obtain ⟨hr, m3, m4, _, _, _, _, hfw⟩ := isInputBetTail_ok h
  simp only [Prod.mk.injEq] at hr
  obtain ⟨rfl, rfl⟩ := hr
  obtain ⟨hc, hn⟩ := betLoop_cursor _ _ _ _ _ _ _ h6
  have hk := countLoop_bounds _ _ _ h3
  have hf := forwardCursor_ok hfw
  simp only [Nat.add_sub_cancel] at hc hn
  refine ⟨by omega, by omega, by simpa [Nat.add_comm] using hn, ?_⟩
  rw [hc] at hf
  push_cast at hf
  omega

/-! ## Changing one byte of a script -/

theorem rd_set_ne (s : List Nat) (p b : Nat) (i : Int) (h : i ≠ (p : Int)) :
    rd (s.set p b) i = rd s i := by
  cases i with
  | ofNat k =>
    have hk : p ≠ k := by
      intro hk; apply h; simp [hk]
    show rd (s.set p b) (k : Int) = rd s (k : Int)
    rw [rd_natCast, rd_natCast, List.getElem?_set_ne hk]
  | negSucc k => rfl

theorem rd_set_eq (s : List Nat) (p b : Nat) (h : p < s.length) (i : Int) (hi : i = (p : Int)) :
    rd (s.set p b) i = .ok b :=
  rd_of_getElem? hi (by simp [List.getElem?_set_self, h])

theorem copy_n_set_outside (s : List Nat) (p b : Nat) (n : Nat) :
    ∀ i : Int, ((p : Int) < i ∨ i + n ≤ p) → copy_n (s.set p b) i n = copy_n s i n := by
  induction n with
  | zero => intro i _; rfl
  | succ n ih =>
    intro i h
    simp only [copy_n]
    rw [rd_set_ne s p b i (by push_cast at h; omega), ih (i + 1) (by push_cast at h; omega)]

theorem copy_n_set_inside (s : List Nat) (p b : Nat) (hp : p < s.length) (n : Nat) :
    ∀ (i : Int) (bs : List Nat) (j : Nat), copy_n s i n = .ok bs → j < n → (p : Int) = i + j →
      copy_n (s.set p b) i n = .ok (bs.set j b) := by
  induction n with
  | zero => intro i bs j _ hj; omega
  | succ n ih =>
    intro i bs j h hj hpj
    simp only [copy_n, bind_ok_iff, pure, Except.pure, Except.ok.injEq] at h
    obtain ⟨b0, h0, bs1, h1, rfl⟩ := h
    cases j with
    | zero =>
      have e0 : rd (s.set p b) i = .ok b := rd_set_eq s p b hp i (by simpa using hpj.symm)
      have e1 : copy_n (s.set p b) (i + 1) n = .ok bs1 := by
        rw [copy_n_set_outside s p b n (i + 1) (Or.inl (by push_cast at hpj; omega))]
        exact h1
      simp only [copy_n, e0, e1, bind, Except.bind, pure, Except.pure, List.set_cons_zero]
    | succ j =>
      have e0 : rd (s.set p b) i = .ok b0 := by
        rw [rd_set_ne s p b i (by push_cast at hpj; omega)]; exact h0
      have e1 := ih (i + 1) bs1 j h1 (by omega) (by push_cast at hpj ⊢; omega)
      simp only [copy_n, e0, e1, bind, Except.bind, pure, Except.pure, List.set_cons_succ]

theorem copy_n_getD {s : List Nat} {i : Int} {n : Nat} {bs : List Nat}
    (h : copy_n s i n = .ok bs) (j : Nat) (hj : j < n) :
    0 ≤ i + j ∧ i + j < s.length ∧ bs.getD j 0 = s.getD (i + j).toNat 0 := by
  obtain ⟨_, h2⟩ := copy_n_ok h
  obtain ⟨h0, h1, e⟩ := rd_ok_getD (h2 j hj)
  exact ⟨h0, h1, e⟩

theorem copy_n_inRange (s : List Nat) (n : Nat) :
    ∀ i : Int, 0 ≤ i → i + n ≤ s.length → ∃ bs, copy_n s i n = .ok bs := by
  induction n with
  | zero => intro i _ _; exact ⟨[], rfl⟩
  | succ n ih =>
    intro i h0 h1
    obtain ⟨b0, e0⟩ := rd_inRange (s := s) (i := i) h0 (by push_cast at h1; omega)
    obtain ⟨bs, e1⟩ := ih (i + 1) (by omega) (by push_cast at h1 ⊢; omega)
    exact ⟨b0 :: bs, by simp only [copy_n, e0, e1, bind, Except.bind, pure, Except.pure]⟩

theorem filterCompare_set {bs mask : List Nat} (h : filterCompare bs mask = true) (j b : Nat)
    (hj : j < mask.length) (hm : mask.getD j 0 ≠ 0xFF) (hb : b ≠ bs.getD j 0) :
    bs.getD j 0 = mask.getD j 0 ∧ filterCompare (bs.set j b) mask = false := by
  rw [filterCompare_iff] at h
  obtain ⟨hl, hall⟩ := h
  have hv : mask.getD j 0 = bs.getD j 0 := (hall j hj).resolve_left hm
  refine ⟨hv.symm, ?_⟩
  rw [Bool.eq_false_iff]
  intro hc
  rw [filterCompare_iff] at hc
  obtain ⟨_, hall'⟩ := hc
  have := (hall' j hj).resolve_left hm
  have hjb : j < bs.length := by omega
  rw [List.getD_eq_getElem?_getD (bs.set j b), List.getElem?_set_self (by simpa using hjb)] at this
  simp only [Option.getD_some] at this
  apply hb
  rw [← this, ← hv]

/-- A template check (`copy_n` into the scratch array, then `filterCompare`) that passed
on `s` fails when the byte under a non-wildcard position of the mask is changed. -/
theorem check_mut {s : List Nat} {p b : Nat} {i : Int} {n : Nat} {bs chunk mask : List Nat}
    (hc : copy_n s i n = .ok bs) (hf : filterCompare (overwrite chunk bs) mask = true)
    (hn : mask.length = n) (j : Nat) (hj : j < n) (hm : mask.getD j 0 ≠ 0xFF)
    (hp : (p : Int) = i + j) (hb : b ≠ s.getD p 0) :
    s.getD p 0 = mask.getD j 0 ∧
      copy_n (s.set p b) i n = .ok (bs.set j b) ∧
      filterCompare (overwrite chunk (bs.set j b)) mask = false := by
  obtain ⟨h0, h1, e⟩ := copy_n_getD hc j hj
  have hpn : (i + j).toNat = p := by omega
  rw [hpn] at e
  have hlen := (copy_n_ok hc).1
  rw [filterCompare_overwrite chunk bs mask (by omega)] at hf
  obtain ⟨e1, e2⟩ := filterCompare_set hf j b (by omega) hm (by rw [e]; exact hb)
  refine ⟨by rw [← e, e1], copy_n_set_inside s p b (by omega) n i bs j hc hj hp, ?_⟩
  rw [filterCompare_overwrite chunk (bs.set j b) mask (by simp; omega)]
  exact e2

theorem betLoop_set_outside (s : List Nat) (p b : Nat) :
    ∀ (k : Nat) (c : Int) (chunk : List Nat) (acc : List Int),
      ((p : Int) < c - 11 * k ∨ c ≤ p) →
      betLoop (s.set p b) k c chunk acc = betLoop s k c chunk acc := by
  intro k
  induction k with
  | zero => intro c chunk acc _; rfl
  | succ k ih =>
    intro c chunk acc h
    have ih' := fun chunk acc =>
      ih (c - 5 - (4 + 2)) chunk acc (by push_cast at h ⊢; omega)
    rw [betLoop_succ, betLoop_succ,
      copy_n_set_outside s p b 5 (c - 5) (by push_cast at h ⊢; omega),
      copy_n_set_outside s p b 4 (c - 5 - 4) (by push_cast at h ⊢; omega),
      rd_set_ne s p b (c - 5 - (4 + 2)) (by push_cast at h; omega)]
    simp only [ih']

theorem linkFixed_cases {q v : Nat} (h : linkFixed q = some v) :
    (q < 5 ∧ byte_mask2.getD (4 - q) 0 = v ∧ v ≠ 0xFF) ∨ (q = 10 ∧ v = OP_DUP) := by
  unfold linkFixed at h
  split at h <;> simp only [Option.some.injEq, reduceCtorEq] at h <;> subst h <;> decide

theorem betLoop_set_fixed (s : List Nat) (p b : Nat) (hp : p < s.length)
    (hb : b ≠ s.getD p 0) :
    ∀ (k : Nat) (c : Int) (chunk : List Nat) (acc : List Int) (r : Int × List Nat × List Int)
      (q v : Nat), betLoop s k c chunk acc = .ok r → q < 11 * k →
      linkFixed (q % 11) = some v → (p : Int) = c - 1 - q →
      s.getD p 0 = v ∧ betLoop (s.set p b) k c chunk acc = .error .returnFalse := by
  intro k
  induction k with
  | zero => intro c chunk acc r q v _ hq; omega
  | succ k ih =>
    intro c chunk acc r q v h hq hv hpq
    rw [betLoop_succ] at h
    simp only [bind_ok_iff, guard_ok_iff] at h
    obtain ⟨bytes, h1, hf, x, h2, b0, h3, hdup, hrec⟩ := h
    simp only [Bool.not_eq_true', Bool.not_eq_false] at hf
    simp only [ne_eq, not_not] at hdup
    subst hdup
    rw [betLoop_succ]
    by_cases hq11 : q < 11
    · rw [Nat.mod_eq_of_lt hq11] at hv
      rcases linkFixed_cases hv with ⟨hq5, hmv, hff⟩ | ⟨hq10, rfl⟩
      · obtain ⟨e1, e2, e3⟩ := check_mut (p := p) (b := b) h1 hf rfl (4 - q) (by omega)
          (by rw [hmv]; exact hff) (by omega) hb
        refine ⟨by rw [e1, hmv], ?_⟩
        simp only [e2, e3, bind, Except.bind, Bool.not_false, if_true]
      · obtain ⟨_, _, e⟩ := rd_ok_getD h3
        have hpn : (c - 5 - (4 + 2)).toNat = p := by omega
        rw [hpn] at e
        refine ⟨e.symm, ?_⟩
        have e3 : rd (s.set p b) (c - 5 - (4 + 2)) = .ok b :=
          rd_set_eq s p b hp _ (by omega)
        have hbd : b ≠ OP_DUP := by rw [e]; exact hb
        rw [copy_n_set_outside s p b 5 (c - 5) (by omega),
          copy_n_set_outside s p b 4 (c - 5 - 4) (by omega)]
        simp only [h1, hf, h2, e3, bind, Except.bind, Bool.not_true, Bool.false_eq_true,
          if_false, hbd, ne_eq, not_false_eq_true, if_true]
    · have hmod : (q - 11) % 11 = q % 11 := by omega
      obtain ⟨e, hrej⟩ := ih (c - 5 - (4 + 2)) (overwrite chunk bytes) (acc ++ [array2type x]) r
        (q - 11) v hrec (by omega) (by rw [hmod]; exact hv) (by omega)
      refine ⟨e, ?_⟩
      rw [copy_n_set_outside s p b 5 (c - 5) (by omega),
        copy_n_set_outside s p b 4 (c - 5 - 4) (by omega),
        rd_set_ne s p b (c - 5 - (4 + 2)) (by omega)]
      simp only [h1, hf, h2, h3, bind, Except.bind, Bool.not_true, Bool.false_eq_true,
        if_false, ne_eq, not_true_eq_false, hrej]

theorem countLoop_reads {s : List Nat} {it_end : Int} :
    ∀ (fuel n k : Nat), countLoop s it_end fuel n = .ok k →
      (∀ j : Nat, n ≤ j → j < k → rd s (it_end - j) = .ok OP_ENDIF) ∧
      (k < n + fuel → rd s (it_end - k) = .ok OP_TRUE) := by
  intro fuel
  induction fuel with
  | zero =>
    intro n k h
    simp only [countLoop, Except.ok.injEq] at h
    subst h
    exact ⟨fun j h1 h2 => by omega, fun h => by omega⟩
  | succ fuel ih =>
    intro n k h
    rw [countLoop_succ, bind_ok_iff] at h
    obtain ⟨b0, h0, h⟩ := h
    by_cases h1 : b0 = OP_TRUE
    · simp only [if_pos h1, Except.ok.injEq] at h
      subst h
      subst h1
      exact ⟨fun j h1 h2 => by omega, fun _ => h0⟩
    · simp only [if_neg h1, guard_ok_iff, ne_eq, not_not] at h
      obtain ⟨h2, h⟩ := h
      subst h2
      obtain ⟨i1, i2⟩ := ih _ _ h
      have hk := countLoop_bounds _ _ _ h
      refine ⟨fun j hj1 hj2 => ?_, fun hlt => i2 (by omega)⟩
      rcases Nat.eq_or_lt_of_le hj1 with e | e
      · subst e; exact h0
      · exact i1 j (by omega) hj2

theorem countLoop_skip {s : List Nat} {it_end : Int} :
    ∀ (fuel n m : Nat), (∀ j : Nat, n ≤ j → j < m → rd s (it_end - j) = .ok OP_ENDIF) →
      n ≤ m → m ≤ n + fuel →
      countLoop s it_end fuel n = countLoop s it_end (fuel - (m - n)) m := by
  intro fuel
  induction fuel with
  | zero =>
    intro n m _ h1 h2
    have : m = n := by omega
    subst this
    simp
  | succ fuel ih =>
    intro n m hr h1 h2
    rcases Nat.eq_or_lt_of_le h1 with e | e
    · subst e; simp
    · have h0 := hr n (le_refl _) e
      have hne : ¬ (OP_ENDIF = OP_TRUE) := by decide
      rw [countLoop_succ]
      simp only [h0, bind, Except.bind, hne, if_false, ne_eq, not_true_eq_false]
      rw [ih (n + 1) m (fun j hj1 hj2 => hr j (by omega) hj2) (by omega) (by omega)]
      congr 1
      omega

theorem countLoop_set_outside {s : List Nat} {it_end : Int} {k : Nat} (p b : Nat)
    (h : countLoop s it_end 18 0 = .ok k) (hp : (p : Int) < it_end - k ∨ it_end < p) :
    countLoop (s.set p b) it_end 18 0 = .ok k := by
  obtain ⟨h1, h2⟩ := countLoop_reads _ _ _ h
  have hk := countLoop_bounds _ _ _ h
  rw [countLoop_skip (s := s.set p b) 18 0 k
    (fun j _ hj => by rw [rd_set_ne s p b _ (by omega)]; exact h1 j (by omega) hj)
    (by omega) (by omega)]
  rcases Nat.eq_or_lt_of_le hk.2 with e | e
  · have : k = 18 := by omega
    subst this
    rfl
  · have hf : 18 - (k - 0) = (17 - k) + 1 := by omega
    rw [hf, countLoop_succ, rd_set_ne s p b _ (by omega), h2 (by omega)]
    simp only [bind, Except.bind, if_true]

theorem isInputBetTail_set_fixed {s : List Nat} {p b : Nat} {c : Int} {chunk : List Nat}
    {N : Nat} {nums : List Int} {r : Nat × List Int} {v : Nat}
    (h : isInputBetTail s c chunk N nums = .ok r) (hb : b ≠ s.getD p 0)
    (hv : (∃ j : Nat, j < 3 ∧ (p : Int) = c - 3 + j ∧ byte_mask3.getD j 0 = v) ∨
      (∃ j : Nat, j < 2 ∧ (p : Int) = c - (3 + 21) - 2 + j ∧ byte_mask4.getD j 0 = v)) :
    s.getD p 0 = v ∧ isInputBetTail (s.set p b) c chunk N nums = .error .returnFalse := by
  obtain ⟨_, m3, m4, h1, hf3, h2, hf4, _⟩ := isInputBetTail_ok h
  unfold isInputBetTail
  simp only [guard_eq]
  rcases hv with ⟨j, hj, hpj, hm⟩ | ⟨j, hj, hpj, hm⟩
  · have hff : byte_mask3.getD j 0 ≠ 0xFF := by
      interval_cases j <;> decide
    obtain ⟨e1, e2, e3⟩ := check_mut (p := p) (b := b) h1 hf3 rfl j hj hff hpj hb
    refine ⟨by rw [e1, hm], ?_⟩
    simp only [e2, e3, bind, Except.bind, Bool.not_false, if_true]
  · have hff : byte_mask4.getD j 0 ≠ 0xFF := by
      interval_cases j <;> decide
    obtain ⟨e1, e2, e3⟩ := check_mut (p := p) (b := b) h2 hf4 rfl j hj hff hpj hb
    refine ⟨by rw [e1, hm], ?_⟩
    rw [copy_n_set_outside s p b 3 (c - 3) (by omega)]
    simp only [h1, hf3, e2, e3, bind, Except.bind, Bool.not_false, Bool.not_true,
      Bool.false_eq_true, if_true, if_false]

theorem isInputBetMid_reject_eqv {s : List Nat} {c : Int} {chunk : List Nat} {N y : Nat}
    (h : rd s c = .ok y) (hy : y ≠ OP_EQUALVERIFY) :
    isInputBetMid s c chunk N = .error .returnFalse := by
  unfold isInputBetMid
  simp only [guard_eq, h, bind, Except.bind, hy, ne_eq, not_false_eq_true, if_true]

theorem filterCompare_false_of {bs mask : List Nat} (j : Nat) (hj : j < mask.length)
    (hm : mask.getD j 0 ≠ 0xFF) (hne : mask.getD j 0 ≠ bs.getD j 0) :
    filterCompare bs mask = false := by
  rw [Bool.eq_false_iff]
  intro hc
  rw [filterCompare_iff] at hc
  rcases hc.2 j hj with h | h
  · exact hm h
  · exact hne h

theorem isInputBetMid_reject_first_link {s : List Nat} {c : Int} {chunk : List Nat} {N : Nat}
    (hN : 2 ≤ N) (h0 : 0 ≤ c - 10) (h1 : c < s.length) (j : Nat) (hj : j < 5)
    (hne : byte_mask2.getD j 0 ≠ s.getD (c - 5 - 5 + j).toNat 0) :
    isInputBetMid s c chunk N = .error .returnFalse := by
  obtain ⟨y, hy⟩ := rd_inRange (s := s) (i := c) (by omega) h1
  obtain ⟨x, hx⟩ := copy_n_inRange s 4 (c - 4) (by omega) (by push_cast; omega)
  obtain ⟨bytes, hbytes⟩ := copy_n_inRange s 5 (c - 5 - 5) (by omega) (by push_cast; omega)
  have hg := (copy_n_getD hbytes j hj).2.2
  have hf : filterCompare (overwrite chunk bytes) byte_mask2 = false := by
    rw [filterCompare_overwrite chunk bytes byte_mask2 (copy_n_ok hbytes).1]
    refine filterCompare_false_of j hj ?_ (by rw [hg]; exact hne)
    interval_cases j <;> decide
  obtain ⟨k, hk⟩ : ∃ k, N - 1 = k + 1 := ⟨N - 2, by omega⟩
  unfold isInputBetMid
  simp only [guard_eq]
  simp only [hy, hx, hk, betLoop_succ, hbytes, hf, bind, Except.bind, Bool.not_false,
    if_true]
  by_cases hyv : y ≠ OP_EQUALVERIFY
  · rw [if_pos hyv]
  · rw [if_neg hyv]

theorem betLoop_first_link {s : List Nat} {k : Nat} {c : Int} {chunk : List Nat}
    {acc : List Int} {r : Int × List Nat × List Int} (h : betLoop s k c chunk acc = .ok r)
    (hk : 1 ≤ k) (j : Nat) (hj : j < 5) :
    s.getD (c - 5 + j).toNat 0 = byte_mask2.getD j 0 := by
  obtain ⟨k', rfl⟩ : ∃ k', k = k' + 1 := ⟨k - 1, by omega⟩
  rw [betLoop_succ] at h
  simp only [bind_ok_iff, guard_ok_iff] at h
  obtain ⟨bytes, h1, hf, -⟩ := h
  simp only [Bool.not_eq_true', Bool.not_eq_false] at hf
  rw [filterCompare_overwrite chunk bytes byte_mask2 (copy_n_ok h1).1, filterCompare_iff] at hf
  have hff : byte_mask2.getD j 0 ≠ 0xFF := by
    interval_cases j <;> decide
  have := (hf.2 j hj).resolve_left hff
  rw [this, (copy_n_getD h1 j hj).2.2]

theorem isInputBetMid_set_fixed {s : List Nat} {p b : Nat} {c : Int} {chunk : List Nat}
    {N : Nat} {r : Nat × List Int} {v : Nat} (hp : p < s.length)
    (h : isInputBetMid s c chunk N = .ok r) (hb : b ≠ s.getD p 0)
    (hv : ((p : Int) = c ∧ v = OP_EQUALVERIFY) ∨
      (∃ q : Nat, q < 11 * (N - 1) ∧ linkFixed (q % 11) = some v ∧ (p : Int) = c - 5 - 1 - q) ∨
      (∃ j : Nat, j < 3 ∧ (p : Int) = c - 5 - 11 * (N - 1 : Nat) - 3 + j ∧
        byte_mask3.getD j 0 = v) ∨
      (∃ j : Nat, j < 2 ∧ (p : Int) = c - 5 - 11 * (N - 1 : Nat) - (3 + 21) - 2 + j ∧
        byte_mask4.getD j 0 = v)) :
    s.getD p 0 = v ∧ isInputBetMid (s.set p b) c chunk N = .error .returnFalse := by
  obtain ⟨x, c', chunk', nums, h1, h2, h3, h4⟩ := isInputBetMid_ok h
  obtain ⟨hc', -⟩ := betLoop_cursor _ _ _ _ _ _ _ h3
  rcases hv with ⟨hpc, rfl⟩ | ⟨q, hq, hlv, hpq⟩ | hv3 | hv4
  · obtain ⟨_, _, e⟩ := rd_ok_getD h1
    have hpn : c.toNat = p := by omega
    rw [hpn] at e
    refine ⟨e.symm, ?_⟩
    exact isInputBetMid_reject_eqv (rd_set_eq s p b hp c hpc.symm) (by rw [e]; exact hb)
  · obtain ⟨e, hrej⟩ := betLoop_set_fixed s p b hp hb _ _ _ _ _ q v h3 hq hlv (by omega)
    refine ⟨e, ?_⟩
    unfold isInputBetMid
    simp only [guard_eq]
    rw [rd_set_ne s p b c (by omega), copy_n_set_outside s p b 4 (c - 4) (by omega)]
    simp only [h1, h2, hrej, bind, Except.bind, ne_eq, not_true_eq_false, if_false]
  · obtain ⟨e, hrej⟩ := isInputBetTail_set_fixed (p := p) (b := b) (v := v) h4 hb
      (Or.inl (by
        obtain ⟨j, hj, hpj, hm⟩ := hv3
        exact ⟨j, hj, by rw [hc']; omega, hm⟩))
    refine ⟨e, ?_⟩
    obtain ⟨j, hj, hpj, hm⟩ := hv3
    unfold isInputBetMid
    simp only [guard_eq]
    rw [rd_set_ne s p b c (by omega), copy_n_set_outside s p b 4 (c - 4) (by omega)]
    simp only [h1, h2, bind, Except.bind, ne_eq, not_true_eq_false, if_false]
    rw [betLoop_set_outside s p b _ _ _ _ (by omega)]
    simp only [h3, hrej]
  · obtain ⟨e, hrej⟩ := isInputBetTail_set_fixed (p := p) (b := b) (v := v) h4 hb
      (Or.inr (by
        obtain ⟨j, hj, hpj, hm⟩ := hv4
        exact ⟨j, hj, by rw [hc']; omega, hm⟩))
    refine ⟨e, ?_⟩
    obtain ⟨j, hj, hpj, hm⟩ := hv4
    unfold isInputBetMid
    simp only [guard_eq]
    rw [rd_set_ne s p b c (by omega), copy_n_set_outside s p b 4 (c - 4) (by omega)]
    simp only [h1, h2, bind, Except.bind, ne_eq, not_true_eq_false, if_false]
    rw [betLoop_set_outside s p b _ _ _ _ (by omega)]
    simp only [h3, hrej]

theorem fixedByte_cases {N d v : Nat} (h : fixedByte N d = some v) :
    (1 ≤ d ∧ d ≤ 10 ∧ byte_mask.getD (10 - d) 0 = v ∧ v ≠ 0xFF) ∨
    (11 ≤ d ∧ d < 10 + N ∧ v = OP_ENDIF) ∨
    (d = 10 + N ∧ v = OP_TRUE) ∨
    (d = 11 + N ∧ v = OP_EQUALVERIFY) ∨
    (17 + N ≤ d ∧ d ≤ 12 * N + 5 ∧ linkFixed ((d - (17 + N)) % 11) = some v) ∨
    (12 * N + 6 ≤ d ∧ d ≤ 12 * N + 8 ∧ byte_mask3.getD (12 * N + 8 - d) 0 = v) ∨
    (12 * N + 30 ≤ d ∧ d ≤ 12 * N + 31 ∧ byte_mask4.getD (12 * N + 31 - d) 0 = v) := by
  unfold fixedByte at h
  by_cases h1 : d = 1
  · rw [if_pos h1] at h; cases h; subst h1; exact Or.inl (by decide)
  rw [if_neg h1] at h
  by_cases h7 : d = 7
  · rw [if_pos h7] at h; cases h; subst h7; exact Or.inl (by decide)
  rw [if_neg h7] at h
  by_cases h8 : d = 8
  · rw [if_pos h8] at h; cases h; subst h8; exact Or.inl (by decide)
  rw [if_neg h8] at h
  by_cases h9 : d = 9
  · rw [if_pos h9] at h; cases h; subst h9; exact Or.inl (by decide)
  rw [if_neg h9] at h
  by_cases h10 : d = 10
  · rw [if_pos h10] at h; cases h; subst h10; exact Or.inl (by decide)
  rw [if_neg h10] at h
  by_cases hch : 11 ≤ d ∧ d < 10 + N
  · rw [if_pos hch] at h; cases h; exact Or.inr (Or.inl ⟨hch.1, hch.2, rfl⟩)
  rw [if_neg hch] at h
  by_cases ht : d = 10 + N
  · rw [if_pos ht] at h; cases h; exact Or.inr (Or.inr (Or.inl ⟨ht, rfl⟩))
  rw [if_neg ht] at h
  by_cases he : d = 11 + N
  · rw [if_pos he] at h; cases h; exact Or.inr (Or.inr (Or.inr (Or.inl ⟨he, rfl⟩)))
  rw [if_neg he] at h
  by_cases hl : 17 + N ≤ d ∧ d ≤ 12 * N + 5
  · rw [if_pos hl] at h
    exact Or.inr (Or.inr (Or.inr (Or.inr (Or.inl ⟨hl.1, hl.2, h⟩))))
  rw [if_neg hl] at h
  by_cases h3a : d = 12 * N + 6
  · rw [if_pos h3a] at h; cases h
    refine Or.inr (Or.inr (Or.inr (Or.inr (Or.inr (Or.inl ⟨by omega, by omega, ?_⟩)))))
    have : 12 * N + 8 - d = 2 := by omega
    rw [this]; rfl
  rw [if_neg h3a] at h
  by_cases h3b : d = 12 * N + 7
  · rw [if_pos h3b] at h; cases h
    refine Or.inr (Or.inr (Or.inr (Or.inr (Or.inr (Or.inl ⟨by omega, by omega, ?_⟩)))))
    have : 12 * N + 8 - d = 1 := by omega
    rw [this]; rfl
  rw [if_neg h3b] at h
  by_cases h3c : d = 12 * N + 8
  · rw [if_pos h3c] at h; cases h
    refine Or.inr (Or.inr (Or.inr (Or.inr (Or.inr (Or.inl ⟨by omega, by omega, ?_⟩)))))
    have : 12 * N + 8 - d = 0 := by omega
    rw [this]; rfl
  rw [if_neg h3c] at h
  by_cases h4a : d = 12 * N + 30
  · rw [if_pos h4a] at h; cases h
    refine Or.inr (Or.inr (Or.inr (Or.inr (Or.inr (Or.inr ⟨by omega, by omega, ?_⟩)))))
    have : 12 * N + 31 - d = 1 := by omega
    rw [this]; rfl
  rw [if_neg h4a] at h
  by_cases h4b : d = 12 * N + 31
  · rw [if_pos h4b] at h; cases h
    refine Or.inr (Or.inr (Or.inr (Or.inr (Or.inr (Or.inr ⟨by omega, by omega, ?_⟩)))))
    have : 12 * N + 31 - d = 0 := by omega
    rw [this]; rfl
  rw [if_neg h4b] at h
  cases h

theorem getD_set_ne (s : List Nat) (p b i : Nat) (h : i ≠ p) :
    (s.set p b).getD i 0 = s.getD i 0 := by
  rw [List.getD_eq_getElem?_getD, List.getD_eq_getElem?_getD,
    List.getElem?_set_ne (fun e => h e.symm)]

theorem isInputBetBody_count {s : List Nat} {N k : Nat} {nums : List Int} {c : Int}
    {w : List Nat} (h : isInputBetMid s c w (k + 1) = .ok (N, nums)) : N = k + 1 := by
  obtain ⟨x, c', chunk', nums', -, -, -, h4⟩ := isInputBetMid_ok h
  have := (isInputBetTail_ok h4).1
  simp only [Prod.mk.injEq] at this
  exact this.1

/-- The window (lines 31-38): a changed fixed byte of the trailing ten makes
`filterCompare` fail. -/
theorem isInputBetBody_set_window {s : List Nat} {N : Nat} {nums : List Int} {d v b : Nat}
    (h : isInputBetBody s = .ok (N, nums)) (hd1 : 1 ≤ d) (hd10 : d ≤ 10)
    (hm : byte_mask.getD (10 - d) 0 = v) (hff : v ≠ 0xFF)
    (hb : b ≠ s.getD (s.length - d) 0) :
    s.getD (s.length - d) 0 = v ∧
      isInputBetBody (s.set (s.length - d) b) = .error .returnFalse := by
  obtain ⟨_, _, -, hlen⟩ := isInputBetBody_length h
  obtain ⟨w, k, hw, hfw, -, -⟩ := isInputBetBody_ok h
  have hfw' : filterCompare (overwrite [] w) byte_mask = true := by
    simpa [overwrite] using hfw
  obtain ⟨e1, e2, e3⟩ := check_mut (p := s.length - d) (b := b) hw hfw' rfl (10 - d)
    (by omega) (by rw [hm]; exact hff) (by omega) hb
  refine ⟨by rw [e1, hm], ?_⟩
  have e3' : filterCompare (w.set (10 - d) b) byte_mask = false := by
    simpa [overwrite] using e3
  rw [isInputBetBody_eq, List.length_set]
  simp only [guard_eq]
  simp only [e2, e3', bind, Except.bind, Bool.not_false, if_true]

/-- Behind the counted chain (lines 54-111): the count is the same and the changed byte
fails its check. -/
theorem isInputBetBody_set_behind {s : List Nat} {N : Nat} {nums : List Int} {d v b : Nat}
    (h : isInputBetBody s = .ok (N, nums)) (hb : b ≠ s.getD (s.length - d) 0)
    (hv : (d = 11 + N ∧ v = OP_EQUALVERIFY) ∨
      (17 + N ≤ d ∧ d ≤ 12 * N + 5 ∧ linkFixed ((d - (17 + N)) % 11) = some v) ∨
      (12 * N + 6 ≤ d ∧ d ≤ 12 * N + 8 ∧ byte_mask3.getD (12 * N + 8 - d) 0 = v) ∨
      (12 * N + 30 ≤ d ∧ d ≤ 12 * N + 31 ∧ byte_mask4.getD (12 * N + 31 - d) 0 = v)) :
    s.getD (s.length - d) 0 = v ∧
      isInputBetBody (s.set (s.length - d) b) = .error .returnFalse := by
  obtain ⟨hN1, _, -, hlen⟩ := isInputBetBody_length h
  obtain ⟨w, k, hw, hfw, hcount, hmid⟩ := isInputBetBody_ok h
  have hNk := isInputBetBody_count hmid
  subst hNk
  have hd : 12 + k ≤ d ∧ d ≤ 12 * (k + 1) + 31 := by
    rcases hv with h1 | h1 | h1 | h1 <;> omega
  have hw' : copy_n (s.set (s.length - d) b) ((s.length : Int) - 10) 10 = .ok w := by
    rw [copy_n_set_outside s _ b 10 _ (Or.inl (by omega))]; exact hw
  have hcount' := countLoop_set_outside (s.length - d) b hcount (Or.inl (by omega))
  obtain ⟨e, hrej⟩ := isInputBetMid_set_fixed (p := s.length - d) (b := b) (v := v)
    (by omega) hmid hb (by
      rcases hv with ⟨h1, h2⟩ | ⟨h1, h2, h3⟩ | ⟨h1, h2, h3⟩ | ⟨h1, h2, h3⟩
      · exact Or.inl ⟨by omega, h2⟩
      · exact Or.inr (Or.inl ⟨d - (17 + (k + 1)), by omega, h3, by omega⟩)
      · exact Or.inr (Or.inr (Or.inl ⟨12 * (k + 1) + 8 - d, by omega, by
          simp only [Nat.add_sub_cancel]; omega, h3⟩))
      · exact Or.inr (Or.inr (Or.inr ⟨12 * (k + 1) + 31 - d, by omega, by
          simp only [Nat.add_sub_cancel]; omega, h3⟩)))
  refine ⟨e, ?_⟩
  rw [isInputBetBody_eq, List.length_set]
  simp only [guard_eq]
  simp only [hw', hfw, hcount', hrej, bind, Except.bind, Bool.not_true, Bool.false_eq_true,
    if_false]

/-- An `OP_ENDIF` of the counted chain (lines 42-58): the changed byte stops the count
with a format error, or ends it early in front of a byte that is not `OP_EQUALVERIFY`,
or (count 19 cut to 18) shifts the first link by one byte. -/
theorem isInputBetBody_set_chain {s : List Nat} {N : Nat} {nums : List Int} {d b : Nat}
    (h : isInputBetBody s = .ok (N, nums)) (hd11 : 11 ≤ d) (hdN : d < 10 + N)
    (hb : b ≠ s.getD (s.length - d) 0) :
    s.getD (s.length - d) 0 = OP_ENDIF ∧
      isInputBetBody (s.set (s.length - d) b) = .error .returnFalse := by
  obtain ⟨hN1, hN19, -, hlen⟩ := isInputBetBody_length h
  obtain ⟨w, k, hw, hfw, hcount, hmid⟩ := isInputBetBody_ok h
  have hNk := isInputBetBody_count hmid
  subst hNk
  obtain ⟨hr1, hr2⟩ := countLoop_reads _ _ _ hcount
  have hE := hr1 (d - 11) (Nat.zero_le _) (by omega)
  obtain ⟨_, _, e⟩ := rd_ok_getD hE
  have hpn : ((s.length : Int) - (10 + 1) - ((d - 11 : Nat) : Int)).toNat = s.length - d := by
    omega
  rw [hpn] at e
  refine ⟨e.symm, ?_⟩
  have hbE : b ≠ OP_ENDIF := by rw [e]; exact hb
  have hw' : copy_n (s.set (s.length - d) b) ((s.length : Int) - 10) 10 = .ok w := by
    rw [copy_n_set_outside s _ b 10 _ (Or.inl (by omega))]; exact hw
  have hskip := @countLoop_skip (s.set (s.length - d) b)
    ((s.length : Int) - (10 + 1)) 18 0 (d - 11)
    (fun j _ hj => by rw [rd_set_ne s _ b _ (by omega)]; exact hr1 j (by omega) (by omega))
    (Nat.zero_le _) (by omega)
  have hfuel : 18 - (d - 11 - 0) = (28 - d) + 1 := by omega
  have hrb : rd (s.set (s.length - d) b) ((s.length : Int) - (10 + 1) - ((d - 11 : Nat) : Int))
      = .ok b := rd_set_eq s _ b (by omega) _ (by omega)
  rw [hfuel, countLoop_succ _ _ (28 - d)] at hskip
  simp only [hrb, bind, Except.bind] at hskip
  rw [isInputBetBody_eq, List.length_set]
  simp only [guard_eq]
  by_cases hbT : b = OP_TRUE
  · rw [if_pos hbT] at hskip
    have hmid' : isInputBetMid (s.set (s.length - d) b)
        ((s.length : Int) - (10 + 1) - ((d - 11 + 1 : Nat) : Int)) w (d - 11 + 1)
        = .error .returnFalse := by
      by_cases hB : d = 28 ∧ k = 18
      · obtain ⟨rfl, rfl⟩ := hB
        obtain ⟨x, c', chunk', nums', -, -, h3, -⟩ := isInputBetMid_ok hmid
        have hIF := betLoop_first_link h3 (by omega) 1 (by omega)
        refine isInputBetMid_reject_first_link (by omega) (by omega)
          (by rw [List.length_set]; omega) 0 (by omega) ?_
        have hidx : ((s.length : Int) - (10 + 1) - ((28 - 11 + 1 : Nat) : Int) - 5 - 5
            + ((0 : Nat) : Int)).toNat = s.length - 39 := by omega
        have hidx' : ((s.length : Int) - (10 + 1) - ((18 + 1 : Nat) : Int) - 5 - 5
            + ((1 : Nat) : Int)).toNat = s.length - 39 := by omega
        rw [hidx, getD_set_ne s _ b _ (by omega)]
        rw [hidx'] at hIF
        rw [hIF]
        decide
      · have hnext : ∃ y, rd s ((s.length : Int) - (10 + 1) - ((d - 11 + 1 : Nat) : Int))
            = .ok y ∧ y ≠ OP_EQUALVERIFY := by
          by_cases hlt : d - 11 + 1 < k
          · exact ⟨OP_ENDIF, hr1 _ (Nat.zero_le _) hlt, by decide⟩
          · have hk : k = d - 11 + 1 := by omega
            have := hr2 (by omega)
            rw [hk] at this
            exact ⟨OP_TRUE, this, by decide⟩
        obtain ⟨y, hy, hyv⟩ := hnext
        exact isInputBetMid_reject_eqv
          (by rw [rd_set_ne s _ b _ (by omega)]; exact hy) hyv
    simp only [hw', hfw, hskip, hmid', bind, Except.bind, Bool.not_true, Bool.false_eq_true,
      if_false]
  · rw [if_neg hbT, if_pos hbE] at hskip
    simp only [hw', hfw, hskip, bind, Except.bind, Bool.not_true, Bool.false_eq_true,
      if_false]

/-- The `OP_TRUE` terminator of a chain of at most 18 numbers (lines 45-58): the changed
byte is a format error, or it is one more `OP_ENDIF` and then the count runs into
`OP_EQUALVERIFY` or (count 18 turned into 19) shifts the first link by one byte. -/
theorem isInputBetBody_set_terminator {s : List Nat} {N : Nat} {nums : List Int} {b : Nat}
    (h : isInputBetBody s = .ok (N, nums)) (hN : N ≤ 18)
    (hb : b ≠ s.getD (s.length - (10 + N)) 0) :
    s.getD (s.length - (10 + N)) 0 = OP_TRUE ∧
      isInputBetBody (s.set (s.length - (10 + N)) b) = .error .returnFalse := by
  obtain ⟨hN1, hN19, -, hlen⟩ := isInputBetBody_length h
  obtain ⟨w, k, hw, hfw, hcount, hmid⟩ := isInputBetBody_ok h
  have hNk := isInputBetBody_count hmid
  subst hNk
  obtain ⟨hr1, hr2⟩ := countLoop_reads _ _ _ hcount
  have hT := hr2 (by omega)
  obtain ⟨_, _, e⟩ := rd_ok_getD hT
  have hpn : ((s.length : Int) - (10 + 1) - (k : Int)).toNat = s.length - (10 + (k + 1)) := by
    omega
  rw [hpn] at e
  refine ⟨e.symm, ?_⟩
  have hbT : b ≠ OP_TRUE := by rw [e]; exact hb
  have hw' : copy_n (s.set (s.length - (10 + (k + 1))) b) ((s.length : Int) - 10) 10 = .ok w := by
    rw [copy_n_set_outside s _ b 10 _ (Or.inl (by omega))]; exact hw
  have hskip := @countLoop_skip (s.set (s.length - (10 + (k + 1))) b)
    ((s.length : Int) - (10 + 1)) 18 0 k
    (fun j _ hj => by rw [rd_set_ne s _ b _ (by omega)]; exact hr1 j (by omega) (by omega))
    (Nat.zero_le _) (by omega)
  have hfuel : 18 - (k - 0) = (17 - k) + 1 := by omega
  have hrb : rd (s.set (s.length - (10 + (k + 1))) b) ((s.length : Int) - (10 + 1) - (k : Int))
      = .ok b := rd_set_eq s _ b (by omega) _ (by omega)
  rw [hfuel, countLoop_succ _ _ (17 - k)] at hskip
  simp only [hrb, bind, Except.bind, if_neg hbT] at hskip
  rw [isInputBetBody_eq, List.length_set]
  simp only [guard_eq]
  by_cases hbE : b ≠ OP_ENDIF
  · rw [if_pos hbE] at hskip
    simp only [hw', hfw, hskip, bind, Except.bind, Bool.not_true, Bool.false_eq_true,
      if_false]
  · rw [if_neg hbE] at hskip
    obtain ⟨x, c', chunk', nums', hEQ, -, h3, -⟩ := isInputBetMid_ok hmid
    by_cases hk17 : k = 17
    · subst hk17
      have hc18 : countLoop (s.set (s.length - (10 + (17 + 1))) b)
          ((s.length : Int) - (10 + 1)) 18 0 = .ok 18 := by rw [hskip]; rfl
      have hEQUAL := betLoop_first_link h3 (by omega) 0 (by omega)
      have hmid' : isInputBetMid (s.set (s.length - (10 + (17 + 1))) b)
          ((s.length : Int) - (10 + 1) - ((18 + 1 : Nat) : Int)) w (18 + 1)
          = .error .returnFalse := by
        refine isInputBetMid_reject_first_link (by omega) (by omega)
          (by rw [List.length_set]; omega) 1 (by omega) ?_
        have hidx : ((s.length : Int) - (10 + 1) - ((18 + 1 : Nat) : Int) - 5 - 5
            + ((1 : Nat) : Int)).toNat = s.length - 39 := by omega
        have hidx' : ((s.length : Int) - (10 + 1) - ((17 + 1 : Nat) : Int) - 5 - 5
            + ((0 : Nat) : Int)).toNat = s.length - 39 := by omega
        rw [hidx, getD_set_ne s _ b _ (by omega)]
        rw [hidx'] at hEQUAL
        rw [hEQUAL]
        decide
      simp only [hw', hfw, hc18, hmid', bind, Except.bind, Bool.not_true, Bool.false_eq_true,
        if_false]
    · have hfuel2 : 17 - k = (16 - k) + 1 := by omega
      have hrn : rd (s.set (s.length - (10 + (k + 1))) b)
          ((s.length : Int) - (10 + 1) - ((k + 1 : Nat) : Int)) = .ok OP_EQUALVERIFY := by
        rw [rd_set_ne s _ b _ (by omega)]; exact hEQ
      have h1 : ¬ (OP_EQUALVERIFY = OP_TRUE) := by decide
      have h2 : OP_EQUALVERIFY ≠ OP_ENDIF := by decide
      rw [hfuel2, countLoop_succ _ _ (16 - k)] at hskip
      simp only [hrn, bind, Except.bind, if_neg h1, if_pos h2] at hskip
      simp only [hw', hfw, hskip, bind, Except.bind, Bool.not_true, Bool.false_eq_true,
        if_false]


/-! ## Lemmas on `getBetType_` -/

/-- An output the scan of `getBetType_` passes over: its script has the two bytes the
scan reads and does not start with `OP_RETURN`. -/
theorem getBetTypeScan_skip (o : CTxOut) (rest : List CTxOut) (i : Nat)
    (h : ¬ startsWithReturn o ∧ 2 ≤ o.scriptPubKey.length) :
    getBetTypeScan (o :: rest) i = getBetTypeScan rest (i + 1) := by
  obtain ⟨hs, hl⟩ := h
  obtain ⟨b1, h1⟩ := rd_inRange (s := o.scriptPubKey) (i := 1) (by omega) (by exact_mod_cast hl)
  obtain ⟨b0, h0⟩ := rd_inRange (s := o.scriptPubKey) (i := 0) (by omega)
    (by exact_mod_cast (by omega : 0 < o.scriptPubKey.length))
  have hb : ¬ b0 = OP_RETURN := by
    intro hb
    apply hs
    obtain ⟨k, hk, hk'⟩ := rd_ok_iff.mp h0
    have : k = 0 := by omega
    subst this
    unfold startsWithReturn
    rw [List.head?_eq_getElem?, hk', hb]
  simp only [getBetTypeScan, h1, h0, bind, Except.bind, hb, if_false]

theorem getBetTypeScan_skip_all (pre rest : List CTxOut) (i : Nat)
    (h : ∀ o ∈ pre, ¬ startsWithReturn o ∧ 2 ≤ o.scriptPubKey.length) :
    getBetTypeScan (pre ++ rest) i = getBetTypeScan rest (i + pre.length) := by
  induction pre generalizing i with
  | nil => simp
  | cons o pre ih =>
    rw [List.cons_append, getBetTypeScan_skip o _ i (h o (by simp)),
      ih (i + 1) (fun o' ho' => h o' (by simp [ho']))]
    congr 1
    simp
    omega

theorem lengthCheck_eq (payload : List Nat) (V i : Nat) :
    (if payload.length ≠ V then (Except.ok ([], i) : Except Fault (List Nat × Nat))
      else Except.ok (payload, i))
      = .ok (if V = payload.length then payload else [], i) := by
  by_cases hl : V = payload.length
  · simp [hl]
  · have : ¬ payload.length = V := fun h' => hl h'.symm
    simp [hl, this]

theorem getBetTypeScan_carrier (c : CTxOut) (post : List CTxOut) (i : Nat)
    (hdr payload : List Nat) (L : Nat) (hh : LengthHeader hdr L)
    (hc : c.scriptPubKey = OP_RETURN :: (hdr ++ payload)) :
    getBetTypeScan (c :: post) i = .ok (if L = payload.length then payload else [], i) := by
  have h0 : rd c.scriptPubKey 0 = .ok OP_RETURN := by
    rw [hc]; exact rd_of_getElem? (k := 0) rfl (by simp)
  cases hh with
  | direct L h =>
    have h1 : rd c.scriptPubKey 1 = .ok L := by
      rw [hc]; exact rd_of_getElem? (k := 1) rfl (by simp)
    have h2 : strFrom c.scriptPubKey 2 = .ok payload := by rw [hc]; simp [strFrom]
    have h3 : copy_n c.scriptPubKey 1 1 = .ok [L] := by
      rw [hc]; exact copy_n_append [OP_RETURN] [L] payload (by simp)
    have hv : leValue [L] = L := by simp [leValue]
    simp only [getBetTypeScan, h1, h0, h2, h3, bind, Except.bind, if_true, if_pos h, hv,
      pure, Except.pure]
    exact lengthCheck_eq payload _ i
  | pushdata1 L =>
    have h1 : rd c.scriptPubKey 1 = .ok 0x4c := by
      rw [hc]; exact rd_of_getElem? (k := 1) rfl (by simp)
    have h2 : strFrom c.scriptPubKey 3 = .ok payload := by rw [hc]; simp [strFrom]
    have h3 : copy_n c.scriptPubKey 2 1 = .ok [L] := by
      rw [hc]; exact copy_n_append [OP_RETURN, 0x4c] [L] payload (by simp)
    have hv : leValue [L] = L := by simp [leValue]
    simp only [getBetTypeScan, h1, h0, h2, h3, bind, Except.bind, if_true, hv,
      pure, Except.pure]
    exact lengthCheck_eq payload _ i
  | pushdata2 b0 b1 =>
    have h1 : rd c.scriptPubKey 1 = .ok 0x4d := by
      rw [hc]; exact rd_of_getElem? (k := 1) rfl (by simp)
    have h2 : strFrom c.scriptPubKey 4 = .ok payload := by rw [hc]; simp [strFrom]
    have h3 : copy_n c.scriptPubKey 2 2 = .ok [b0, b1] := by
      rw [hc]; exact copy_n_append [OP_RETURN, 0x4d] [b0, b1] payload (by simp)
    have hv : leValue [b0, b1] = b0 + 256 * b1 := by simp [leValue]
    simp only [getBetTypeScan, h1, h0, h2, h3, bind, Except.bind, if_true, hv,
      pure, Except.pure]
    exact lengthCheck_eq payload _ i
  | pushdata4 b0 b1 b2 b3 =>
    have h1 : rd c.scriptPubKey 1 = .ok 0x4e := by
      rw [hc]; exact rd_of_getElem? (k := 1) rfl (by simp)
    have h2 : strFrom c.scriptPubKey 6 = .ok payload := by rw [hc]; simp [strFrom]
    have h3 : copy_n c.scriptPubKey 2 4 = .ok [b0, b1, b2, b3] := by
      rw [hc]; exact copy_n_append [OP_RETURN, 0x4e] [b0, b1, b2, b3] payload (by simp)
    have hv : leValue [b0, b1, b2, b3] = b0 + 256 * b1 + 65536 * b2 + 16777216 * b3 := by
      simp only [leValue]; ring
    simp only [getBetTypeScan, h1, h0, h2, h3, bind, Except.bind, if_true, hv,
      pure, Except.pure]
    exact lengthCheck_eq payload _ i

theorem getBetType__carrier (o0 : CTxOut) (pre post : List CTxOut) (c : CTxOut)
    (hdr payload : List Nat) (L : Nat)
    (hpre : ∀ o ∈ pre, ¬ startsWithReturn o ∧ 2 ≤ o.scriptPubKey.length)
    (hh : LengthHeader hdr L) (hc : c.scriptPubKey = OP_RETURN :: (hdr ++ payload)) :
    getBetType_ (o0 :: pre ++ c :: post)
      = .ok (if L = payload.length then payload else [], pre.length + 1) := by
  unfold getBetType_
  rw [List.cons_append, List.drop_one, List.tail_cons, getBetTypeScan_skip_all pre _ 1 hpre,
    getBetTypeScan_carrier c post _ hdr payload L hh hc, Nat.add_comm]

theorem getBetType__no_carrier (vout : List CTxOut)
    (h : ∀ o ∈ vout.tail, ¬ startsWithReturn o ∧ 2 ≤ o.scriptPubKey.length) :
    getBetType_ vout = .ok ([], 0) := by
  unfold getBetType_
  rw [List.drop_one]
  have := getBetTypeScan_skip_all vout.tail [] 1 h
  rw [List.append_nil] at this
  rw [this]
  rfl


/-! ## Claims on `isInputBet` -/

theorem isInputBet_of_body_ok {s : List Nat} {N : Nat} {nums : List Int}
    (h : isInputBetBody s = .ok (N, nums)) (num0 : Nat) (bets0 : List Int) :
    isInputBet s num0 bets0 = some ⟨true, N, bets0 ++ nums⟩ := by
  simp only [isInputBet, h]

theorem isInputBetBody_betScriptSig (d1 d2 d3 pkh tail5 : List Nat)
    (init : List (Nat × List Nat)) (last : Nat × List Nat)
    (hN : init.length + 1 ≤ 18) (hpkh : pkh.length = 21) (h5 : tail5.length = 5)
    (hf : ∀ g ∈ init ++ [last], g.2.length = 4) :
    isInputBetBody (betScriptSig d1 d2 d3 pkh init last tail5)
      = .ok (init.length + 1, (init ++ [last]).reverse.map fun g => array2type g.2) := by
  have hfw := forwardCursor_pushes d1 d2 d3 (lengthHeader (31 + 12 * (init.length + 1)))
    (redeemScript pkh init last tail5) (lengthHeader_shape _)
  have := isInputBetBody_redeem
    (directPush d1 ++ directPush d2 ++ directPush d3 ++ lengthHeader (31 + 12 * (init.length + 1)))
    pkh tail5 init last hpkh h5 (fun g hg => hf g (by simp [hg])) (hf last (by simp))
    (by omega) hfw
  simpa [betScriptSig] using this

/-- C1. For every chain of `N = init.length + 1` numbers with `1 ≤ N ≤ 18`, each a push
byte and a 4-byte field, on the scriptSig made of three direct pushes, the length header
of the redeem script (`0x4c` marker when `31 + 12 N > 75`, then one length byte) and the
redeem script of the template, `isInputBet` returns true, sets `numberOfBetsEncoded` to `N`
and appends exactly the `N` little-endian decodings of the fields, last-encoded first. -/
theorem isInputBet_chain (d1 d2 d3 pkh tail5 : List Nat) (init : List (Nat × List Nat))
    (last : Nat × List Nat) (num0 : Nat) (bets0 : List Int)
    (hN : init.length + 1 ≤ 18) (hpkh : pkh.length = 21) (h5 : tail5.length = 5)
    (hf : ∀ g ∈ init ++ [last], g.2.length = 4) :
    isInputBet (betScriptSig d1 d2 d3 pkh init last tail5) num0 bets0
      = some ⟨true, init.length + 1,
          bets0 ++ (init ++ [last]).reverse.map fun g => array2type g.2⟩ :=
  isInputBet_of_body_ok (isInputBetBody_betScriptSig d1 d2 d3 pkh tail5 init last hN hpkh h5 hf)
    num0 bets0

/-- Witness of C1: a chain of two numbers, `7` and `-1`. -/
theorem isInputBet_chain_witness :
    isInputBet (betScriptSig [1] [2, 3] [] (List.replicate 21 9) [(4, [7, 0, 0, 0])]
        (4, [255, 255, 255, 255]) [4, 0, 0, 0, 0]) 0 [5]
      = some ⟨true, 2, [5, -1, 7]⟩ :=
  isInputBet_chain [1] [2, 3] [] (List.replicate 21 9) [4, 0, 0, 0, 0] [(4, [7, 0, 0, 0])]
    (4, [255, 255, 255, 255]) 0 [5] (by decide) (by decide) (by decide) (by decide)

theorem array2type_four (b0 b1 b2 b3 : Nat) (h0 : b0 < 256) (h1 : b1 < 256) (h2 : b2 < 256)
    (h3 : b3 < 256) :
    array2type [b0, b1, b2, b3]
      = if b3 < 128 then ((b0 + 256 * b1 + 65536 * b2 + 16777216 * b3 : Nat) : Int)
        else ((b0 + 256 * b1 + 65536 * b2 + 16777216 * b3 : Nat) : Int) - 4294967296 := by
  have hv : leValue [b0, b1, b2, b3] = b0 + 256 * b1 + 65536 * b2 + 16777216 * b3 := by
    simp only [leValue]; ring
  have hlt : b0 + 256 * b1 + 65536 * b2 + 16777216 * b3 < 2 ^ 32 := by omega
  unfold array2type
  simp only [hv, Nat.mod_eq_of_lt hlt]
  by_cases hb : b3 < 128
  · rw [if_pos hb, if_pos (by omega)]
  · rw [if_neg hb, if_neg (by omega)]; norm_num

/-- C2. On a well-formed single-wager redemption scriptSig (three length-prefixed pushes,
the length byte 43, then the template around the 4-byte field `b0 b1 b2 b3`),
`isInputBet` returns true with `numberOfBetsEncoded = 1` and `betNumbers` the one-element
list holding the signed 32-bit little-endian value of the field. -/
theorem isInputBet_single (d1 d2 d3 pkh tail5 : List Nat) (push b0 b1 b2 b3 num0 : Nat)
    (hpkh : pkh.length = 21) (h5 : tail5.length = 5)
    (h0 : b0 < 256) (h1 : b1 < 256) (h2 : b2 < 256) (h3 : b3 < 256) :
    isInputBet
        (directPush d1 ++ directPush d2 ++ directPush d3 ++ [43]
          ++ ([OP_DUP, OP_HASH160] ++ pkh ++ [OP_EQUALVERIFY, OP_CHECKSIG, OP_IF]
            ++ [push] ++ [b0, b1, b2, b3] ++ [OP_EQUALVERIFY, OP_TRUE]
            ++ [OP_ELSE, OP_DROP, OP_FALSE, OP_ENDIF] ++ tail5 ++ [OP_DROP]))
        num0 []
      = some ⟨true, 1,
          [if b3 < 128 then ((b0 + 256 * b1 + 65536 * b2 + 16777216 * b3 : Nat) : Int)
           else ((b0 + 256 * b1 + 65536 * b2 + 16777216 * b3 : Nat) : Int) - 4294967296]⟩ := by
  have h := isInputBetBody_betScriptSig d1 d2 d3 pkh tail5 [] (push, [b0, b1, b2, b3])
    (by decide) hpkh h5 (by simp)
  have hs : betScriptSig d1 d2 d3 pkh [] (push, [b0, b1, b2, b3]) tail5
      = directPush d1 ++ directPush d2 ++ directPush d3 ++ [43]
          ++ ([OP_DUP, OP_HASH160] ++ pkh ++ [OP_EQUALVERIFY, OP_CHECKSIG, OP_IF]
            ++ [push] ++ [b0, b1, b2, b3] ++ [OP_EQUALVERIFY, OP_TRUE]
            ++ [OP_ELSE, OP_DROP, OP_FALSE, OP_ENDIF] ++ tail5 ++ [OP_DROP]) := by
    simp [betScriptSig, redeemScript, lengthHeader, List.append_assoc]
  rw [hs] at h
  rw [isInputBet_of_body_ok h num0 []]
  simp [array2type_four b0 b1 b2 b3 h0 h1 h2 h3]

/-- Witness of C2: the field `fe ff ff ff` decodes to `-2`. -/
theorem isInputBet_single_witness :
    isInputBet
        (directPush [1, 2] ++ directPush [3] ++ directPush [] ++ [43]
          ++ ([OP_DUP, OP_HASH160] ++ List.replicate 21 9 ++ [OP_EQUALVERIFY, OP_CHECKSIG, OP_IF]
            ++ [4] ++ [254, 255, 255, 255] ++ [OP_EQUALVERIFY, OP_TRUE]
            ++ [OP_ELSE, OP_DROP, OP_FALSE, OP_ENDIF] ++ [4, 1, 2, 3, 4] ++ [OP_DROP]))
        0 []
      = some ⟨true, 1, [-2]⟩ :=
  isInputBet_single [1, 2] [3] [] (List.replicate 21 9) [4, 1, 2, 3, 4] 4 254 255 255 255 0
    (by decide) (by decide) (by decide) (by decide) (by decide) (by decide)

theorem isInputBet_some_true {s : List Nat} {num0 N : Nat} {bets0 bets : List Int}
    (h : isInputBet s num0 bets0 = some ⟨true, N, bets⟩) :
    ∃ nums, isInputBetBody s = .ok (N, nums) := by
  unfold isInputBet at h
  split at h
  · cases h
  · cases h
  · simp at h
  · rename_i n nums hb
    simp only [Option.some.injEq, BetResult.mk.injEq, true_and] at h
    obtain ⟨rfl, -⟩ := h
    exact ⟨nums, hb⟩

theorem isInputBet_nineteenBets :
    isInputBet nineteenBets 0 []
      = some ⟨true, 19, [18, 17, 16, 15, 14, 13, 12, 11, 10, 9, 8, 7, 6, 5, 4, 3, 2, 1, 0]⟩ := by
  set_option maxRecDepth 100000 in decide


set_option maxRecDepth 100000 in
/-- C3 fails on the code: in the scriptSig `nineteenBets` the 18 bytes read backward from
just before the trailing 10-byte window are all `OP_ENDIF`, none is the `OP_TRUE`
terminator, and `isInputBet` returns true and reports 19 numbers.  The loop of lines
43-50 ends at 18 without having seen the terminator and line 51 goes on. -/
theorem isInputBet_nineteen :
    (∀ b ∈ nineteenBets, b < 256) ∧
    (∀ j < 18, nineteenBets.getD (nineteenBets.length - 11 - j) 0 = OP_ENDIF) ∧
    isInputBet nineteenBets 0 []
      = some ⟨true, 19, [18, 17, 16, 15, 14, 13, 12, 11, 10, 9, 8, 7, 6, 5, 4, 3, 2, 1, 0]⟩ :=
  ⟨by decide, by decide, isInputBet_nineteenBets⟩


set_option maxRecDepth 100000 in
/-- C4 fails on the code: the scriptSig `nineteenBets` is accepted with 19 numbers, the
template fixes `OP_TRUE` at distance 29 from its end and the byte there is `OP_TRUE`, yet
with that byte changed to `OP_FALSE` the scriptSig is accepted all the same: after 18
`OP_ENDIF` the loop of lines 43-50 is over and this byte is never read (the missing test
of C3). -/
theorem isInputBet_nineteen_terminator :
    isInputBet nineteenBets 0 []
      = some ⟨true, 19, [18, 17, 16, 15, 14, 13, 12, 11, 10, 9, 8, 7, 6, 5, 4, 3, 2, 1, 0]⟩ ∧
    fixedByte 19 29 = some OP_TRUE ∧
    nineteenBets.getD (nineteenBets.length - 29) 0 = OP_TRUE ∧
    isInputBet (nineteenBets.set (nineteenBets.length - 29) OP_FALSE) 0 []
      = some ⟨true, 19, [18, 17, 16, 15, 14, 13, 12, 11, 10, 9, 8, 7, 6, 5, 4, 3, 2, 1, 0]⟩ :=
  ⟨isInputBet_nineteenBets, by decide, by decide, by decide⟩

/-- The fixed bytes that are checked. For every scriptSig that `isInputBet` accepts, with
count `N`, and every position fixed by the template (`fixedByte N d = some v`, `d` the
distance from the end), other than the terminator position of a match that reports 19
numbers: the byte there is the template's byte `v`, and changing it to a different value
gives a scriptSig on which `isInputBet` returns false and leaves the out-parameters
alone. -/
theorem isInputBet_fixed_byte (s : List Nat) (num0 N : Nat) (bets0 bets : List Int)
    (num1 : Nat) (bets1 : List Int) (d v b : Nat)
    (h : isInputBet s num0 bets0 = some ⟨true, N, bets⟩)
    (hd : fixedByte N d = some v) (hx : ¬ (N = 19 ∧ d = 29))
    (hb : b ≠ s.getD (s.length - d) 0) :
    s.getD (s.length - d) 0 = v ∧
      isInputBet (s.set (s.length - d) b) num1 bets1 = some ⟨false, num1, bets1⟩ := by
  obtain ⟨nums, hbody⟩ := isInputBet_some_true h
  have hN19 := (isInputBetBody_length hbody).2.1
  have key : s.getD (s.length - d) 0 = v ∧
      isInputBetBody (s.set (s.length - d) b) = .error .returnFalse := by
    rcases fixedByte_cases hd with ⟨h1, h2, h3, h4⟩ | ⟨h1, h2, rfl⟩ | ⟨rfl, rfl⟩ | hrest
    · exact isInputBetBody_set_window hbody h1 h2 h3 h4 hb
    · exact isInputBetBody_set_chain hbody h1 h2 hb
    · exact isInputBetBody_set_terminator hbody (by omega) hb
    · exact isInputBetBody_set_behind hbody hb hrest
  refine ⟨key.1, ?_⟩
  simp only [isInputBet, key.2]

/-- An instance: in a single-wager scriptSig the `OP_EQUALVERIFY` after the number
(distance 12 from the end) is changed to `OP_EQUAL`. -/
theorem isInputBet_fixed_byte_witness :
    ([2, 9, 9, 1, 8, 0, 43, 118, 169, 7, 7, 7, 7, 7, 7, 7, 7, 7, 7, 7, 7, 7, 7, 7, 7, 7, 7, 7,
        7, 7, 136, 172, 99, 4, 1, 0, 0, 0, 136, 81, 103, 117, 0, 104, 4, 1, 2, 3, 4, 117]
        : List Nat).getD (50 - 12) 0 = OP_EQUALVERIFY ∧
      isInputBet [2, 9, 9, 1, 8, 0, 43, 118, 169, 7, 7, 7, 7, 7, 7, 7, 7, 7, 7, 7, 7, 7, 7, 7, 7,
        7, 7, 7, 7, 7, 136, 172, 99, 4, 1, 0, 0, 0, 135, 81, 103, 117, 0, 104, 4, 1, 2, 3, 4,
        117] 3 [8] = some ⟨false, 3, [8]⟩ :=
  isInputBet_fixed_byte
    [2, 9, 9, 1, 8, 0, 43, 118, 169, 7, 7, 7, 7, 7, 7, 7, 7, 7, 7, 7, 7, 7, 7, 7, 7, 7, 7, 7,
      7, 7, 136, 172, 99, 4, 1, 0, 0, 0, 136, 81, 103, 117, 0, 104, 4, 1, 2, 3, 4, 117]
    0 1 [] [1] 3 [8] 12 OP_EQUALVERIFY OP_EQUAL (by decide) (by decide) (by decide) (by decide)

/-- C5. When `isInputBet` returns true with count `N`, the length of the scriptSig is
`f + 31 + 12 N`, `f` being the forward cursor of the specification: the backward parse
ends exactly where the forward parse ends. -/
theorem isInputBet_length (s : List Nat) (num0 N : Nat) (bets0 bets : List Int)
    (h : isInputBet s num0 bets0 = some ⟨true, N, bets⟩) :
    s.length = specForwardCursor s + 31 + 12 * N := by
  unfold isInputBet at h
  split at h
  · cases h
  · cases h
  · simp at h
  · rename_i n nums hb
    simp only [Option.some.injEq, BetResult.mk.injEq, true_and] at h
    obtain ⟨rfl, -⟩ := h
    exact (isInputBetBody_length hb).2.2.2

/-- Witness of C5: a single-wager scriptSig of 49 bytes, with forward cursor 6. -/
theorem isInputBet_length_witness :
    ([2, 9, 9, 1, 8, 0, 43, 118, 169, 7, 7, 7, 7, 7, 7, 7, 7, 7, 7, 7, 7, 7, 7, 7, 7, 7, 7, 7,
        7, 7, 136, 172, 99, 4, 1, 0, 0, 0, 136, 81, 103, 117, 0, 104, 4, 1, 2, 3, 4, 117]
        : List Nat).length
      = specForwardCursor [2, 9, 9, 1, 8, 0, 43, 118, 169, 7, 7, 7, 7, 7, 7, 7, 7, 7, 7, 7, 7,
          7, 7, 7, 7, 7, 7, 7, 7, 7, 136, 172, 99, 4, 1, 0, 0, 0, 136, 81, 103, 117, 0, 104, 4,
          1, 2, 3, 4, 117] + 31 + 12 * 1 :=
  isInputBet_length _ 0 1 [] [1] (by decide)


theorem isInputBet_short (s : List Nat) (num0 : Nat) (bets0 : List Int) (h : s.length < 10) :
    isInputBet s num0 bets0 = none := by
  have h1 : rd s ((s.length : Int) - 10) = .error .outOfRange :=
    rd_outOfRange (Or.inl (by omega))
  have h2 : copy_n s ((s.length : Int) - 10) 10 = .error .outOfRange := by
    simp only [copy_n, h1, bind, Except.bind]
  have h3 : isInputBetBody s = .error .outOfRange := by
    rw [isInputBetBody_eq]
    simp only [h2, bind, Except.bind]
  simp only [isInputBet, h3]

/-- C6 fails on the code: `isInputBet` reads outside the script (a) on every scriptSig
shorter than 10 bytes, the empty one included, where line 33 copies from `end() - 10`;
(b) on a 10-byte scriptSig that matches the trailing window, where line 45 reads
`*(end() - 11)`; (c) on a single-wager scriptSig whose first push byte is 255, where
line 115 reads at offset 256 of 50. -/
theorem isInputBet_reads_outside :
    (∀ (s : List Nat) (num0 : Nat) (bets0 : List Int), s.length < 10 →
      isInputBet s num0 bets0 = none)
    ∧ isInputBet [] 0 [] = none
    ∧ isInputBet [OP_ELSE, OP_DROP, OP_FALSE, OP_ENDIF, 0, 0, 0, 0, 0, OP_DROP] 0 [] = none
    ∧ isInputBet [255, 9, 9, 1, 8, 0, 43, 118, 169, 7, 7, 7, 7, 7, 7, 7, 7, 7, 7, 7, 7, 7, 7,
        7, 7, 7, 7, 7, 7, 7, 136, 172, 99, 4, 1, 0, 0, 0, 136, 81, 103, 117, 0, 104, 4, 1, 2,
        3, 4, 117] 0 [] = none :=
  ⟨isInputBet_short, by decide, by decide, by decide⟩

/-! ## Claims on `getBetType_` and `getBetType` -/

theorem getBetType_of_getBetType_ {vout : List CTxOut} {str : List Nat} {idx : Nat}
    (h : getBetType_ vout = .ok (str, idx)) : getBetType vout = .ok str := by
  simp only [getBetType, h, bind, Except.bind, pure, Except.pure]

/-- C9, as stated, fails: on a carrier at output 1 that declares two bytes and holds one,
the declared length check fails and `getBetType_` returns the empty string, but the
index it reports is 1, not 0 (line 319 sets `idx` before the check of line 320). -/
theorem getBetType__index_after_mismatch :
    getBetType_ [⟨0, []⟩, ⟨0, OP_RETURN :: ([2] ++ [65])⟩] = .ok ([], 1) := rfl

/-- C9 (amended). When no output of index `≥ 1` starts with `OP_RETURN`, `getBetType_`
returns the empty string and the index 0.  When the first such output carries a length
header, the index reported is that of this data-carrier output, both when the descriptor
is returned (declared length equal to the number of bytes that follow) and when the
declared length check fails (empty string).  Scanned scripts have at least two bytes. -/
theorem getBetType__index :
    (∀ vout : List CTxOut,
        (∀ o ∈ vout.tail, ¬ startsWithReturn o ∧ 2 ≤ o.scriptPubKey.length) →
        getBetType_ vout = .ok ([], 0)) ∧
    (∀ (o0 : CTxOut) (pre post : List CTxOut) (c : CTxOut) (hdr payload : List Nat) (L : Nat),
        (∀ o ∈ pre, ¬ startsWithReturn o ∧ 2 ≤ o.scriptPubKey.length) →
        LengthHeader hdr L → c.scriptPubKey = OP_RETURN :: (hdr ++ payload) →
        (o0 :: pre ++ c :: post)[pre.length + 1]? = some c ∧
        (L = payload.length →
          getBetType_ (o0 :: pre ++ c :: post) = .ok (payload, pre.length + 1)) ∧
        (L ≠ payload.length →
          getBetType_ (o0 :: pre ++ c :: post) = .ok ([], pre.length + 1))) := by
  refine ⟨getBetType__no_carrier, ?_⟩
  intro o0 pre post c hdr payload L hpre hh hc
  have := getBetType__carrier o0 pre post c hdr payload L hpre hh hc
  refine ⟨?_, ?_, ?_⟩
  · rw [List.cons_append, List.getElem?_cons_succ, List.getElem?_append_right (le_refl _)]
    simp
  · intro hl; rw [this, if_pos hl]
  · intro hl; rw [this, if_neg hl]

/-- Witness of C9: a transaction without carrier, one whose carrier at output 2 holds the
declared three bytes, and one whose carrier at output 2 holds one byte too many. -/
theorem getBetType__index_witness :
    getBetType_ [⟨5, [OP_RETURN, 1, 65]⟩, ⟨7, [OP_HASH160, 1, OP_EQUAL]⟩] = .ok ([], 0) ∧
    getBetType_ ((⟨5, []⟩ : CTxOut) :: [⟨7, [OP_HASH160, 1, OP_EQUAL]⟩]
        ++ ⟨0, OP_RETURN :: ([3] ++ [65, 66, 67])⟩ :: []) = .ok ([65, 66, 67], 2) ∧
    getBetType_ ((⟨5, []⟩ : CTxOut) :: [⟨7, [OP_HASH160, 1, OP_EQUAL]⟩]
        ++ ⟨0, OP_RETURN :: ([3] ++ [65, 66, 67, 68])⟩ :: []) = .ok ([], 2) :=
  ⟨getBetType__index.1 _ (by decide),
   ((getBetType__index.2 ⟨5, []⟩ [⟨7, [OP_HASH160, 1, OP_EQUAL]⟩] []
      ⟨0, OP_RETURN :: ([3] ++ [65, 66, 67])⟩ [3] [65, 66, 67] 3 (by decide)
      (LengthHeader.direct 3 (by decide)) rfl).2.1) rfl,
   ((getBetType__index.2 ⟨5, []⟩ [⟨7, [OP_HASH160, 1, OP_EQUAL]⟩] []
      ⟨0, OP_RETURN :: ([3] ++ [65, 66, 67, 68])⟩ [3] [65, 66, 67, 68] 3 (by decide)
      (LengthHeader.direct 3 (by decide)) rfl).2.2) (by decide)⟩

/-! ## Lemmas on `getBetType_` with unspecified reads -/

theorem segments_ne_nil (s : List Nat) : segments s ≠ [] := by
  cases s with
  | nil => simp [segments]
  | cons ch rest =>
    simp only [segments]
    split
    · simp
    · split <;> simp

theorem segments_of_findPlus_none {s : List Nat} (h : findPlus s = none) : segments s = [s] := by
  induction s with
  | nil => rfl
  | cons ch rest ih =>
    simp only [findPlus] at h
    by_cases hc : ch = plusChar
    · rw [if_pos hc] at h; cases h
    · rw [if_neg hc] at h
      have hr : findPlus rest = none := by
        cases hf : findPlus rest with
        | none => rfl
        | some p => rw [hf] at h; cases h
      simp only [segments, if_neg hc, ih hr]

theorem segments_of_findPlus_some {s : List Nat} {pos : Nat} (h : findPlus s = some pos) :
    segments s = s.take pos :: segments (s.drop (pos + 1)) := by
  induction s generalizing pos with
  | nil => cases h
  | cons ch rest ih =>
    simp only [findPlus] at h
    by_cases hc : ch = plusChar
    · rw [if_pos hc] at h
      cases h
      simp [segments, hc]
    · rw [if_neg hc] at h
      cases hf : findPlus rest with
      | none => rw [hf] at h; cases h
      | some p =>
        rw [hf] at h
        simp only [Option.map_some', Option.some.injEq] at h
        subst h
        simp only [segments, if_neg hc, ih hf, List.take_succ_cons, List.drop_succ_cons]

theorem firstSegment_eq_head (s : List Nat) :
    (segments s).head? = some (firstSegment s) := by
  unfold firstSegment
  cases h : findPlus s with
  | none => simp [segments_of_findPlus_none h]
  | some pos => simp [segments_of_findPlus_some h]

theorem findPlus_lt {s : List Nat} {pos : Nat} (h : findPlus s = some pos) : pos < s.length := by
  induction s generalizing pos with
  | nil => cases h
  | cons ch rest ih =>
    simp only [findPlus] at h
    by_cases hc : ch = plusChar
    · rw [if_pos hc] at h; cases h; simp
    · rw [if_neg hc] at h
      cases hf : findPlus rest with
      | none => rw [hf] at h; cases h
      | some p =>
        rw [hf] at h
        simp only [Option.map_some', Option.some.injEq] at h
        subst h
        have := ih hf
        simp
        omega

/-- The loop of lines 223-232 against the split descriptor: it fails when there are at
most `n` segments, and otherwise leaves the text that starts at segment `n`. -/
theorem skipSegments_spec (n : Nat) (d : List Nat) :
    ((segments d).length ≤ n ∧ skipSegments n d = .error .returnFalse) ∨
    (∃ rest, skipSegments n d = .ok rest ∧ segments rest = (segments d).drop n) := by
  induction n generalizing d with
  | zero => exact Or.inr ⟨d, rfl, rfl⟩
  | succ n ih =>
    cases h : findPlus d with
    | none =>
      refine Or.inl ⟨by simp [segments_of_findPlus_none h], ?_⟩
      simp only [skipSegments, h]
    | some pos =>
      rcases ih (d.drop (pos + 1)) with ⟨h1, h2⟩ | ⟨rest, h1, h2⟩
      · refine Or.inl ⟨by simp [segments_of_findPlus_some h]; omega, ?_⟩
        simp only [skipSegments, h, h2]
      · refine Or.inr ⟨rest, ?_, ?_⟩
        · simp only [skipSegments, h, h1]
        · rw [h2, segments_of_findPlus_some h, List.drop_succ_cons]

theorem skipSegments_ok {n : Nat} {d rest : List Nat} (h : skipSegments n d = .ok rest) :
    (segments d)[n]? = some (firstSegment rest) := by
  rcases skipSegments_spec n d with ⟨_, h2⟩ | ⟨rest', h1, h2⟩
  · rw [h] at h2; cases h2
  · rw [h] at h1
    cases h1
    have := firstSegment_eq_head rest
    rw [h2, List.head?_drop] at this
    exact this

theorem skipSegments_error {n : Nat} {d : List Nat} {e : Fault} (h : skipSegments n d = .error e) :
    e = .returnFalse := by
  rcases skipSegments_spec n d with ⟨_, h2⟩ | ⟨rest', h1, _⟩
  · rw [h] at h2; cases h2; rfl
  · rw [h] at h1; cases h1

/-! ## Lemmas on the per-input `txVerify` -/

theorem txVerifyInputBody_eq (c : Collaborators) (nSpendHeight : Int) (input : CTxIn)
    (prev : TxData) (indicator maxReward totalReward inputSum : Int) :
    txVerifyInputBody c nSpendHeight input prev indicator maxReward totalReward inputSum = (do
      if Int.xor prev.version indicator > c.MAX_STANDARD_VERSION ∨ Int.xor prev.version indicator < 1
        then throw .returnFalse
      let blockhashFromScript_ ← copy_n input.scriptSig 1 4
      if getMakeTxBlockHash c prev.blockhash (c.getArgument input.scriptSig)
          ≠ array2typeU blockhashFromScript_ then throw .returnFalse
      let betType ← getBetType prev.tx.vout
      if betType = [] then throw .returnFalse
      if c.getArgumentFromBetType betType (some maxReward) = none then throw .returnFalse
      let betType ← skipSegments input.prevout.n betType
      txVerifyInputTail c nSpendHeight input prev maxReward totalReward inputSum
        (c.getArgument input.scriptSig) (firstSegment betType)) := rfl

theorem isInputBet_accept_facts {s : List Nat} {num0 N : Nat} {bets0 nums : List Int}
    (h : isInputBet s num0 bets0 = some ⟨true, N, nums⟩) :
    1 ≤ N ∧ N ≤ 19 ∧ ∃ nums', nums = bets0 ++ nums' ∧ nums'.length = N ∧
      isInputBetBody s = .ok (N, nums') := by
  obtain ⟨nums', hb⟩ := isInputBet_some_true h
  obtain ⟨h1, h2, h3, -⟩ := isInputBetBody_length hb
  have := isInputBet_of_body_ok hb num0 bets0
  rw [h] at this
  simp only [Option.some.injEq, BetResult.mk.injEq, true_and] at this
  exact ⟨h1, h2, nums', this, h3, hb⟩

/-- Lines 236-270 when `isInputBet` accepts the scriptSig with `N` numbers. -/
theorem txVerifyInputTail_of_accept {c : Collaborators} {nSpendHeight : Int} {input : CTxIn}
    {prev : TxData} {maxReward totalReward inputSum : Int} {argument : Nat}
    {betType : List Nat} {N : Nat} {nums : List Int}
    (h : isInputBet input.scriptSig 0 [] = some ⟨true, N, nums⟩) :
    txVerifyInputTail c nSpendHeight input prev maxReward totalReward inputSum argument betType
      = if c.getReward betType argument ≠ toInt32 (argument / N) then .error .returnFalse
        else if c.compareBet2Vector nSpendHeight betType nums = false then .error .returnFalse
        else
          match prev.tx.vout[input.prevout.n]? with
          | none => .error .outOfRange
          | some out =>
            if c.getReward betType argument > maxReward ∨ toInt32 (argument / N) > maxReward then
              .ok (false, toInt64 (totalReward + toInt64 (toInt32 (argument / N) * out.nValue)),
                toInt64 (inputSum + out.nValue))
            else
              .ok (true, toInt64 (totalReward + toInt64 (toInt32 (argument / N) * out.nValue)),
                toInt64 (inputSum + out.nValue)) := by
  obtain ⟨hN, -, nums', hn, hl, -⟩ := isInputBet_accept_facts h
  have hne : nums ≠ [] := by
    intro he
    rw [he] at hn
    have : nums' = [] := by simpa using hn.symm
    rw [this] at hl
    simp at hl
    omega
  have hg : ¬ ((true = false) ∨ N = 0 ∨ nums = []) := by
    simp only [Bool.true_eq_false, false_or, not_or]
    exact ⟨by omega, hne⟩
  unfold txVerifyInputTail
  simp only [h, guard_eq, if_neg hg]
  by_cases h1 : c.getReward betType argument ≠ toInt32 (argument / N)
  · simp only [if_pos h1]
    rfl
  · simp only [if_neg h1]
    by_cases h2 : c.compareBet2Vector nSpendHeight betType nums = false
    · simp only [if_pos h2]
      rfl
    · simp only [if_neg h2]
      cases prev.tx.vout[input.prevout.n]? with
      | none => rfl
      | some out => rfl

theorem txVerifyInputTail_of_reject {c : Collaborators} {nSpendHeight : Int} {input : CTxIn}
    {prev : TxData} {maxReward totalReward inputSum : Int} {argument : Nat}
    {betType : List Nat} {n : Nat} {nums : List Int}
    (h : isInputBet input.scriptSig 0 [] = some ⟨false, n, nums⟩) :
    txVerifyInputTail c nSpendHeight input prev maxReward totalReward inputSum argument betType
      = .error .returnFalse := by
  unfold txVerifyInputTail
  simp only [h, guard_eq, true_or, if_true]
  rfl

theorem txVerifyInputTail_of_fault {c : Collaborators} {nSpendHeight : Int} {input : CTxIn}
    {prev : TxData} {maxReward totalReward inputSum : Int} {argument : Nat}
    {betType : List Nat} (h : isInputBet input.scriptSig 0 [] = none) :
    txVerifyInputTail c nSpendHeight input prev maxReward totalReward inputSum argument betType
      = .error .outOfRange := by
  unfold txVerifyInputTail
  simp only [h]
  rfl

/-- The checks of lines 183-232 that precede the wager comparison. -/
theorem txVerifyInputBody_ok_iff {c : Collaborators} {nSpendHeight : Int} {input : CTxIn}
    {prev : TxData} {indicator maxReward totalReward inputSum : Int} {r : Bool × Int × Int} :
    txVerifyInputBody c nSpendHeight input prev indicator maxReward totalReward inputSum = .ok r ↔
      ¬ (Int.xor prev.version indicator > c.MAX_STANDARD_VERSION ∨
          Int.xor prev.version indicator < 1) ∧
      ∃ bh, copy_n input.scriptSig 1 4 = .ok bh ∧
        ¬ (getMakeTxBlockHash c prev.blockhash (c.getArgument input.scriptSig)
            ≠ array2typeU bh) ∧
      ∃ d, getBetType prev.tx.vout = .ok d ∧ ¬ (d = []) ∧
        ¬ (c.getArgumentFromBetType d (some maxReward) = none) ∧
      ∃ rest, skipSegments input.prevout.n d = .ok rest ∧
        txVerifyInputTail c nSpendHeight input prev maxReward totalReward inputSum
          (c.getArgument input.scriptSig) (firstSegment rest) = .ok r := by
  rw [txVerifyInputBody_eq]
  simp only [guard_eq]
  simp only [guard_ok_iff, bind_ok_iff]

theorem txVerifyInputBody_of_checks {c : Collaborators} {nSpendHeight : Int} {input : CTxIn}
    {prev : TxData} {indicator maxReward totalReward inputSum : Int} {bh d rest : List Nat}
    (hv : ¬ (Int.xor prev.version indicator > c.MAX_STANDARD_VERSION ∨
          Int.xor prev.version indicator < 1))
    (hbh : copy_n input.scriptSig 1 4 = .ok bh)
    (hh : getMakeTxBlockHash c prev.blockhash (c.getArgument input.scriptSig) = array2typeU bh)
    (hd : getBetType prev.tx.vout = .ok d) (hne : d ≠ [])
    (ha : c.getArgumentFromBetType d (some maxReward) ≠ none)
    (hs : skipSegments input.prevout.n d = .ok rest) :
    txVerifyInputBody c nSpendHeight input prev indicator maxReward totalReward inputSum
      = txVerifyInputTail c nSpendHeight input prev maxReward totalReward inputSum
          (c.getArgument input.scriptSig) (firstSegment rest) := by
  rw [txVerifyInputBody_eq]
  simp only [guard_eq]
  rw [if_neg hv, hbh]
  simp only [bind, Except.bind]
  rw [if_neg (not_not.mpr hh), hd]
  simp only [if_neg hne, if_neg ha, hs]

theorem txVerifyInput_true_iff {c : Collaborators} {nSpendHeight : Int} {input : CTxIn}
    {prev : TxData} {indicator maxReward totalReward inputSum tr1 is1 : Int} :
    txVerifyInput c nSpendHeight input prev indicator maxReward totalReward inputSum
        = some ⟨true, tr1, is1⟩ ↔
      txVerifyInputBody c nSpendHeight input prev indicator maxReward totalReward inputSum
        = .ok (true, tr1, is1) := by
  unfold txVerifyInput
  cases h : txVerifyInputBody c nSpendHeight input prev indicator maxReward totalReward inputSum with
  | error e => cases e <;> simp
  | ok r =>
    obtain ⟨b, t, i⟩ := r
    simp

theorem txVerifyInput_of_returnFalse {c : Collaborators} {nSpendHeight : Int} {input : CTxIn}
    {prev : TxData} {indicator maxReward totalReward inputSum : Int}
    (h : txVerifyInputBody c nSpendHeight input prev indicator maxReward totalReward inputSum
        = .error .returnFalse) :
    txVerifyInput c nSpendHeight input prev indicator maxReward totalReward inputSum
      = some ⟨false, totalReward, inputSum⟩ := by
  unfold txVerifyInput
  rw [h]

theorem txVerifyInput_of_outOfRange {c : Collaborators} {nSpendHeight : Int} {input : CTxIn}
    {prev : TxData} {indicator maxReward totalReward inputSum : Int}
    (h : txVerifyInputBody c nSpendHeight input prev indicator maxReward totalReward inputSum
        = .error .outOfRange) :
    txVerifyInput c nSpendHeight input prev indicator maxReward totalReward inputSum = none := by
  unfold txVerifyInput
  rw [h]

theorem txVerifyInput_of_ok {c : Collaborators} {nSpendHeight : Int} {input : CTxIn}
    {prev : TxData} {indicator maxReward totalReward inputSum : Int} {b : Bool} {tr1 is1 : Int}
    (h : txVerifyInputBody c nSpendHeight input prev indicator maxReward totalReward inputSum
        = .ok (b, tr1, is1)) :
    txVerifyInput c nSpendHeight input prev indicator maxReward totalReward inputSum
      = some ⟨b, tr1, is1⟩ := by
  unfold txVerifyInput
  rw [h]

/-- The per-input body once the two reads before line 236 are known to succeed. -/
theorem txVerifyInputBody_of_reads {c : Collaborators} {nSpendHeight : Int} {input : CTxIn}
    {prev : TxData} {indicator maxReward totalReward inputSum : Int} {bh d : List Nat}
    (hbh : copy_n input.scriptSig 1 4 = .ok bh) (hd : getBetType prev.tx.vout = .ok d) :
    txVerifyInputBody c nSpendHeight input prev indicator maxReward totalReward inputSum
      = if Int.xor prev.version indicator > c.MAX_STANDARD_VERSION ∨
            Int.xor prev.version indicator < 1 then .error .returnFalse
        else if getMakeTxBlockHash c prev.blockhash (c.getArgument input.scriptSig)
            ≠ array2typeU bh then .error .returnFalse
        else if d = [] then .error .returnFalse
        else if c.getArgumentFromBetType d (some maxReward) = none then .error .returnFalse
        else
          match skipSegments input.prevout.n d with
          | .error e => .error e
          | .ok rest =>
            txVerifyInputTail c nSpendHeight input prev maxReward totalReward inputSum
              (c.getArgument input.scriptSig) (firstSegment rest) := by
  rw [txVerifyInputBody_eq]
  simp only [guard_eq]
  by_cases hv : Int.xor prev.version indicator > c.MAX_STANDARD_VERSION ∨
      Int.xor prev.version indicator < 1
  · rw [if_pos hv, if_pos hv]
  · rw [if_neg hv, if_neg hv, hbh]
    simp only [bind, Except.bind]
    by_cases hh : getMakeTxBlockHash c prev.blockhash (c.getArgument input.scriptSig)
        ≠ array2typeU bh
    · rw [if_pos hh, if_pos hh]
    · rw [if_neg hh, if_neg hh, hd]
      simp only []
      by_cases hne : d = []
      · rw [if_pos hne, if_pos hne]
      · rw [if_neg hne, if_neg hne]
        by_cases ha : c.getArgumentFromBetType d (some maxReward) = none
        · rw [if_pos ha, if_pos ha]
        · rw [if_neg ha, if_neg ha]
          cases skipSegments input.prevout.n d <;> rfl

theorem copy_n_bytes14 (b0 b1 b2 b3 b4 : Nat) (rest : List Nat) :
    copy_n (b0 :: b1 :: b2 :: b3 :: b4 :: rest) 1 4 = .ok [b1, b2, b3, b4] :=
  copy_n_append [b0] [b1, b2, b3, b4] rest (by simp)

theorem copy_n_of_accept {s : List Nat} {num0 N : Nat} {bets0 nums : List Int}
    (h : isInputBet s num0 bets0 = some ⟨true, N, nums⟩) :
    ∃ bh, copy_n s 1 4 = .ok bh := by
  obtain ⟨hN, -, nums', -, -, hb⟩ := isInputBet_accept_facts h
  obtain ⟨-, -, -, hl⟩ := isInputBetBody_length hb
  exact copy_n_inRange s 4 1 (by omega) (by push_cast; omega)

theorem toInt32_of_lt {u : Nat} (h : u < 2 ^ 31) : toInt32 u = (u : Int) := by
  have h1 : u % 2 ^ 32 = u := Nat.mod_eq_of_lt (by omega)
  unfold toInt32
  rw [h1, if_pos h]

/-- Every accepting run of the per-input `txVerify` goes through lines 236-270. -/
theorem txVerifyInput_true_facts {c : Collaborators} {nSpendHeight : Int} {input : CTxIn}
    {prev : TxData} {indicator maxReward totalReward inputSum tr1 sm1 : Int}
    (h : txVerifyInput c nSpendHeight input prev indicator maxReward totalReward inputSum
        = some ⟨true, tr1, sm1⟩) :
    ∃ bh d rest N nums out,
      ¬ (Int.xor prev.version indicator > c.MAX_STANDARD_VERSION ∨
          Int.xor prev.version indicator < 1) ∧
      copy_n input.scriptSig 1 4 = .ok bh ∧
      getMakeTxBlockHash c prev.blockhash (c.getArgument input.scriptSig) = array2typeU bh ∧
      getBetType prev.tx.vout = .ok d ∧ d ≠ [] ∧
      c.getArgumentFromBetType d (some maxReward) ≠ none ∧
      skipSegments input.prevout.n d = .ok rest ∧
      isInputBet input.scriptSig 0 [] = some ⟨true, N, nums⟩ ∧
      c.getReward (firstSegment rest) (c.getArgument input.scriptSig)
        = toInt32 (c.getArgument input.scriptSig / N) ∧
      c.compareBet2Vector nSpendHeight (firstSegment rest) nums = true ∧
      prev.tx.vout[input.prevout.n]? = some out ∧
      c.getReward (firstSegment rest) (c.getArgument input.scriptSig) ≤ maxReward ∧
      toInt32 (c.getArgument input.scriptSig / N) ≤ maxReward ∧
      tr1 = toInt64 (totalReward
        + toInt64 (toInt32 (c.getArgument input.scriptSig / N) * out.nValue)) ∧
      sm1 = toInt64 (inputSum + out.nValue) := by
  rw [txVerifyInput_true_iff, txVerifyInputBody_ok_iff] at h
  obtain ⟨hv, bh, hbh, hh, d, hd, hne, ha, rest, hs, ht⟩ := h
  cases hb : isInputBet input.scriptSig 0 [] with
  | none => rw [txVerifyInputTail_of_fault hb] at ht; cases ht
  | some r =>
    obtain ⟨b, N, nums⟩ := r
    cases b with
    | false => rw [txVerifyInputTail_of_reject hb] at ht; cases ht
    | true =>
      rw [txVerifyInputTail_of_accept hb] at ht
      obtain ⟨h1, ht⟩ := guard_ok_iff.mp ht
      obtain ⟨h2, ht⟩ := guard_ok_iff.mp ht
      cases ho : prev.tx.vout[input.prevout.n]? with
      | none => rw [ho] at ht; cases ht
      | some out =>
        rw [ho] at ht
        simp only [] at ht
        by_cases h3 : c.getReward (firstSegment rest) (c.getArgument input.scriptSig) > maxReward ∨
            toInt32 (c.getArgument input.scriptSig / N) > maxReward
        · rw [if_pos h3] at ht; cases ht
        · rw [if_neg h3] at ht
          simp only [Except.ok.injEq, Prod.mk.injEq, true_and] at ht
          rw [not_or] at h3
          refine ⟨bh, d, rest, N, nums, out, hv, hbh, not_not.mp hh, hd, hne, ha, hs, rfl,
            not_not.mp h1, by simpa using h2, rfl, not_lt.mp h3.1, not_lt.mp h3.2,
            ht.1.symm, ht.2.symm⟩

/-- With the two reads before line 236 succeeding, the per-input body returns false as
soon as lines 236-270 would for the selected segment. -/
theorem txVerifyInputBody_returnFalse {c : Collaborators} {nSpendHeight : Int} {input : CTxIn}
    {prev : TxData} {indicator maxReward totalReward inputSum : Int} {bh d : List Nat}
    (hbh : copy_n input.scriptSig 1 4 = .ok bh) (hd : getBetType prev.tx.vout = .ok d)
    (ht : ∀ rest, skipSegments input.prevout.n d = .ok rest →
      txVerifyInputTail c nSpendHeight input prev maxReward totalReward inputSum
        (c.getArgument input.scriptSig) (firstSegment rest) = .error .returnFalse) :
    txVerifyInputBody c nSpendHeight input prev indicator maxReward totalReward inputSum
      = .error .returnFalse := by
  rw [txVerifyInputBody_of_reads hbh hd]
  by_cases hv : Int.xor prev.version indicator > c.MAX_STANDARD_VERSION ∨
      Int.xor prev.version indicator < 1
  · rw [if_pos hv]
  · rw [if_neg hv]
    by_cases hh : getMakeTxBlockHash c prev.blockhash (c.getArgument input.scriptSig)
        ≠ array2typeU bh
    · rw [if_pos hh]
    · rw [if_neg hh]
      by_cases hne : d = []
      · rw [if_pos hne]
      · rw [if_neg hne]
        by_cases ha : c.getArgumentFromBetType d (some maxReward) = none
        · rw [if_pos ha]
        · rw [if_neg ha]
          cases hs : skipSegments input.prevout.n d with
          | error e => rw [skipSegments_error hs]
          | ok rest => exact ht rest hs

/-- With the two reads before line 236 succeeding, the per-input body has undefined
behaviour only if lines 236-270 have. -/
theorem txVerifyInputBody_no_fault {c : Collaborators} {nSpendHeight : Int} {input : CTxIn}
    {prev : TxData} {indicator maxReward totalReward inputSum : Int} {bh d : List Nat}
    (hbh : copy_n input.scriptSig 1 4 = .ok bh) (hd : getBetType prev.tx.vout = .ok d)
    (ht : ∀ rest, skipSegments input.prevout.n d = .ok rest →
      txVerifyInputTail c nSpendHeight input prev maxReward totalReward inputSum
        (c.getArgument input.scriptSig) (firstSegment rest) ≠ .error .outOfRange) :
    txVerifyInputBody c nSpendHeight input prev indicator maxReward totalReward inputSum
      ≠ .error .outOfRange := by
  rw [txVerifyInputBody_of_reads hbh hd]
  by_cases hv : Int.xor prev.version indicator > c.MAX_STANDARD_VERSION ∨
      Int.xor prev.version indicator < 1
  · rw [if_pos hv]; simp
  · rw [if_neg hv]
    by_cases hh : getMakeTxBlockHash c prev.blockhash (c.getArgument input.scriptSig)
        ≠ array2typeU bh
    · rw [if_pos hh]; simp
    · rw [if_neg hh]
      by_cases hne : d = []
      · rw [if_pos hne]; simp
      · rw [if_neg hne]
        by_cases ha : c.getArgumentFromBetType d (some maxReward) = none
        · rw [if_pos ha]; simp
        · rw [if_neg ha]
          cases hs : skipSegments input.prevout.n d with
          | error e => rw [skipSegments_error hs]; simp
          | ok rest => exact ht rest hs

/-- Lines 236-270 construct no string: they throw nothing. -/
theorem txVerifyInputTail_ne_lengthError (c : Collaborators) (nSpendHeight : Int)
    (input : CTxIn) (prev : TxData) (maxReward totalReward inputSum : Int) (argument : Nat)
    (betType : List Nat) :
    txVerifyInputTail c nSpendHeight input prev maxReward totalReward inputSum argument betType
      ≠ .error .lengthError := by
  cases hb : isInputBet input.scriptSig 0 [] with
  | none => rw [txVerifyInputTail_of_fault hb]; simp
  | some r =>
    obtain ⟨b, N, nums⟩ := r
    cases b with
    | false => rw [txVerifyInputTail_of_reject hb]; simp
    | true =>
      rw [txVerifyInputTail_of_accept hb]
      by_cases h1 : c.getReward betType argument ≠ toInt32 (argument / N)
      · rw [if_pos h1]; simp
      · rw [if_neg h1]
        by_cases h2 : c.compareBet2Vector nSpendHeight betType nums = false
        · rw [if_pos h2]; simp
        · rw [if_neg h2]
          cases prev.tx.vout[input.prevout.n]? with
          | none => simp
          | some out =>
            simp only []
            split_ifs <;> simp

/-- With the two reads before line 236 succeeding, no exception leaves the per-input
body. -/
theorem txVerifyInputBody_no_throw {c : Collaborators} {nSpendHeight : Int} {input : CTxIn}
    {prev : TxData} {indicator maxReward totalReward inputSum : Int} {bh d : List Nat}
    (hbh : copy_n input.scriptSig 1 4 = .ok bh) (hd : getBetType prev.tx.vout = .ok d) :
    txVerifyInputBody c nSpendHeight input prev indicator maxReward totalReward inputSum
      ≠ .error .lengthError := by
  rw [txVerifyInputBody_of_reads hbh hd]
  by_cases hv : Int.xor prev.version indicator > c.MAX_STANDARD_VERSION ∨
      Int.xor prev.version indicator < 1
  · rw [if_pos hv]; simp
  · rw [if_neg hv]
    by_cases hh : getMakeTxBlockHash c prev.blockhash (c.getArgument input.scriptSig)
        ≠ array2typeU bh
    · rw [if_pos hh]; simp
    · rw [if_neg hh]
      by_cases hne : d = []
      · rw [if_pos hne]; simp
      · rw [if_neg hne]
        by_cases ha : c.getArgumentFromBetType d (some maxReward) = none
        · rw [if_pos ha]; simp
        · rw [if_neg ha]
          cases hs : skipSegments input.prevout.n d with
          | error e => rw [skipSegments_error hs]; simp
          | ok rest => exact txVerifyInputTail_ne_lengthError _ _ _ _ _ _ _ _ _

/-! ## C13: what an accepted input adds to the accumulators -/

/-- C14, as stated, fails where the quotient does not fit an `int`: with the script
argument 4294967294 and one wager, `getReward` returning `-2` differs from the quotient
`4294967294 / 1`, yet line 248 compares it with `scriptReward = -2` and the input
passes. -/
theorem txVerifyInput_reward_mismatch_wrapped :
    isInputBet oneBetScriptSig 0 [] = some ⟨true, 1, [5]⟩ ∧
    (scenario 4294967294 (-2)).getReward [49] 4294967294 ≠ ((4294967294 / 1 : Nat) : Int) ∧
    txVerifyInput (scenario 4294967294 (-2)) 0 ⟨⟨1, 0⟩, oneBetScriptSig⟩ ⟨1, [], oneBetTx⟩
        0 100 0 0 = some ⟨true, -200, 100⟩ := by
  refine ⟨by decide, by decide, by decide⟩

/-- C14 (amended). For every input whose scriptSig `isInputBet` accepts with `N`
numbers and whose prior transaction has a descriptor with a segment at position
`prevout.n`: if `getReward` of that segment and the script argument differs from
`argument / N` converted to a 32-bit signed `int`, the per-input `txVerify` returns
false and leaves both accumulators as they were. -/
theorem txVerifyInput_reward_mismatch (c : Collaborators) (nSpendHeight : Int) (input : CTxIn)
    (prev : TxData) (indicator maxReward totalReward inputSum : Int) (d seg : List Nat)
    (N : Nat) (nums : List Int)
    (hd : getBetType prev.tx.vout = .ok d)
    (hseg : (segments d)[input.prevout.n]? = some seg)
    (hbet : isInputBet input.scriptSig 0 [] = some ⟨true, N, nums⟩)
    (hne : c.getReward seg (c.getArgument input.scriptSig)
      ≠ toInt32 (c.getArgument input.scriptSig / N)) :
    txVerifyInput c nSpendHeight input prev indicator maxReward totalReward inputSum
      = some ⟨false, totalReward, inputSum⟩ := by
  obtain ⟨bh, hbh⟩ := copy_n_of_accept hbet
  refine txVerifyInput_of_returnFalse (txVerifyInputBody_returnFalse hbh hd ?_)
  intro rest hs
  have h1 := skipSegments_ok hs
  rw [hseg] at h1
  cases h1
  rw [txVerifyInputTail_of_accept hbet, if_pos hne]

set_option maxRecDepth 100000 in
/-- Witness of C14, the scenario of the claim: argument 36, one wager and `getReward`
returning 35; the input fails. -/
theorem txVerifyInput_reward_mismatch_witness :
    txVerifyInput (scenario 36 35) 0 ⟨⟨1, 0⟩, oneBetScriptSig⟩ ⟨1, [], oneBetTx⟩ 0 100 0 0
      = some ⟨false, 0, 0⟩ :=
  txVerifyInput_reward_mismatch (scenario 36 35) 0 ⟨⟨1, 0⟩, oneBetScriptSig⟩ ⟨1, [], oneBetTx⟩
    0 100 0 0 [49] [49] 1 [5] rfl (by decide) (by decide) (by decide)

/-! ## C15: the segment that is checked -/

/-- The per-input body, with unspecified reads, once the descriptor of the prior
transaction is known. -/
theorem txVerifyInputBodyAny_of_descriptor {w : Stray} {c : Collaborators}
    {nSpendHeight : Int} {input : CTxIn} {prev : TxData}
    {indicator maxReward totalReward inputSum : Int} {d : List Nat}
    (hd : getBetTypeAny w.scriptPubKey prev.tx.vout = .ok d) :
    txVerifyInputBodyAny w c nSpendHeight input prev indicator maxReward totalReward inputSum
      = if Int.xor prev.version indicator > c.MAX_STANDARD_VERSION ∨
            Int.xor prev.version indicator < 1 then .error .returnFalse
        else if getMakeTxBlockHash c prev.blockhash (c.getArgument input.scriptSig)
            ≠ array2typeU (copy_nAny w.scriptSig input.scriptSig 1 4) then .error .returnFalse
        else if d = [] then .error .returnFalse
        else if c.getArgumentFromBetType d (some maxReward) = none then .error .returnFalse
        else
          match skipSegments input.prevout.n d with
          | .error e => .error e
          | .ok rest =>
            txVerifyInputTailAny w c nSpendHeight input prev maxReward totalReward inputSum
              (c.getArgument input.scriptSig) (firstSegment rest) := by
  unfold txVerifyInputBodyAny
  simp only [guard_eq]
  by_cases hv : Int.xor prev.version indicator > c.MAX_STANDARD_VERSION ∨
      Int.xor prev.version indicator < 1
  · rw [if_pos hv, if_pos hv]
  · rw [if_neg hv, if_neg hv]
    simp only [bind, Except.bind, pure, Except.pure]
    by_cases hh : getMakeTxBlockHash c prev.blockhash (c.getArgument input.scriptSig)
        ≠ array2typeU (copy_nAny w.scriptSig input.scriptSig 1 4)
    · rw [if_pos hh, if_pos hh]
    · rw [if_neg hh, if_neg hh, hd]
      simp only []
      by_cases hne : d = []
      · rw [if_pos hne, if_pos hne]
      · rw [if_neg hne, if_neg hne]
        by_cases ha : c.getArgumentFromBetType d (some maxReward) = none
        · rw [if_pos ha, if_pos ha]
        · rw [if_neg ha, if_neg ha]
          cases skipSegments input.prevout.n d <;> rfl

set_option maxRecDepth 100000 in
/-- C16, as stated, fails where the quotient does not fit an `int`: with the script
argument 4294967290 and one wager the script-derived reward `argument / 1` exceeds
`maxReward = 35`, but `scriptReward` of line 247 is `-6`; a reward policy that returns
`-6` makes the input pass the comparison of line 248, neither value exceeds `maxReward`
at line 265, and the call returns true. -/
theorem txVerifyInput_maxReward_wrapped :
    isInputBet oneBetScriptSig 0 [] = some ⟨true, 1, [5]⟩ ∧
    (scenario 4294967290 (-6)).getArgument oneBetScriptSig = 4294967290 ∧
    ((4294967290 / 1 : Nat) : Int) > 35 ∧
    txVerifyInput (scenario 4294967290 (-6)) 0 ⟨⟨1, 0⟩, oneBetScriptSig⟩ ⟨1, [], oneBetTx⟩
        0 35 0 0 = some ⟨true, -600, 100⟩ ∧
    txVerifyInputAny zeroStray (scenario 4294967290 (-6)) 0 ⟨⟨1, 0⟩, oneBetScriptSig⟩
        ⟨1, [], oneBetTx⟩ 0 35 0 0 = some ⟨true, -600, 100⟩ := by
  refine ⟨by decide, rfl, by decide, by decide, by decide⟩

/-- Lines 236-270, with unspecified reads, when `isInputBet` accepts the scriptSig with
`N` numbers: they return false, or they return at line 268 or 270, with true only if
neither reward exceeds `maxReward`. -/
theorem txVerifyInputTailAny_cases {w : Stray} {c : Collaborators} {nSpendHeight : Int}
    {input : CTxIn} {prev : TxData} {maxReward totalReward inputSum : Int} {argument : Nat}
    {betType : List Nat} {N : Nat} {nums : List Int}
    (h : isInputBetAny w.scriptSig input.scriptSig 0 [] = ⟨true, N, nums⟩) :
    txVerifyInputTailAny w c nSpendHeight input prev maxReward totalReward inputSum argument
        betType = .error .returnFalse ∨
    ∃ b tr sm,
      txVerifyInputTailAny w c nSpendHeight input prev maxReward totalReward inputSum argument
        betType = .ok (b, tr, sm) ∧
      (b = true ↔ ¬ (c.getReward betType argument > maxReward ∨
        toInt32 (argument / N) > maxReward)) := by
  unfold txVerifyInputTailAny
  simp only [guard_eq, h]
  by_cases h0 : (true = false) ∨ N = 0 ∨ nums = []
  · left
    rw [if_pos h0]
  · rw [if_neg h0]
    by_cases h1 : c.getReward betType argument ≠ toInt32 (argument / N)
    · left
      simp only [if_pos h1, bind, Except.bind]
    · simp only [if_neg h1, bind, Except.bind, pure, Except.pure]
      by_cases h2 : c.compareBet2Vector nSpendHeight betType nums = false
      · left
        simp only [if_pos h2]
      · right
        simp only [if_neg h2]
        by_cases h3 : c.getReward betType argument > maxReward ∨
            toInt32 (argument / N) > maxReward
        · rw [if_pos h3]
          exact ⟨false, _, _, rfl, ⟨fun hf => Bool.noConfusion hf, fun hn => absurd h3 hn⟩⟩
        · rw [if_neg h3]
          exact ⟨true, _, _, rfl, ⟨fun _ => h3, fun _ => rfl⟩⟩

/-- C16 (amended). For every input whose scriptSig `isInputBet` accepts with `N`
numbers and whose prior transaction has a descriptor `d`, the per-input `txVerify`
returns; it returns false whenever `getReward` of the selected segment, or `scriptReward`
(the quotient `argument / N` as a 32-bit signed `int`), exceeds `maxReward`; so when it
returns true, `scriptReward ≤ maxReward`.  This holds whatever the reads outside a buffer
yield, the read of `vout[prevout.n]` of line 261 among them. -/
theorem txVerifyInput_maxReward (w : Stray) (c : Collaborators) (nSpendHeight : Int)
    (input : CTxIn) (prev : TxData) (indicator maxReward totalReward inputSum : Int)
    (d : List Nat) (N : Nat) (nums : List Int)
    (hd : getBetTypeAny w.scriptPubKey prev.tx.vout = .ok d)
    (hbet : isInputBetAny w.scriptSig input.scriptSig 0 [] = ⟨true, N, nums⟩) :
    ∃ r, txVerifyInputAny w c nSpendHeight input prev indicator maxReward totalReward inputSum
        = some r ∧
      (∀ seg, (segments d)[input.prevout.n]? = some seg →
        c.getReward seg (c.getArgument input.scriptSig) > maxReward ∨
          toInt32 (c.getArgument input.scriptSig / N) > maxReward →
        r.ret = false) ∧
      (r.ret = true → toInt32 (c.getArgument input.scriptSig / N) ≤ maxReward) := by
  have hfalse : ∀ tr sm, ∃ r, some (VerifyResult.mk false tr sm) = some r ∧
      (∀ seg, (segments d)[input.prevout.n]? = some seg →
        c.getReward seg (c.getArgument input.scriptSig) > maxReward ∨
          toInt32 (c.getArgument input.scriptSig / N) > maxReward →
        r.ret = false) ∧
      (r.ret = true → toInt32 (c.getArgument input.scriptSig / N) ≤ maxReward) :=
    fun tr sm => ⟨_, rfl, fun _ _ _ => rfl, fun h => by cases h⟩
  have hrf : txVerifyInputBodyAny w c nSpendHeight input prev indicator maxReward totalReward
      inputSum = .error .returnFalse →
      ∃ r, txVerifyInputAny w c nSpendHeight input prev indicator maxReward totalReward inputSum
        = some r ∧
      (∀ seg, (segments d)[input.prevout.n]? = some seg →
        c.getReward seg (c.getArgument input.scriptSig) > maxReward ∨
          toInt32 (c.getArgument input.scriptSig / N) > maxReward →
        r.ret = false) ∧
      (r.ret = true → toInt32 (c.getArgument input.scriptSig / N) ≤ maxReward) := by
    intro hb
    unfold txVerifyInputAny
    rw [hb]
    exact hfalse _ _
  have hbody := @txVerifyInputBodyAny_of_descriptor w c nSpendHeight input prev indicator
    maxReward totalReward inputSum d hd
  by_cases hv : Int.xor prev.version indicator > c.MAX_STANDARD_VERSION ∨
      Int.xor prev.version indicator < 1
  · rw [if_pos hv] at hbody
    exact hrf hbody
  · rw [if_neg hv] at hbody
    by_cases hh : getMakeTxBlockHash c prev.blockhash (c.getArgument input.scriptSig)
        ≠ array2typeU (copy_nAny w.scriptSig input.scriptSig 1 4)
    · rw [if_pos hh] at hbody
      exact hrf hbody
    · rw [if_neg hh] at hbody
      by_cases hne : d = []
      · rw [if_pos hne] at hbody
        exact hrf hbody
      · rw [if_neg hne] at hbody
        by_cases ha : c.getArgumentFromBetType d (some maxReward) = none
        · rw [if_pos ha] at hbody
          exact hrf hbody
        · rw [if_neg ha] at hbody
          cases hs : skipSegments input.prevout.n d with
          | error e =>
            rw [skipSegments_error hs] at hs
            rw [hs] at hbody
            exact hrf hbody
          | ok rest =>
            rw [hs] at hbody
            simp only [] at hbody
            rcases @txVerifyInputTailAny_cases w c nSpendHeight input prev maxReward totalReward
              inputSum (c.getArgument input.scriptSig) (firstSegment rest) N nums hbet
              with ht | ⟨b, tr, sm, ht, hb⟩
            · rw [ht] at hbody
              exact hrf hbody
            · rw [ht] at hbody
              unfold txVerifyInputAny
              rw [hbody]
              refine ⟨_, rfl, ?_, ?_⟩
              · intro seg hseg hex
                have h3 := skipSegments_ok hs
                rw [hseg] at h3
                cases h3
                cases b with
                | false => rfl
                | true => exact absurd hex (hb.mp rfl)
              · intro hr
                have hr' : b = true := hr
                have := hb.mp hr'
                rw [not_or] at this
                exact not_lt.mp this.2

set_option maxRecDepth 100000 in
/-- Witness of C16: argument 36, one wager, `getReward` returning 36 and `maxReward`
35; the call returns false, also for the descriptor `1+1+1` at `prevout.n = 2` on a prior
transaction with two outputs. -/
theorem txVerifyInput_maxReward_witness :
    (txVerifyInputAny zeroStray (scenario 36 36) 0 ⟨⟨1, 0⟩, oneBetScriptSig⟩ ⟨1, [], oneBetTx⟩
        0 35 0 0 = some ⟨false, 3600, 100⟩ ∧
      txVerifyInputAny zeroStray (scenario 36 36) 0 ⟨⟨3, 2⟩, oneBetScriptSig⟩
        ⟨1, [], threeSegmentTx⟩ 0 35 0 0 = some ⟨false, 0, 0⟩) ∧
    ∃ r, txVerifyInputAny zeroStray (scenario 36 36) 0 ⟨⟨3, 2⟩, oneBetScriptSig⟩
        ⟨1, [], threeSegmentTx⟩ 0 35 0 0 = some r ∧
      (∀ seg, (segments [49, 43, 49, 43, 49])[2]? = some seg →
        (scenario 36 36).getReward seg 36 > 35 ∨ toInt32 (36 / 1) > 35 → r.ret = false) ∧
      (r.ret = true → toInt32 (36 / 1) ≤ 35) :=
  ⟨⟨by decide, by decide⟩,
    txVerifyInput_maxReward zeroStray (scenario 36 36) 0 ⟨⟨3, 2⟩, oneBetScriptSig⟩
      ⟨1, [], threeSegmentTx⟩ 0 35 0 0 [49, 43, 49, 43, 49] 1 [5] rfl (by decide)⟩

/-! ## C17: the block hash bound into the scriptSig -/

/-- C17. For a scriptSig `b0 b1 b2 b3 b4 ...`: the per-input `txVerify` returns true only
if the 32-bit little-endian value of the bytes `b1 b2 b3 b4` equals the value of the
argument operation, set to the script argument, on the integer derived from the recorded
block hash of the prior transaction; if the two values differ it returns false, the
accumulators as they were. -/
theorem txVerifyInput_blockhash (c : Collaborators) (nSpendHeight : Int) (input : CTxIn)
    (prev : TxData) (indicator maxReward totalReward inputSum : Int)
    (b0 b1 b2 b3 b4 : Nat) (rest : List Nat)
    (hs : input.scriptSig = b0 :: b1 :: b2 :: b3 :: b4 :: rest) :
    (∀ tr1 sm1,
      txVerifyInput c nSpendHeight input prev indicator maxReward totalReward inputSum
        = some ⟨true, tr1, sm1⟩ →
      (b1 + 256 * (b2 + 256 * (b3 + 256 * b4))) % 2 ^ 32
        = c.operation (c.getArgument input.scriptSig) (c.blockHashStr2Int prev.blockhash)) ∧
    ((b1 + 256 * (b2 + 256 * (b3 + 256 * b4))) % 2 ^ 32
        ≠ c.operation (c.getArgument input.scriptSig) (c.blockHashStr2Int prev.blockhash) →
      txVerifyInput c nSpendHeight input prev indicator maxReward totalReward inputSum
        = some ⟨false, totalReward, inputSum⟩) := by
  have hbh : copy_n input.scriptSig 1 4 = .ok [b1, b2, b3, b4] := by
    rw [hs]
    exact copy_n_bytes14 b0 b1 b2 b3 b4 rest
  have hval : array2typeU [b1, b2, b3, b4]
      = (b1 + 256 * (b2 + 256 * (b3 + 256 * b4))) % 2 ^ 32 := by
    simp only [array2typeU, leValue, Nat.mul_zero, Nat.add_zero]
  constructor
  · intro tr1 sm1 h
    obtain ⟨bh, -, -, -, -, -, -, hbh', hh, -⟩ := txVerifyInput_true_facts h
    rw [hbh] at hbh'
    cases hbh'
    rw [← hval, ← hh]
    rfl
  · intro hne
    apply txVerifyInput_of_returnFalse
    rw [txVerifyInputBody_eq]
    simp only [guard_eq]
    by_cases hv : Int.xor prev.version indicator > c.MAX_STANDARD_VERSION ∨
        Int.xor prev.version indicator < 1
    · rw [if_pos hv]
    · rw [if_neg hv, hbh]
      simp only [bind, Except.bind]
      rw [if_pos]
      rw [hval]
      exact fun h => hne h.symm

set_option maxRecDepth 100000 in
/-- Witness of C17: the scriptSig of the scenario holds `07 00 00 00` in bytes 1..4;
with the block-hash integer 7 the input passes, with 8 it fails. -/
theorem txVerifyInput_blockhash_witness :
    txVerifyInput (scenario 36 36) 0 ⟨⟨1, 0⟩, oneBetScriptSig⟩ ⟨1, [], oneBetTx⟩ 0 100 0 0
      = some ⟨true, 3600, 100⟩ ∧
    (7 + 256 * (0 + 256 * (0 + 256 * 0))) % 2 ^ 32 = 7 ∧
    txVerifyInput { scenario 36 36 with blockHashStr2Int := fun _ => 8 } 0
        ⟨⟨1, 0⟩, oneBetScriptSig⟩ ⟨1, [], oneBetTx⟩ 0 100 0 0 = some ⟨false, 0, 0⟩ :=
  ⟨by decide,
    (txVerifyInput_blockhash (scenario 36 36) 0 ⟨⟨1, 0⟩, oneBetScriptSig⟩ ⟨1, [], oneBetTx⟩
      0 100 0 0 4 7 0 0 0 (List.drop 5 oneBetScriptSig) (by decide)).1 3600 100 (by decide),
    (txVerifyInput_blockhash { scenario 36 36 with blockHashStr2Int := fun _ => 8 } 0
      ⟨⟨1, 0⟩, oneBetScriptSig⟩ ⟨1, [], oneBetTx⟩
      0 100 0 0 4 7 0 0 0 (List.drop 5 oneBetScriptSig) (by decide)).2 (by decide)⟩

/-! ## C18: the accumulators after a failed input -/

set_option maxRecDepth 100000 in
/-- C18 fails: with argument 36, one wager, `getReward` returning 36, amount 100 and
`maxReward = 35` the per-input `txVerify` returns false at line 268 after lines 262-263
have added 3600 to `totalReward` and 100 to `inputSum`. -/
theorem txVerifyInput_false_changes_accumulators :
    txVerifyInput (scenario 36 36) 0 ⟨⟨1, 0⟩, oneBetScriptSig⟩ ⟨1, [], oneBetTx⟩ 0 35 0 0
      = some ⟨false, 3600, 100⟩ := by
  decide

/-! ## C19: the out-parameters of `isInputBet` -/

/-- C19. Whenever `isInputBet` returns false, the out-parameters hold what they held
before the call; when it returns true, the count has been written (between 1 and 19) and
that many numbers have been appended to `betNumbers`. -/
theorem isInputBet_false_frame (scriptSig : List Nat) (num0 : Nat) (bets0 : List Int)
    (r : BetResult) (h : isInputBet scriptSig num0 bets0 = some r) :
    (r.ret = false → r.numOfBetsNumbers = num0 ∧ r.betNumbers = bets0) ∧
    (r.ret = true → 1 ≤ r.numOfBetsNumbers ∧ r.numOfBetsNumbers ≤ 19 ∧
      ∃ nums, nums.length = r.numOfBetsNumbers ∧ r.betNumbers = bets0 ++ nums) := by
  obtain ⟨b, N, nums⟩ := r
  cases b with
  | true =>
    obtain ⟨h1, h2, nums', h3, h4, -⟩ := isInputBet_accept_facts h
    exact ⟨fun hf => Bool.noConfusion hf, fun _ => ⟨h1, h2, nums', h4, h3⟩⟩
  | false =>
    refine ⟨fun _ => ?_, fun hf => Bool.noConfusion hf⟩
    unfold isInputBet at h
    split at h
    · cases h
    · cases h
    · simp only [Option.some.injEq, BetResult.mk.injEq, true_and] at h
      exact ⟨h.1.symm, h.2.symm⟩
    · simp at h

/-- Witness of C19: a script of ten zero bytes is rejected, and the out-parameters keep
the count 3 and the number 8 they held. -/
theorem isInputBet_false_frame_witness :
    isInputBet (List.replicate 10 0) 3 [8] = some ⟨false, 3, [8]⟩ ∧
    ((3 : Nat) = 3 ∧ ([8] : List Int) = [8]) :=
  ⟨by decide,
    (isInputBet_false_frame (List.replicate 10 0) 3 [8] ⟨false, 3, [8]⟩ (by decide)).1 rfl⟩

/-! ## Lemmas on the whole-transaction `txVerify` -/

theorem txVerifyLoop_ok_iff (c : Collaborators) (nSpendHeight indicator maxReward : Int)
    (ins : List CTxIn) (tr sm tr2 sm2 : Int) :
    txVerifyLoop c nSpendHeight indicator maxReward ins tr sm = .ok (tr2, sm2) ↔
      InputsPass c nSpendHeight indicator maxReward ins tr sm tr2 sm2 := by
  induction ins generalizing tr sm with
  | nil =>
    constructor
    · intro h
      cases h
      exact InputsPass.nil _ _
    · intro h
      cases h
      rfl
  | cons input rest ih =>
    constructor
    · intro h
      unfold txVerifyLoop at h
      cases hf : c.findTxData input.prevout.hash with
      | none => rw [hf] at h; cases h
      | some prev =>
        rw [hf] at h
        simp only [] at h
        cases hv : txVerifyInput c nSpendHeight input prev indicator maxReward tr sm with
        | none => rw [hv] at h; cases h
        | some r =>
          rw [hv] at h
          simp only [] at h
          obtain ⟨b, tr1, sm1⟩ := r
          cases b with
          | false => simp at h
          | true =>
            simp only [Bool.true_eq_false, if_false] at h
            exact InputsPass.cons input rest prev tr sm tr1 sm1 tr2 sm2 hf hv ((ih _ _).mp h)
    · intro h
      cases h with
      | cons _ _ prev _ _ tr1 sm1 _ _ hf hv hrest =>
        unfold txVerifyLoop
        rw [hf]
        simp only []
        rw [hv]
        simp only [Bool.true_eq_false, if_false]
        exact (ih _ _).mpr hrest

theorem txVerifyLoop_cons_pass {c : Collaborators} {nSpendHeight indicator maxReward : Int}
    {input : CTxIn} {prev : TxData} {tr sm tr1 sm1 : Int}
    (hf : c.findTxData input.prevout.hash = some prev)
    (hv : txVerifyInput c nSpendHeight input prev indicator maxReward tr sm
      = some ⟨true, tr1, sm1⟩) (rest : List CTxIn) :
    txVerifyLoop c nSpendHeight indicator maxReward (input :: rest) tr sm
      = txVerifyLoop c nSpendHeight indicator maxReward rest tr1 sm1 := by
  rw [txVerifyLoop, hf]
  simp only []
  rw [hv]
  simp only [Bool.true_eq_false, if_false]

theorem txVerifyLoop_append {c : Collaborators} {nSpendHeight indicator maxReward : Int}
    {pre : List CTxIn} {tr sm tr1 sm1 : Int}
    (h : InputsPass c nSpendHeight indicator maxReward pre tr sm tr1 sm1) (rest : List CTxIn) :
    txVerifyLoop c nSpendHeight indicator maxReward (pre ++ rest) tr sm
      = txVerifyLoop c nSpendHeight indicator maxReward rest tr1 sm1 := by
  induction h with
  | nil tr sm => rfl
  | cons input rest' prev tr sm tr1 sm1 tr2 sm2 hf hv _ ih =>
    rw [List.cons_append, txVerifyLoop_cons_pass hf hv]
    exact ih

theorem txVerifyLoop_fail {c : Collaborators} {nSpendHeight indicator maxReward : Int}
    {x : CTxIn} {tr sm : Int}
    (h : c.findTxData x.prevout.hash = none ∨
      ∃ prev tr1 sm1, c.findTxData x.prevout.hash = some prev ∧
        txVerifyInput c nSpendHeight x prev indicator maxReward tr sm = some ⟨false, tr1, sm1⟩)
    (post : List CTxIn) :
    txVerifyLoop c nSpendHeight indicator maxReward (x :: post) tr sm = .error .returnFalse := by
  unfold txVerifyLoop
  rcases h with hf | ⟨prev, tr1, sm1, hf, hv⟩
  · rw [hf]
  · rw [hf]
    simp only []
    rw [hv]
    simp only [if_true]

theorem txVerify_true_of_loop {c : Collaborators} {nSpendHeight : Int} {tx : CTransaction}
    {inValue outValue indicator maxPayoff maxReward fee : Int} :
    txVerify c nSpendHeight tx inValue outValue indicator maxPayoff maxReward = some ⟨true, fee⟩ ↔
      ∃ tr sm, txVerifyLoop c nSpendHeight indicator maxReward tx.vin 0 0 = .ok (tr, sm) ∧
        inValue = sm ∧ outValue ≤ maxPayoff ∧ outValue ≤ tr ∧
        fee = toInt64 (tr - outValue) := by
  unfold txVerify
  cases hl : txVerifyLoop c nSpendHeight indicator maxReward tx.vin 0 0 with
  | error e => cases e <;> simp
  | ok r =>
    obtain ⟨tr, sm⟩ := r
    simp only [Except.ok.injEq, Prod.mk.injEq]
    constructor
    · intro h
      by_cases h1 : inValue ≠ sm
      · rw [if_pos h1] at h; simp at h
      · rw [if_neg h1] at h
        by_cases h2 : outValue > maxPayoff
        · rw [if_pos h2] at h; simp at h
        · rw [if_neg h2] at h
          by_cases h3 : outValue > tr
          · rw [if_pos h3] at h; simp at h
          · rw [if_neg h3] at h
            simp only [Option.some.injEq, FeeResult.mk.injEq, true_and] at h
            exact ⟨tr, sm, ⟨rfl, rfl⟩, not_not.mp h1, not_lt.mp h2, not_lt.mp h3, h.symm⟩
    · rintro ⟨tr', sm', ⟨rfl, rfl⟩, h1, h2, h3, h4⟩
      rw [if_neg (not_not.mpr h1), if_neg (not_lt.mpr h2), if_neg (not_lt.mpr h3), h4]

/-- An accepted input leaves 64-bit values in the accumulators. -/
theorem txVerifyInput_true_range {c : Collaborators} {nSpendHeight : Int} {input : CTxIn}
    {prev : TxData} {indicator maxReward totalReward inputSum tr1 sm1 : Int}
    (h : txVerifyInput c nSpendHeight input prev indicator maxReward totalReward inputSum
        = some ⟨true, tr1, sm1⟩) : InInt64 tr1 ∧ InInt64 sm1 := by
  obtain ⟨bh, d, rest, N, nums, out, -, -, -, -, -, -, -, -, -, -, -, -, -, h1, h2⟩ :=
    txVerifyInput_true_facts h
  rw [h1, h2]
  exact ⟨toInt64_range _, toInt64_range _⟩

theorem InputsPass_range {c : Collaborators} {nSpendHeight indicator maxReward : Int}
    {ins : List CTxIn} {tr sm tr2 sm2 : Int}
    (h : InputsPass c nSpendHeight indicator maxReward ins tr sm tr2 sm2)
    (htr : InInt64 tr) (hsm : InInt64 sm) : InInt64 tr2 ∧ InInt64 sm2 := by
  induction h with
  | nil tr sm => exact ⟨htr, hsm⟩
  | cons input rest prev tr sm tr1 sm1 tr2 sm2 _ hv _ ih =>
    obtain ⟨h1, h2⟩ := txVerifyInput_true_range hv
    exact ih h1 h2

theorem InInt64_zero : InInt64 0 := by
  unfold InInt64
  omega

/-! ## C11: the economic invariant -/

set_option maxRecDepth 100000 in
/-- C11, as stated, fails for a declared `out` so far below zero that `totalReward - out`
is no 64-bit value: the settlement of the bet of 100 with reward 36 accumulates
`totalReward = 3600`; declared with `in = 100` and `out = -2^63` it is accepted, and the
fee written at line 177 is `3600 + 2^63` in 64-bit two's complement, the negative number
`3600 - 2^63`. -/
theorem txVerify_negative_fee :
    txVerifyLoop (scenario 36 36) 0 0 100 [⟨⟨1, 0⟩, oneBetScriptSig⟩] 0 0 = .ok (3600, 100) ∧
    txVerify (scenario 36 36) 0 ⟨2, [⟨⟨1, 0⟩, oneBetScriptSig⟩], []⟩ 100
        (-9223372036854775808) 0 5000 100 = some ⟨true, -9223372036854772208⟩ ∧
    (-9223372036854772208 : Int) ≠ 3600 - (-9223372036854775808) ∧
    ¬ (0 : Int) ≤ -9223372036854772208 := by
  refine ⟨rfl, by decide, by decide, by decide⟩

/-- C11 (amended). Whenever the whole-transaction `txVerify` returns true, with
`totalReward` and `inputSum` the values the loop over the inputs has accumulated from 0:
the declared `out` is at most `totalReward`, the declared `in` equals `inputSum`, and the
fee written is the 64-bit difference of `totalReward` and `out`.  Whenever
`totalReward - out` is below `2^63`, and so for every declared `out` that is not
negative, the fee is exactly `totalReward - out` and is not negative. -/
theorem txVerify_invariant (c : Collaborators) (nSpendHeight : Int) (tx : CTransaction)
    (inValue outValue indicator maxPayoff maxReward fee : Int)
    (h : txVerify c nSpendHeight tx inValue outValue indicator maxPayoff maxReward
      = some ⟨true, fee⟩) :
    ∃ totalReward inputSum,
      txVerifyLoop c nSpendHeight indicator maxReward tx.vin 0 0 = .ok (totalReward, inputSum) ∧
      outValue ≤ totalReward ∧ inValue = inputSum ∧ fee = toInt64 (totalReward - outValue) ∧
      (totalReward - outValue < 2 ^ 63 → fee = totalReward - outValue ∧ 0 ≤ fee) ∧
      (0 ≤ outValue → fee = totalReward - outValue ∧ 0 ≤ fee) := by
  obtain ⟨tr, sm, hl, h1, -, h3, h4⟩ := txVerify_true_of_loop.mp h
  have hr := (InputsPass_range ((txVerifyLoop_ok_iff _ _ _ _ _ _ _ _ _).mp hl)
    InInt64_zero InInt64_zero).1
  have hexact : tr - outValue < 2 ^ 63 → fee = tr - outValue ∧ 0 ≤ fee := by
    intro hlt
    have : toInt64 (tr - outValue) = tr - outValue :=
      toInt64_of_range ⟨by omega, hlt⟩
    rw [h4, this]
    exact ⟨rfl, by omega⟩
  refine ⟨tr, sm, hl, h3, h1, h4, hexact, fun h0 => hexact ?_⟩
  unfold InInt64 at hr
  omega

set_option maxRecDepth 100000 in
/-- Witness of C11: a settlement of the bet of 100 with reward 36, declaring `in = 100`
and `out = 3000`; it is accepted with the fee 600. -/
theorem txVerify_invariant_witness :
    txVerify (scenario 36 36) 0 ⟨2, [⟨⟨1, 0⟩, oneBetScriptSig⟩], []⟩ 100 3000 0 5000 100
      = some ⟨true, 600⟩ ∧
    ∃ totalReward inputSum,
      txVerifyLoop (scenario 36 36) 0 0 100 [⟨⟨1, 0⟩, oneBetScriptSig⟩] 0 0
        = .ok (totalReward, inputSum) ∧
      (3000 : Int) ≤ totalReward ∧ (100 : Int) = inputSum ∧
      (600 : Int) = toInt64 (totalReward - 3000) ∧
      (totalReward - 3000 < 2 ^ 63 → (600 : Int) = totalReward - 3000 ∧ (0 : Int) ≤ 600) ∧
      ((0 : Int) ≤ 3000 → (600 : Int) = totalReward - 3000 ∧ (0 : Int) ≤ 600) :=
  ⟨by decide,
    txVerify_invariant (scenario 36 36) 0 ⟨2, [⟨⟨1, 0⟩, oneBetScriptSig⟩], []⟩
      100 3000 0 5000 100 600 (by decide)⟩

/-! ## C12: when the whole transaction passes -/

/-- C12. The whole-transaction `txVerify` returns true, writing `fee`, if and only if
every input in order finds its prior transaction and passes the per-input `txVerify`,
the accumulators carried from 0 to `totalReward` and `inputSum`, and then
`in = inputSum`, `out ≤ maxPayoff` and `out ≤ totalReward`, the fee being the 64-bit
difference of `totalReward` and `out`; and when the inputs before some input pass and
that input's lookup fails or its per-input `txVerify` returns false, the result is false
with `fee = 0`. -/
theorem txVerify_true_iff (c : Collaborators) (nSpendHeight : Int) (tx : CTransaction)
    (inValue outValue indicator maxPayoff maxReward : Int) :
    (∀ fee, txVerify c nSpendHeight tx inValue outValue indicator maxPayoff maxReward
        = some ⟨true, fee⟩ ↔
      ∃ totalReward inputSum,
        InputsPass c nSpendHeight indicator maxReward tx.vin 0 0 totalReward inputSum ∧
        inValue = inputSum ∧ outValue ≤ maxPayoff ∧ outValue ≤ totalReward ∧
        fee = toInt64 (totalReward - outValue)) ∧
    (∀ pre x post tr sm, tx.vin = pre ++ x :: post →
      InputsPass c nSpendHeight indicator maxReward pre 0 0 tr sm →
      (c.findTxData x.prevout.hash = none ∨
        ∃ prev tr1 sm1, c.findTxData x.prevout.hash = some prev ∧
          txVerifyInput c nSpendHeight x prev indicator maxReward tr sm
            = some ⟨false, tr1, sm1⟩) →
      txVerify c nSpendHeight tx inValue outValue indicator maxPayoff maxReward
        = some ⟨false, 0⟩) := by
  constructor
  · intro fee
    rw [txVerify_true_of_loop]
    simp only [txVerifyLoop_ok_iff]
  · intro pre x post tr sm hvin hpre hx
    unfold txVerify
    rw [hvin, txVerifyLoop_append hpre, txVerifyLoop_fail hx]

set_option maxRecDepth 100000 in
/-- Witness of C12: the settlement of the scenario passes with fee 600, so its input
passes; with a second input whose prior transaction is unknown it fails. -/
theorem txVerify_true_iff_witness :
    (∃ totalReward inputSum,
      InputsPass (scenario 36 36) 0 0 100 [⟨⟨1, 0⟩, oneBetScriptSig⟩] 0 0 totalReward inputSum ∧
      (100 : Int) = inputSum ∧ (3000 : Int) ≤ 5000 ∧ (3000 : Int) ≤ totalReward ∧
      (600 : Int) = toInt64 (totalReward - 3000)) ∧
    txVerify (scenario 36 36) 0
        ⟨2, [⟨⟨1, 0⟩, oneBetScriptSig⟩, ⟨⟨9, 0⟩, oneBetScriptSig⟩], []⟩ 100 3000 0 5000 100
      = some ⟨false, 0⟩ :=
  ⟨((txVerify_true_iff (scenario 36 36) 0 ⟨2, [⟨⟨1, 0⟩, oneBetScriptSig⟩], []⟩
      100 3000 0 5000 100).1 600).mp (by decide),
    (txVerify_true_iff (scenario 36 36) 0
      ⟨2, [⟨⟨1, 0⟩, oneBetScriptSig⟩, ⟨⟨9, 0⟩, oneBetScriptSig⟩], []⟩
      100 3000 0 5000 100).2 [⟨⟨1, 0⟩, oneBetScriptSig⟩] ⟨⟨9, 0⟩, oneBetScriptSig⟩ [] 3600 100
      rfl
      (InputsPass.cons _ _ ⟨1, [], oneBetTx⟩ 0 0 3600 100 3600 100 rfl (by decide)
        (InputsPass.nil 3600 100))
      (Or.inl rfl)⟩

/-! ## Lemmas on `isBetPayoffExceeded` -/

theorem firstSegment_of_none {s : List Nat} (h : findPlus s = none) : firstSegment s = s := by
  simp only [firstSegment, h]

theorem firstSegment_of_some {s : List Nat} {pos : Nat} (h : findPlus s = some pos) :
    firstSegment s = s.take pos := by
  simp only [firstSegment, h]

theorem toInt64_add_add (a b c : Int) :
    toInt64 (toInt64 (a + b) + c) = toInt64 (a + (b + c)) := by
  unfold toInt64
  omega

theorem toInt64_add_toInt64_add (a b c : Int) :
    toInt64 (toInt64 (a + toInt64 b) + c) = toInt64 (a + (b + c)) := by
  unfold toInt64
  omega

theorem toInt64_add_mid (a b c : Int) :
    toInt64 (a + (toInt64 b + c)) = toInt64 (a + (b + c)) := by
  unfold toInt64
  omega

/-- The loop of lines 374-391 adds up the pairs of segments and outputs, in 64 bits. -/
theorem payoffLoop_spec (c : Collaborators) (argument argumentResult : Nat)
    (vout : List CTxOut) (fuel : Nat) :
    ∀ (i : Nat) (d : List Nat) (inAcc payoffAcc : Int), d.length < fuel →
      i + (segments d).length ≤ vout.length → toInt64 payoffAcc = payoffAcc →
      payoffLoop c argument argumentResult vout fuel i d inAcc payoffAcc
        = .ok (toInt64 (inAcc + (((segments d).zip (vout.drop i)).map fun p => p.2.nValue).sum),
            toInt64 (payoffAcc + (((segments d).zip (vout.drop i)).map fun p =>
              if c.isWinning p.1 argument argumentResult then
                p.2.nValue * c.getReward p.1 argument
              else 0).sum)) := by
  induction fuel with
  | zero => intro i d _ _ h; omega
  | succ fuel ih =>
    intro i d inAcc payoffAcc hfuel hlen hpay
    have hne := segments_ne_nil d
    have hpos : 0 < (segments d).length := List.length_pos.mpr hne
    have hi : i < vout.length := by omega
    have hdrop : vout.drop i = vout[i] :: vout.drop (i + 1) := List.drop_eq_getElem_cons hi
    cases hp : findPlus d with
    | none =>
      rw [payoffLoop, hp, List.getElem?_eq_getElem hi]
      simp only [firstSegment_of_none hp, segments_of_findPlus_none hp, hdrop,
        List.zip_cons_cons, List.zip_nil_left, List.map_cons, List.map_nil, List.sum_cons,
        List.sum_nil, add_zero]
      by_cases hw : c.isWinning d argument argumentResult = true
      · simp only [hw, if_true, toInt64_add_right]
      · simp only [hw, if_false, add_zero, Bool.false_eq_true, hpay]
    | some pos =>
      have hlt := findPlus_lt hp
      have hseg := segments_of_findPlus_some hp
      rw [hseg, List.length_cons] at hlen
      rw [payoffLoop, hp, List.getElem?_eq_getElem hi]
      simp only []
      by_cases hw : c.isWinning (d.take pos) argument argumentResult = true
      · simp only [firstSegment_of_some hp, hw, if_true]
        rw [ih (i + 1) (d.drop (pos + 1)) _ _ (by rw [List.length_drop]; omega) (by omega)
          (toInt64_idem _)]
        simp only [hseg, hdrop, List.zip_cons_cons, List.map_cons, List.sum_cons, hw, if_true,
          toInt64_add_add, toInt64_add_toInt64_add, toInt64_add_mid]
      · simp only [firstSegment_of_some hp, hw, if_false, Bool.false_eq_true]
        rw [ih (i + 1) (d.drop (pos + 1)) _ _ (by rw [List.length_drop]; omega) (by omega)
          hpay]
        simp only [hseg, hdrop, List.zip_cons_cons, List.map_cons, List.sum_cons, hw, if_false,
          Bool.false_eq_true, toInt64_add_add, zero_add]

/-- One transaction of the block adds its wagered values and its payoff, in 64 bits.  The
exception of `getBetType` is caught: the transaction adds nothing. -/
theorem payoffTx_spec (c : Collaborators) (v : VerifyBlockReward) (tx : CTransaction)
    (inAcc payoffAcc : Int) (hin : toInt64 inAcc = inAcc) (hpay : toInt64 payoffAcc = payoffAcc)
    (h : isMakeBetTx c tx.nVersion v.makeBetIndicator = true →
      getBetType tx.vout = .error .lengthError ∨
      ∃ d, getBetType tx.vout = .ok d ∧
        ∀ a, d ≠ [] → c.getArgumentFromBetType d none = some a →
          (segments d).length ≤ tx.vout.length) :
    payoffTx c v tx inAcc payoffAcc
      = .ok (toInt64 (inAcc + wagered c v tx), toInt64 (payoffAcc + payoff c v tx)) := by
  unfold payoffTx wagered payoff countedBet
  by_cases ht : isMakeBetTx c tx.nVersion v.makeBetIndicator = true
  · rcases h ht with hd | ⟨d, hd, hsegs⟩
    · simp only [ht, if_true, hd, add_zero, hin, hpay]
      rfl
    · simp only [ht, if_true, hd]
      by_cases hne : d = []
      · simp only [hne, if_true, add_zero, hin, hpay]
        rfl
      · simp only [hne, if_false]
        cases ha : c.getArgumentFromBetType d none with
        | none =>
          simp only [Option.map_none', add_zero, hin, hpay]
          rfl
        | some a =>
          simp only [Option.map_some']
          rw [payoffLoop_spec c a _ tx.vout _ 0 d inAcc payoffAcc (Nat.lt_succ_self _)
            (by have := hsegs a hne ha; omega) hpay]
          simp only [List.drop_zero, betPairs]
  · simp only [ht, if_false, add_zero, Bool.false_eq_true, hin, hpay]
    rfl

theorem payoffBlock_spec (c : Collaborators) (v : VerifyBlockReward) (txs : List CTransaction) :
    ∀ (inAcc payoffAcc : Int), toInt64 inAcc = inAcc → toInt64 payoffAcc = payoffAcc →
      (∀ tx ∈ txs, isMakeBetTx c tx.nVersion v.makeBetIndicator = true →
        getBetType tx.vout = .error .lengthError ∨
        ∃ d, getBetType tx.vout = .ok d ∧
          ∀ a, d ≠ [] → c.getArgumentFromBetType d none = some a →
            (segments d).length ≤ tx.vout.length) →
      payoffBlock c v txs inAcc payoffAcc
        = .ok (toInt64 (inAcc + (txs.map (wagered c v)).sum),
            toInt64 (payoffAcc + (txs.map (payoff c v)).sum)) := by
  induction txs with
  | nil =>
    intro inAcc payoffAcc hin hpay _
    simp only [payoffBlock, List.map_nil, List.sum_nil, add_zero, hin, hpay]
  | cons tx rest ih =>
    intro inAcc payoffAcc hin hpay h
    rw [payoffBlock, payoffTx_spec c v tx inAcc payoffAcc hin hpay
      (h tx (List.mem_cons_self _ _))]
    simp only [bind, Except.bind]
    rw [ih _ _ (toInt64_idem _) (toInt64_idem _) (fun t ht => h t (List.mem_cons_of_mem _ ht))]
    simp only [List.map_cons, List.sum_cons, toInt64_add_add]

/-! ## C20: when the payoff of a block is exceeded -/

/-- C20, as stated, fails in two ways.  A bet-tagged transaction with a non-empty
descriptor on which `getArgumentFromBetType` throws is skipped (the `catch` of line 394):
with 950 wagered on the descriptor `2` of a game that is not known and 100 on a winning
segment of reward 21, the sums of the claim are `1050 ≥ 900` and `2100 > 2050`, but the
code counts 100 only and returns false.  And the sums are 64-bit: with `2^62` wagered on
a winning segment of reward 3 the payoff `3 * 2^62` exceeds `2^62 + 1000`, but the
product of line 380 is `-2^62` in 64 bits and the code returns false. -/
theorem isBetPayoffExceeded_skipped_or_wrapped :
    isMakeBetTx (unknownGameScenario 21) unknownGameTx.nVersion 0 = true ∧
    getBetType unknownGameTx.vout = .ok [50] ∧
    (betPairs [50] unknownGameTx.vout).map (fun p => p.2.nValue) = [950] ∧
    (∀ a r, (unknownGameScenario 21).isWinning [50] a r = false) ∧
    isMakeBetTx (unknownGameScenario 21) oneBetTx.nVersion 0 = true ∧
    getBetType oneBetTx.vout = .ok [49] ∧
    (betPairs [49] oneBetTx.vout).map (fun p => p.2.nValue) = [100] ∧
    (unknownGameScenario 21).isWinning [49] 36 7 = true ∧
    (unknownGameScenario 21).getReward [49] 36 = 21 ∧
    ((950 + 100 : Int) ≥ Int.tdiv (9 * 1000) 10 ∧ (100 * 21 : Int) > 950 + 100 + 1000) ∧
    isBetPayoffExceeded (unknownGameScenario 21) 177750 ⟨[unknownGameTx, oneBetTx], 7, 0, 1000⟩
      = .ok false ∧
    specInAcc (scenario 36 3) ⟨[hugeBetTx], 7, 0, 1000⟩ = 4611686018427387904 ∧
    specPayoffAcc (scenario 36 3) ⟨[hugeBetTx], 7, 0, 1000⟩ = 3 * 4611686018427387904 ∧
    ((4611686018427387904 : Int) ≥ Int.tdiv (9 * 1000) 10 ∧
      (3 * 4611686018427387904 : Int) > 4611686018427387904 + 1000) ∧
    isBetPayoffExceeded (scenario 36 3) 177750 ⟨[hugeBetTx], 7, 0, 1000⟩ = .ok false := by
  refine ⟨by decide, rfl, by decide, fun _ _ => rfl, by decide, rfl, by decide, by decide,
    rfl, by decide, rfl, by decide, by decide, by decide, rfl⟩

/-- C20 (amended). At or after the gating height, if on every bet-tagged transaction of
the block `getBetType` returns a descriptor or throws (it does not read outside a script)
and, when the descriptor is not empty and `getArgumentFromBetType` gives an argument for
it, the transaction has at least as many outputs as the descriptor has segments, then
`isBetPayoffExceeded` returns, and returns true if and only if
`inAcc ≥ (9 * subsidy) / 10` (truncating division) and `payoffAcc > inAcc + subsidy`,
with `inAcc`, `payoffAcc` and `inAcc + subsidy` taken in 64-bit two's complement; when
these three are 64-bit values as exact sums, the condition is the one of exact
arithmetic.  The sums run over the bet-tagged transactions with a non-empty descriptor
for which `getArgumentFromBetType` gives an argument (`countedBet`), and over the
segments `i` of each, paired with output `i`. -/
theorem isBetPayoffExceeded_iff (c : Collaborators) (height : Int) (v : VerifyBlockReward)
    (hh : MAKEBET_FORMAT_VERIFY ≤ height)
    (hv : ∀ tx ∈ v.vtx, isMakeBetTx c tx.nVersion v.makeBetIndicator = true →
      getBetType tx.vout = .error .lengthError ∨
      ∃ d, getBetType tx.vout = .ok d ∧
        ∀ a, d ≠ [] → c.getArgumentFromBetType d none = some a →
          (segments d).length ≤ tx.vout.length) :
    ∃ b, isBetPayoffExceeded c height v = .ok b ∧
      (b = true ↔ toInt64 (specInAcc c v) ≥ Int.tdiv (9 * v.blockSubsidy) 10 ∧
        toInt64 (specPayoffAcc c v) > toInt64 (specInAcc c v + v.blockSubsidy)) ∧
      (InInt64 (specInAcc c v) → InInt64 (specPayoffAcc c v) →
        InInt64 (specInAcc c v + v.blockSubsidy) →
        (b = true ↔ specInAcc c v ≥ Int.tdiv (9 * v.blockSubsidy) 10 ∧
          specPayoffAcc c v > specInAcc c v + v.blockSubsidy)) := by
  have key : ∃ b, isBetPayoffExceeded c height v = .ok b ∧
      (b = true ↔ toInt64 (specInAcc c v) ≥ Int.tdiv (9 * v.blockSubsidy) 10 ∧
        toInt64 (specPayoffAcc c v) > toInt64 (specInAcc c v + v.blockSubsidy)) := by
    unfold isBetPayoffExceeded
    rw [if_neg (not_lt.mpr hh), payoffBlock_spec c v v.vtx 0 0 toInt64_zero toInt64_zero hv]
    simp only [bind, Except.bind, zero_add, toInt64_add_left]
    change ∃ b, (if toInt64 (specInAcc c v) ≥ Int.tdiv (9 * v.blockSubsidy) 10 then
        if toInt64 (specPayoffAcc c v) > toInt64 (specInAcc c v + v.blockSubsidy) then
          pure true else pure false
      else pure false) = Except.ok b ∧ _
    by_cases h1 : toInt64 (specInAcc c v) ≥ Int.tdiv (9 * v.blockSubsidy) 10
    · rw [if_pos h1]
      by_cases h2 : toInt64 (specPayoffAcc c v) > toInt64 (specInAcc c v + v.blockSubsidy)
      · rw [if_pos h2]
        exact ⟨true, rfl, fun _ => ⟨h1, h2⟩, fun _ => rfl⟩
      · rw [if_neg h2]
        exact ⟨false, rfl, fun h => Bool.noConfusion h, fun h => absurd h.2 h2⟩
    · rw [if_neg h1]
      exact ⟨false, rfl, fun h => Bool.noConfusion h, fun h => absurd h.1 h1⟩
  obtain ⟨b, hb, hiff⟩ := key
  refine ⟨b, hb, hiff, ?_⟩
  intro r1 r2 r3
  rw [hiff, toInt64_of_range r1, toInt64_of_range r2, toInt64_of_range r3]

/-- Witness of C20, the scenario of the claim: subsidy 1000, a bet transaction with 700
on the winning segment `1` at reward 3 and 250 on the losing segment `2`; the wagered
input is 950, the payoff 2100, and the result is true.  The block holds a second
bet-tagged transaction, on which `getBetType` throws: it is skipped. -/
theorem isBetPayoffExceeded_iff_witness :
    getBetType truncatedCarrierTx.vout = .error .lengthError ∧
    specInAcc (scenario 36 3) ⟨[truncatedCarrierTx, twoBetTx], 7, 0, 1000⟩ = 950 ∧
    specPayoffAcc (scenario 36 3) ⟨[truncatedCarrierTx, twoBetTx], 7, 0, 1000⟩ = 2100 ∧
    isBetPayoffExceeded (scenario 36 3) 177750 ⟨[truncatedCarrierTx, twoBetTx], 7, 0, 1000⟩
      = .ok true ∧
    ∃ b, isBetPayoffExceeded (scenario 36 3) 177750
        ⟨[truncatedCarrierTx, twoBetTx], 7, 0, 1000⟩ = .ok b ∧
      (b = true ↔
        toInt64 (specInAcc (scenario 36 3) ⟨[truncatedCarrierTx, twoBetTx], 7, 0, 1000⟩)
          ≥ Int.tdiv (9 * 1000) 10 ∧
        toInt64 (specPayoffAcc (scenario 36 3) ⟨[truncatedCarrierTx, twoBetTx], 7, 0, 1000⟩)
          > toInt64 (specInAcc (scenario 36 3) ⟨[truncatedCarrierTx, twoBetTx], 7, 0, 1000⟩
              + 1000)) ∧
      (InInt64 (specInAcc (scenario 36 3) ⟨[truncatedCarrierTx, twoBetTx], 7, 0, 1000⟩) →
        InInt64 (specPayoffAcc (scenario 36 3) ⟨[truncatedCarrierTx, twoBetTx], 7, 0, 1000⟩) →
        InInt64 (specInAcc (scenario 36 3) ⟨[truncatedCarrierTx, twoBetTx], 7, 0, 1000⟩
          + 1000) →
        (b = true ↔
          specInAcc (scenario 36 3) ⟨[truncatedCarrierTx, twoBetTx], 7, 0, 1000⟩
            ≥ Int.tdiv (9 * 1000) 10 ∧
          specPayoffAcc (scenario 36 3) ⟨[truncatedCarrierTx, twoBetTx], 7, 0, 1000⟩
            > specInAcc (scenario 36 3) ⟨[truncatedCarrierTx, twoBetTx], 7, 0, 1000⟩
              + 1000)) :=
  ⟨rfl, by decide, by decide, rfl,
    isBetPayoffExceeded_iff (scenario 36 3) 177750 ⟨[truncatedCarrierTx, twoBetTx], 7, 0, 1000⟩
      (by decide)
      (fun tx htx _ => by
        simp only [List.mem_cons, List.mem_singleton, List.not_mem_nil, or_false] at htx
        rcases htx with rfl | rfl
        · exact Or.inl rfl
        · exact Or.inr ⟨[49, 43, 50], rfl, fun _ _ _ => by decide⟩)⟩

/-! ## C21 and C22: the threshold and the gate of `isBetPayoffExceeded` -/

theorem isBetPayoffExceeded_true_facts {c : Collaborators} {height : Int}
    {v : VerifyBlockReward} (h : isBetPayoffExceeded c height v = .ok true) :
    MAKEBET_FORMAT_VERIFY ≤ height ∧ ∃ inAcc payoffAcc,
      payoffBlock c v v.vtx 0 0 = .ok (inAcc, payoffAcc) ∧
      inAcc ≥ Int.tdiv (9 * v.blockSubsidy) 10 ∧
      payoffAcc > toInt64 (inAcc + v.blockSubsidy) := by
  unfold isBetPayoffExceeded at h
  by_cases hh : height < MAKEBET_FORMAT_VERIFY
  · rw [if_pos hh] at h
    cases h
  · rw [if_neg hh] at h
    refine ⟨not_lt.mp hh, ?_⟩
    cases hb : payoffBlock c v v.vtx 0 0 with
    | error e => rw [hb] at h; cases h
    | ok r =>
      obtain ⟨inAcc, payoffAcc⟩ := r
      rw [hb] at h
      simp only [bind, Except.bind] at h
      by_cases h1 : inAcc ≥ Int.tdiv (9 * v.blockSubsidy) 10
      · rw [if_pos h1] at h
        by_cases h2 : payoffAcc > toInt64 (inAcc + v.blockSubsidy)
        · exact ⟨inAcc, payoffAcc, rfl, h1, h2⟩
        · rw [if_neg h2] at h
          cases h
      · rw [if_neg h1] at h
        cases h

/-- C21, as stated, fails for a subsidy that is not a multiple of 10: with the subsidy
112 the threshold of line 401 is `(9 * 112) / 10 = 100`; a block that wagers 100 on a
winning segment of reward 3 has `payoffAcc = 300 > 212`, so the result is true, while
`10 * 100 < 9 * 112`. -/
theorem isBetPayoffExceeded_truncated_threshold :
    payoffBlock (scenario 36 3) ⟨[oneBetTx], 7, 0, 112⟩ [oneBetTx] 0 0 = .ok (100, 300) ∧
    isBetPayoffExceeded (scenario 36 3) 177750 ⟨[oneBetTx], 7, 0, 112⟩ = .ok true ∧
    ¬ ((10 : Int) * 100 ≥ 9 * 112) := by
  refine ⟨rfl, rfl, by decide⟩

/-- C21 (amended). Whenever `isBetPayoffExceeded` returns true, the wagered input
`inAcc` that the loop has accumulated is at least `(9 * subsidy) / 10` with the division
truncated, hence `10 * inAcc ≥ 9 * subsidy - 9`; it is at least 90% of the subsidy in
exact arithmetic, `10 * inAcc ≥ 9 * subsidy`, when the subsidy is a multiple of 10. -/
theorem isBetPayoffExceeded_input_share (c : Collaborators) (height : Int)
    (v : VerifyBlockReward) (h : isBetPayoffExceeded c height v = .ok true) :
    ∃ inAcc payoffAcc, payoffBlock c v v.vtx 0 0 = .ok (inAcc, payoffAcc) ∧
      inAcc ≥ Int.tdiv (9 * v.blockSubsidy) 10 ∧
      10 * inAcc ≥ 9 * v.blockSubsidy - 9 ∧
      (10 ∣ v.blockSubsidy → 10 * inAcc ≥ 9 * v.blockSubsidy) := by
  obtain ⟨-, inAcc, payoffAcc, hb, h1, -⟩ := isBetPayoffExceeded_true_facts h
  have h2 := Int.tmod_add_tdiv (9 * v.blockSubsidy) 10
  have h3 := Int.tmod_lt_of_pos (9 * v.blockSubsidy) (by norm_num : (0 : Int) < 10)
  refine ⟨inAcc, payoffAcc, hb, h1, by omega, ?_⟩
  intro hdvd
  have h4 : (9 * v.blockSubsidy).tmod 10 = 0 :=
    Int.tmod_eq_zero_of_dvd (Dvd.dvd.mul_left hdvd 9)
  omega

/-- Witness of C21: subsidy 1000, wagered input 950 and payoff 2100. -/
theorem isBetPayoffExceeded_input_share_witness :
    ∃ inAcc payoffAcc,
      payoffBlock (scenario 36 3) ⟨[twoBetTx], 7, 0, 1000⟩ [twoBetTx] 0 0
        = .ok (inAcc, payoffAcc) ∧
      inAcc ≥ Int.tdiv (9 * 1000) 10 ∧ 10 * inAcc ≥ 9 * 1000 - 9 ∧
      ((10 : Int) ∣ 1000 → 10 * inAcc ≥ 9 * 1000) :=
  isBetPayoffExceeded_input_share (scenario 36 3) 177750 ⟨[twoBetTx], 7, 0, 1000⟩ rfl

/-- C22. At every chain height below `MAKEBET_FORMAT_VERIFY = 177750`,
`isBetPayoffExceeded` returns false, whatever the block and the subsidy. -/
theorem isBetPayoffExceeded_below_gate (c : Collaborators) (height : Int)
    (v : VerifyBlockReward) (h : height < 177750) :
    isBetPayoffExceeded c height v = .ok false := by
  unfold isBetPayoffExceeded
  rw [if_pos (by unfold MAKEBET_FORMAT_VERIFY; exact h)]
  rfl

/-- Witness of C22: the block that exceeds the payoff at height 177750 passes at height
177749. -/
theorem isBetPayoffExceeded_below_gate_witness :
    isBetPayoffExceeded (scenario 36 3) 177750 ⟨[twoBetTx], 7, 0, 1000⟩ = .ok true ∧
    isBetPayoffExceeded (scenario 36 3) 177749 ⟨[twoBetTx], 7, 0, 1000⟩ = .ok false :=
  ⟨rfl, isBetPayoffExceeded_below_gate (scenario 36 3) 177749 ⟨[twoBetTx], 7, 0, 1000⟩
    (by decide)⟩

/-! ## C23 and C24: `checkPotentialRewardLimit` -/

/-- The loop of lines 430-448 when every segment has an output: it breaks with the sum
of the payoffs added, in 64 bits, exactly when no payoff exceeds half the subsidy. -/
theorem rewardLimitLoop_spec (c : Collaborators) (argument : Nat) (blockSubsidy : Int)
    (vout : List CTxOut) (fuel : Nat) :
    ∀ (i : Nat) (d : List Nat) (rewardSum : Int), d.length < fuel →
      i + (segments d).length ≤ vout.length →
      ∃ b rs, rewardLimitLoop c argument blockSubsidy vout fuel i d rewardSum = .ok (b, rs) ∧
        (b = true ↔ ∀ p ∈ (segments d).zip (vout.drop i),
          toInt64 (potentialPayoff c argument p) ≤ Int.tdiv blockSubsidy 2) ∧
        (b = true → rs = toInt64 (rewardSum
          + (((segments d).zip (vout.drop i)).map (potentialPayoff c argument)).sum)) := by
  induction fuel with
  | zero => intro i d _ h; omega
  | succ fuel ih =>
    intro i d rewardSum hfuel hlen
    have hne := segments_ne_nil d
    have hpos : 0 < (segments d).length := List.length_pos.mpr hne
    have hi : i < vout.length := by omega
    have hdrop : vout.drop i = vout[i] :: vout.drop (i + 1) := List.drop_eq_getElem_cons hi
    rw [rewardLimitLoop, List.getElem?_eq_getElem hi]
    simp only []
    by_cases hp : toInt64 (c.getReward (firstSegment d) argument * vout[i].nValue)
        > Int.tdiv blockSubsidy 2
    · rw [if_pos hp]
      refine ⟨false, rewardSum, rfl, ⟨fun h => Bool.noConfusion h, fun h => ?_⟩,
        fun h => Bool.noConfusion h⟩
      exfalso
      have hhead := firstSegment_eq_head d
      cases hs : segments d with
      | nil => exact hne hs
      | cons s0 rest =>
        rw [hs] at hhead h
        simp only [List.head?_cons, Option.some.injEq] at hhead
        have := h (s0, vout[i]) (by
          rw [hdrop]
          simp only [List.zip_cons_cons, List.mem_cons, true_or])
        simp only [potentialPayoff, hhead] at this
        exact absurd this (not_le.mpr hp)
    · rw [if_neg hp]
      cases hf : findPlus d with
      | none =>
        simp only []
        refine ⟨true, _, rfl, ⟨fun _ => ?_, fun _ => rfl⟩, fun _ => ?_⟩
        · intro p hp'
          rw [segments_of_findPlus_none hf, hdrop] at hp'
          simp only [List.zip_cons_cons, List.zip_nil_left, List.mem_singleton] at hp'
          subst hp'
          simp only [potentialPayoff]
          rw [firstSegment_of_none hf] at hp
          exact not_lt.mp hp
        · rw [segments_of_findPlus_none hf, hdrop, firstSegment_of_none hf]
          simp only [List.zip_cons_cons, List.zip_nil_left, List.map_cons, List.map_nil,
            List.sum_cons, List.sum_nil, add_zero, potentialPayoff, toInt64_add_right]
      | some pos =>
        simp only []
        have hlt := findPlus_lt hf
        have hseg := segments_of_findPlus_some hf
        rw [hseg, List.length_cons] at hlen
        obtain ⟨b, rs, hl, hb1, hb2⟩ := ih (i + 1) (d.drop (pos + 1))
          (toInt64 (rewardSum
            + toInt64 (c.getReward (firstSegment d) argument * vout[i].nValue)))
          (by rw [List.length_drop]; omega) (by omega)
        refine ⟨b, rs, hl, ?_, ?_⟩
        · rw [hb1, hseg, hdrop]
          simp only [List.zip_cons_cons, List.mem_cons, forall_eq_or_imp, potentialPayoff]
          rw [firstSegment_of_some hf] at hp
          constructor
          · intro h
            exact ⟨not_lt.mp hp, h⟩
          · intro h
            exact h.2
        · intro hb
          rw [hb2 hb, hseg, hdrop, firstSegment_of_some hf]
          simp only [List.zip_cons_cons, List.map_cons, List.sum_cons, potentialPayoff,
            toInt64_add_toInt64_add]

/-- C23, as stated, fails where a product does not fit a `CAmount`: with `2^62` wagered
on a segment of reward 3 the payoff `3 * 2^62` exceeds half the subsidy, but the product
of line 434 is `-2^62` in 64 bits, which passes both checks; the result is true and
`rewardSum` goes from 0 to `-2^62`. -/
theorem checkPotentialRewardLimit_wrapped :
    isMakeBetTx (scenario 36 3) hugeBetTx.nVersion 0 = true ∧
    getBetType hugeBetTx.vout = .ok [49] ∧
    (betPairs [49] hugeBetTx.vout).map (potentialPayoff (scenario 36 3) 36)
      = [3 * 4611686018427387904] ∧
    ¬ ((3 * 4611686018427387904 : Int) ≤ Int.tdiv 5000 2) ∧
    checkPotentialRewardLimit (scenario 36 3) 177750 ⟨[], 7, 0, 5000⟩ 3000 0 hugeBetTx false
      = .ok (true, -4611686018427387904) := by
  refine ⟨by decide, rfl, by decide, by decide, rfl⟩

/-- C23 (amended). With the rule active and a bet-tagged transaction: with an empty
descriptor `checkPotentialRewardLimit` returns false; with a non-empty descriptor `d`
for which `getArgumentFromBetType` gives the argument and which has no more segments
than the transaction has outputs, it returns true if and only if every segment `i` has
`getReward(segment_i, argument) * vout[i].nValue ≤ subsidy / 2` (truncating division)
and the incoming `rewardSum` plus the sum of these payoffs is at most `maxPayoff`, the
products and the sum taken in 64-bit two's complement, and on success `rewardSum` holds
that 64-bit sum; when the products and the sum are 64-bit values as exact numbers, the
condition is the one of exact arithmetic and `rewardSum` has been increased by exactly
the sum of the payoffs. -/
theorem checkPotentialRewardLimit_iff (c : Collaborators) (height : Int)
    (v : VerifyBlockReward) (maxPayoff rewardSum : Int) (txn : CTransaction)
    (ignoreHardfork : Bool)
    (hrule : MAKEBET_REWARD_LIMIT ≤ height ∨ ignoreHardfork = true)
    (htag : isMakeBetTx c txn.nVersion v.makeBetIndicator = true) :
    (getBetType txn.vout = .ok [] →
      checkPotentialRewardLimit c height v maxPayoff rewardSum txn ignoreHardfork
        = .ok (false, rewardSum)) ∧
    (∀ d argument, getBetType txn.vout = .ok d → d ≠ [] →
      c.getArgumentFromBetType d none = some argument →
      (segments d).length ≤ txn.vout.length →
      ∃ b rs, checkPotentialRewardLimit c height v maxPayoff rewardSum txn ignoreHardfork
          = .ok (b, rs) ∧
        (b = true ↔
          (∀ p ∈ betPairs d txn.vout,
            toInt64 (potentialPayoff c argument p) ≤ Int.tdiv v.blockSubsidy 2) ∧
          toInt64 (rewardSum + ((betPairs d txn.vout).map (potentialPayoff c argument)).sum)
            ≤ maxPayoff) ∧
        (b = true → rs = toInt64 (rewardSum
          + ((betPairs d txn.vout).map (potentialPayoff c argument)).sum)) ∧
        ((∀ p ∈ betPairs d txn.vout, InInt64 (potentialPayoff c argument p)) →
          InInt64 (rewardSum + ((betPairs d txn.vout).map (potentialPayoff c argument)).sum) →
          (b = true ↔
            (∀ p ∈ betPairs d txn.vout,
              potentialPayoff c argument p ≤ Int.tdiv v.blockSubsidy 2) ∧
            rewardSum + ((betPairs d txn.vout).map (potentialPayoff c argument)).sum
              ≤ maxPayoff) ∧
          (b = true → rs = rewardSum
            + ((betPairs d txn.vout).map (potentialPayoff c argument)).sum))) := by
  have hr : ¬ (ignoreHardfork = false ∧ height < MAKEBET_REWARD_LIMIT) := by
    rintro ⟨h1, h2⟩
    rcases hrule with h | h
    · exact absurd h2 (not_lt.mpr h)
    · rw [h1] at h; cases h
  constructor
  · intro hd
    unfold checkPotentialRewardLimit
    rw [if_neg hr, if_pos htag, hd]
    simp only [if_true]
  · intro d argument hd hne ha hlen
    have key : ∃ b rs,
        checkPotentialRewardLimit c height v maxPayoff rewardSum txn ignoreHardfork
          = .ok (b, rs) ∧
        (b = true ↔
          (∀ p ∈ betPairs d txn.vout,
            toInt64 (potentialPayoff c argument p) ≤ Int.tdiv v.blockSubsidy 2) ∧
          toInt64 (rewardSum + ((betPairs d txn.vout).map (potentialPayoff c argument)).sum)
            ≤ maxPayoff) ∧
        (b = true → rs = toInt64 (rewardSum
          + ((betPairs d txn.vout).map (potentialPayoff c argument)).sum)) := by
      unfold checkPotentialRewardLimit
      rw [if_neg hr, if_pos htag, hd]
      simp only [if_neg hne, ha]
      obtain ⟨b, rs, hl, hb1, hb2⟩ := rewardLimitLoop_spec c argument v.blockSubsidy txn.vout
        (d.length + 1) 0 d rewardSum (Nat.lt_succ_self _) (by omega)
      rw [List.drop_zero] at hb1 hb2
      rw [hl]
      cases b with
      | false =>
        refine ⟨false, rs, rfl, ⟨fun h => Bool.noConfusion h, fun h => ?_⟩,
          fun h => Bool.noConfusion h⟩
        exact hb1.mpr h.1
      | true =>
        have hrs := hb2 rfl
        refine ⟨decide (rs ≤ maxPayoff), rs, rfl, ?_, fun _ => hrs⟩
        rw [decide_eq_true_iff, hrs]
        exact ⟨fun h => ⟨hb1.mp rfl, h⟩, fun h => h.2⟩
    obtain ⟨b, rs, hb, hiff, hrs⟩ := key
    refine ⟨b, rs, hb, hiff, hrs, ?_⟩
    intro hp hs
    have hall : (∀ p ∈ betPairs d txn.vout,
          toInt64 (potentialPayoff c argument p) ≤ Int.tdiv v.blockSubsidy 2) ↔
        (∀ p ∈ betPairs d txn.vout,
          potentialPayoff c argument p ≤ Int.tdiv v.blockSubsidy 2) := by
      constructor
      · intro h p hmem
        have := h p hmem
        rwa [toInt64_of_range (hp p hmem)] at this
      · intro h p hmem
        rw [toInt64_of_range (hp p hmem)]
        exact h p hmem
    rw [toInt64_of_range hs] at hiff hrs
    rw [hall] at hiff
    exact ⟨hiff, hrs⟩

/-- Witness of C23: subsidy 5000 and `maxPayoff = 3000`; the payoffs 2100 and 750 of
the bets of 700 and 250 at reward 3 are below 2500, their sum 2850 is below 3000, the
result is true and `rewardSum` goes from 0 to 2850. -/
theorem checkPotentialRewardLimit_iff_witness :
    checkPotentialRewardLimit (scenario 36 3) 177750 ⟨[], 7, 0, 5000⟩ 3000 0 twoBetTx false
      = .ok (true, 2850) ∧
    (∀ p ∈ betPairs [49, 43, 50] twoBetTx.vout, InInt64 (potentialPayoff (scenario 36 3) 36 p)) ∧
    InInt64 (0 + ((betPairs [49, 43, 50] twoBetTx.vout).map
      (potentialPayoff (scenario 36 3) 36)).sum) ∧
    ∃ b rs, checkPotentialRewardLimit (scenario 36 3) 177750 ⟨[], 7, 0, 5000⟩ 3000 0
        twoBetTx false = .ok (b, rs) ∧
      (b = true ↔
        (∀ p ∈ betPairs [49, 43, 50] twoBetTx.vout,
          toInt64 (potentialPayoff (scenario 36 3) 36 p) ≤ Int.tdiv 5000 2) ∧
        toInt64 (0 + ((betPairs [49, 43, 50] twoBetTx.vout).map
          (potentialPayoff (scenario 36 3) 36)).sum) ≤ 3000) ∧
      (b = true → rs = toInt64 (0 + ((betPairs [49, 43, 50] twoBetTx.vout).map
        (potentialPayoff (scenario 36 3) 36)).sum)) ∧
      ((∀ p ∈ betPairs [49, 43, 50] twoBetTx.vout,
          InInt64 (potentialPayoff (scenario 36 3) 36 p)) →
        InInt64 (0 + ((betPairs [49, 43, 50] twoBetTx.vout).map
          (potentialPayoff (scenario 36 3) 36)).sum) →
        (b = true ↔
          (∀ p ∈ betPairs [49, 43, 50] twoBetTx.vout,
            potentialPayoff (scenario 36 3) 36 p ≤ Int.tdiv 5000 2) ∧
          0 + ((betPairs [49, 43, 50] twoBetTx.vout).map
            (potentialPayoff (scenario 36 3) 36)).sum ≤ 3000) ∧
        (b = true → rs = 0 + ((betPairs [49, 43, 50] twoBetTx.vout).map
          (potentialPayoff (scenario 36 3) 36)).sum)) :=
  ⟨rfl, by decide, by decide,
    (checkPotentialRewardLimit_iff (scenario 36 3) 177750 ⟨[], 7, 0, 5000⟩ 3000 0 twoBetTx
      false (Or.inl (by decide)) (by decide)).2 [49, 43, 50] 36 rfl (by decide) rfl
      (by decide)⟩

/-- C24. When the rule does not apply, because the chain height is below
`MAKEBET_REWARD_LIMIT = 177750` and `ignoreHardfork` is false, or because the
transaction is not bet-tagged, `checkPotentialRewardLimit` returns true and leaves
`rewardSum` as it was. -/
theorem checkPotentialRewardLimit_not_applied (c : Collaborators) (height : Int)
    (v : VerifyBlockReward) (maxPayoff rewardSum : Int) (txn : CTransaction)
    (ignoreHardfork : Bool)
    (h : (height < 177750 ∧ ignoreHardfork = false) ∨
      isMakeBetTx c txn.nVersion v.makeBetIndicator = false) :
    checkPotentialRewardLimit c height v maxPayoff rewardSum txn ignoreHardfork
      = .ok (true, rewardSum) := by
  unfold checkPotentialRewardLimit
  by_cases hr : ignoreHardfork = false ∧ height < MAKEBET_REWARD_LIMIT
  · rw [if_pos hr]
  · rw [if_neg hr]
    rcases h with ⟨h1, h2⟩ | h
    · exact absurd ⟨h2, h1⟩ hr
    · rw [h]
      simp only [Bool.false_eq_true, if_false]

/-- Witness of C24: the transaction of 950 at reward 3 fails the rule at height 177750
for the subsidy 1000, passes below that height, and a transaction with another version
passes at every height. -/
theorem checkPotentialRewardLimit_not_applied_witness :
    checkPotentialRewardLimit (scenario 36 3) 177750 ⟨[], 7, 0, 1000⟩ 3000 5 threeSegmentTx
      false = .ok (false, 5) ∧
    checkPotentialRewardLimit (scenario 36 3) 177749 ⟨[], 7, 0, 1000⟩ 3000 5 threeSegmentTx
      false = .ok (true, 5) ∧
    checkPotentialRewardLimit (scenario 36 3) 177750 ⟨[], 7, 0, 1000⟩ 3000 5
      (plainTx threeSegmentTx.vout) false = .ok (true, 5) :=
  ⟨rfl,
    checkPotentialRewardLimit_not_applied (scenario 36 3) 177749 ⟨[], 7, 0, 1000⟩ 3000 5
      threeSegmentTx false (Or.inl ⟨by decide, rfl⟩),
    checkPotentialRewardLimit_not_applied (scenario 36 3) 177750 ⟨[], 7, 0, 1000⟩ 3000 5
      (plainTx threeSegmentTx.vout) false (Or.inr (by decide))⟩

/-! ## Lemmas on `checkBetAmountLimit` -/

theorem is_lottery_iff (s : List Nat) :
    is_lottery s = true ↔ ∀ ch ∈ s, isDigit ch = true := by
  unfold is_lottery
  induction s with
  | nil => simp [find_first_not_of_digits]
  | cons ch rest ih =>
    by_cases h : isDigit ch = true
    · simp only [find_first_not_of_digits, h, if_true, Option.isNone_map', List.mem_cons,
        forall_eq_or_imp, true_and]
      exact ih
    · simp only [find_first_not_of_digits, h, Bool.false_eq_true, if_false, Option.isNone_some,
        List.mem_cons, forall_eq_or_imp, false_and]

theorem digitsValue_append (s : List Nat) (ch : Nat) :
    digitsValue (s ++ [ch]) = 10 * digitsValue s + (ch - 48) := by
  simp only [digitsValue, List.foldl_append, List.foldl_cons, List.foldl_nil]

theorem digitsValue_eq_decimalValue (s : List Nat) : digitsValue s = decimalValue s := by
  induction s using List.reverseRecOn with
  | nil => rfl
  | append_singleton init ch ih =>
    rw [digitsValue_append, ih]
    simp only [decimalValue, List.reverse_append, List.reverse_cons, List.reverse_nil,
      List.nil_append, List.singleton_append, List.map_cons, Nat.ofDigits_cons]
    omega

theorem stoi_digits {s : List Nat} (hd : ∀ ch ∈ s, isDigit ch = true) (hne : s ≠ []) :
    stoi s = if digitsValue s ≤ 2 ^ 31 - 1 then some (digitsValue s : Int) else none := by
  cases s with
  | nil => exact absurd rfl hne
  | cons ch rest =>
    have hch : isDigit ch = true := hd ch (List.mem_cons_self _ _)
    have h48 : 48 ≤ ch ∧ ch ≤ 57 := by simpa [isDigit] using hch
    have hsp : isspace ch = false := by
      simp only [isspace, decide_eq_false_iff_not]
      omega
    have hdrop : (ch :: rest).dropWhile isspace = ch :: rest := by
      rw [List.dropWhile_cons, hsp]
      simp
    have htake : (ch :: rest).takeWhile isDigit = ch :: rest :=
      List.takeWhile_eq_self_iff.mpr hd
    have h45 : ¬ ch = 45 := by omega
    have h43 : ¬ ch = 43 := by omega
    unfold stoi
    simp only [hdrop, List.head?_cons, Option.some.injEq, h45, h43, or_self, if_false,
      decide_False, htake, Bool.false_eq_true]
    rw [if_neg (by simp)]
    by_cases hv : digitsValue (ch :: rest) ≤ 2 ^ 31 - 1
    · rw [if_pos hv, if_neg]
      omega
    · rw [if_neg hv, if_pos]
      right
      omega

theorem toUInt32_of_lt {u : Nat} (h : u < 2 ^ 32) : toUInt32 (u : Int) = u := by
  unfold toUInt32
  rw [Int.emod_eq_of_lt (by omega) (by exact_mod_cast h)]
  exact Int.toNat_natCast u

/-- Lines 483-498: the verdict on a segment made of decimal digits only. -/
theorem checkBetAmountLimit_lottery (mod_argument : Int) (s : List Nat)
    (hd : ∀ ch ∈ s, isDigit ch = true) (hm : mod_argument ≤ 2 ^ 31 - 1) :
    checkBetAmountLimit mod_argument s
      = some (decide (1 ≤ decimalValue s ∧ (decimalValue s : Int) ≤ mod_argument)) := by
  have hl : is_lottery s = true := (is_lottery_iff s).mpr hd
  unfold checkBetAmountLimit
  rw [if_pos hl]
  by_cases hne : s = []
  · subst hne
    simp [stoi, decimalValue]
  · rw [stoi_digits hd hne, ← digitsValue_eq_decimalValue]
    by_cases hv : digitsValue s ≤ 2 ^ 31 - 1
    · rw [if_pos hv]
      simp only []
      have e1 : toUInt32 (digitsValue s : Int) = digitsValue s := toUInt32_of_lt (by omega)
      have e2 : toInt32 (digitsValue s) = (digitsValue s : Int) := toInt32_of_lt (by omega)
      simp only [e1, e2]
      by_cases h0 : digitsValue s = 0
      · rw [if_pos h0]
        simp [h0]
      · rw [if_neg h0]
        by_cases h1 : (digitsValue s : Int) > mod_argument
        · rw [if_pos h1]
          simp only [Option.some.injEq]
          symm
          rw [decide_eq_false_iff_not]
          omega
        · rw [if_neg h1]
          simp only [Option.some.injEq]
          symm
          rw [decide_eq_true_iff]
          omega
    · rw [if_neg hv]
      simp only [if_true, Option.some.injEq]
      symm
      rw [decide_eq_false_iff_not]
      omega

theorem toInt32_le (u : Nat) : toInt32 u ≤ (u : Int) := by
  unfold toInt32
  have h1 : ((u % 2 ^ 32 : Nat) : Int) ≤ u := by exact_mod_cast Nat.mod_le u (2 ^ 32)
  split_ifs <;> omega

theorem toInt32_le_max (u : Nat) : toInt32 u ≤ 2 ^ 31 - 1 := by
  unfold toInt32
  have h1 : u % 2 ^ 32 < 2 ^ 32 := Nat.mod_lt _ (by norm_num)
  split_ifs with h <;> omega

/-! ## Lemmas on `txMakeBetVerify` -/

/-- One iteration of the loop of lines 548-575 on a segment that passes. -/
theorem makeBetLoop_step {c : Collaborators} {argument : Nat} {vout : List CTxOut}
    {fuel i : Nat} {d : List Nat}
    (h : SegmentPasses c argument vout i (firstSegment d)) :
    makeBetLoop c argument vout (fuel + 1) i d
      = match findPlus d with
        | none => .ok true
        | some pos => makeBetLoop c argument vout fuel (i + 1) (d.drop (pos + 1)) := by
  obtain ⟨h1, h2, out, h3, h4⟩ := h
  rw [makeBetLoop]
  simp only [if_neg h1, h2, h3, if_neg h4]

/-- The boolean of one iteration on a segment that does not pass and does not abort. -/
theorem makeBetLoop_stop {c : Collaborators} {argument : Nat} {vout : List CTxOut}
    {fuel i : Nat} {d : List Nat}
    (h : c.getReward (firstSegment d) argument = 0 ∨
      checkBetAmountLimit (toInt32 argument) (firstSegment d) = some false ∨
      (checkBetAmountLimit (toInt32 argument) (firstSegment d) ≠ none ∧
        ∃ out, vout[i]? = some out ∧ out.nValue = 0)) :
    makeBetLoop c argument vout (fuel + 1) i d = .ok false := by
  rw [makeBetLoop]
  by_cases h1 : c.getReward (firstSegment d) argument = 0
  · simp only [if_pos h1]
  · simp only [if_neg h1]
    cases h2 : checkBetAmountLimit (toInt32 argument) (firstSegment d) with
    | none =>
      rcases h with h | h | ⟨h, -⟩
      · exact absurd h h1
      · rw [h2] at h; cases h
      · exact absurd h2 h
    | some b =>
      cases b with
      | false => rfl
      | true =>
        rcases h with h | h | ⟨-, out, h3, h4⟩
        · exact absurd h h1
        · rw [h2] at h; cases h
        · simp only [h3, if_pos h4]

theorem makeBetLoop_true_iff (c : Collaborators) (argument : Nat) (vout : List CTxOut)
    (fuel : Nat) :
    ∀ (i : Nat) (d : List Nat), d.length < fuel →
      (makeBetLoop c argument vout fuel i d = .ok true ↔
        ∀ k seg, (segments d)[k]? = some seg → SegmentPasses c argument vout (i + k) seg) := by
  induction fuel with
  | zero => intro i d h; omega
  | succ fuel ih =>
    intro i d hfuel
    by_cases hp : SegmentPasses c argument vout i (firstSegment d)
    · rw [makeBetLoop_step hp]
      cases hf : findPlus d with
      | none =>
        simp only [true_iff]
        intro k seg hk
        rw [segments_of_findPlus_none hf] at hk
        cases k with
        | zero =>
          simp only [List.getElem?_cons_zero, Option.some.injEq] at hk
          rw [firstSegment_of_none hf] at hp
          rw [← hk]
          exact hp
        | succ k => simp at hk
      | some pos =>
        simp only []
        have hlt := findPlus_lt hf
        rw [ih (i + 1) (d.drop (pos + 1)) (by rw [List.length_drop]; omega),
          segments_of_findPlus_some hf]
        constructor
        · intro h k seg hk
          cases k with
          | zero =>
            simp only [List.getElem?_cons_zero, Option.some.injEq] at hk
            rw [firstSegment_of_some hf] at hp
            rw [← hk]
            exact hp
          | succ k =>
            simp only [List.getElem?_cons_succ] at hk
            have := h k seg hk
            rwa [Nat.add_assoc, Nat.add_comm 1 k] at this
        · intro h k seg hk
          have := h (k + 1) seg (by simpa using hk)
          rwa [Nat.add_assoc, Nat.add_comm 1 k]
    · constructor
      · intro h
        exfalso
        apply hp
        rw [makeBetLoop] at h
        by_cases h1 : c.getReward (firstSegment d) argument = 0
        · simp only [if_pos h1] at h
          cases h
        · simp only [if_neg h1] at h
          cases h2 : checkBetAmountLimit (toInt32 argument) (firstSegment d) with
          | none => simp only [h2] at h; cases h
          | some b =>
            cases b with
            | false => simp only [h2] at h; cases h
            | true =>
              simp only [h2] at h
              cases h3 : vout[i]? with
              | none => simp only [h3] at h; cases h
              | some out =>
                simp only [h3] at h
                by_cases h4 : out.nValue = 0
                · simp only [if_pos h4] at h
                  cases h
                · exact ⟨h1, h2, out, h3, h4⟩
      · intro h
        exfalso
        apply hp
        have h0 := firstSegment_eq_head d
        cases hs : segments d with
        | nil => exact absurd hs (segments_ne_nil d)
        | cons s0 rest =>
          rw [hs] at h0
          simp only [List.head?_cons, Option.some.injEq] at h0
          have := h 0 s0 (by rw [hs, List.getElem?_cons_zero])
          rwa [h0] at this

/-- The loop of lines 548-575 returns false at segment `k` when that segment has a zero
reward, a failing amount check or a paired output of value zero, provided the amount
check raises on no earlier segment and the earlier segments have outputs. -/
theorem makeBetLoop_false_at (c : Collaborators) (argument : Nat) (vout : List CTxOut)
    (fuel : Nat) :
    ∀ (i k : Nat) (d seg : List Nat), d.length < fuel → (segments d)[k]? = some seg →
      (∀ j s, j < k → (segments d)[j]? = some s →
        checkBetAmountLimit (toInt32 argument) s ≠ none ∧ i + j < vout.length) →
      (c.getReward seg argument = 0 ∨
        checkBetAmountLimit (toInt32 argument) seg = some false ∨
        (checkBetAmountLimit (toInt32 argument) seg ≠ none ∧
          ∃ out, vout[i + k]? = some out ∧ out.nValue = 0)) →
      makeBetLoop c argument vout fuel i d = .ok false := by
  induction fuel with
  | zero => intro i k d seg h; omega
  | succ fuel ih =>
    intro i k d seg hfuel hk hpre hbad
    have h0 := firstSegment_eq_head d
    cases k with
    | zero =>
      have hseg : firstSegment d = seg := by
        cases hs : segments d with
        | nil => exact absurd hs (segments_ne_nil d)
        | cons s0 rest =>
          rw [hs] at h0 hk
          simp only [List.head?_cons, Option.some.injEq] at h0
          simp only [List.getElem?_cons_zero, Option.some.injEq] at hk
          rw [← h0, hk]
      rw [← hseg] at hbad
      exact makeBetLoop_stop hbad
    | succ k =>
      cases hf : findPlus d with
      | none =>
        rw [segments_of_findPlus_none hf] at hk
        simp at hk
      | some pos =>
        have hlt := findPlus_lt hf
        have hsegs := segments_of_findPlus_some hf
        have hfirst := firstSegment_of_some hf
        obtain ⟨hc0, hi0⟩ := hpre 0 (d.take pos) (Nat.succ_pos k)
          (by rw [hsegs, List.getElem?_cons_zero])
        by_cases hp : SegmentPasses c argument vout i (firstSegment d)
        · rw [makeBetLoop_step hp, hf]
          simp only []
          refine ih (i + 1) k (d.drop (pos + 1)) seg (by rw [List.length_drop]; omega) ?_ ?_ ?_
          · rw [hsegs] at hk
            simpa using hk
          · intro j s hj hs
            have := hpre (j + 1) s (by omega) (by rw [hsegs]; simpa using hs)
            exact ⟨this.1, by omega⟩
          · rwa [Nat.add_assoc, Nat.add_comm 1 k]
        · apply makeBetLoop_stop
          rw [hfirst] at hp ⊢
          by_cases h1 : c.getReward (d.take pos) argument = 0
          · exact Or.inl h1
          · cases h2 : checkBetAmountLimit (toInt32 argument) (d.take pos) with
            | none => exact absurd h2 hc0
            | some b =>
              cases b with
              | false => exact Or.inr (Or.inl rfl)
              | true =>
                refine Or.inr (Or.inr ⟨by simp, vout[i], ?_, ?_⟩)
                · exact List.getElem?_eq_getElem (by omega)
                · by_contra h4
                  exact hp ⟨h1, h2, vout[i], List.getElem?_eq_getElem (by omega), h4⟩

theorem p2shLoop_true_iff (c : Collaborators) (vout : List CTxOut) (n : Nat) :
    ∀ i, p2shLoop c vout n i = .ok true ↔
      ∀ j, j < n → ∃ out, vout[i + j]? = some out ∧
        c.IsPayToScriptHash out.scriptPubKey false = true := by
  induction n with
  | zero =>
    intro i
    simp only [p2shLoop, true_iff]
    intro j hj
    omega
  | succ n ih =>
    intro i
    rw [p2shLoop]
    cases ho : vout[i]? with
    | none =>
      simp only []
      constructor
      · intro h; cases h
      · intro h
        obtain ⟨out, h1, -⟩ := h 0 (Nat.succ_pos n)
        rw [Nat.add_zero, ho] at h1
        cases h1
    | some out =>
      simp only []
      by_cases hp : c.IsPayToScriptHash out.scriptPubKey false = false
      · rw [if_pos hp]
        constructor
        · intro h; cases h
        · intro h
          obtain ⟨out', h1, h2⟩ := h 0 (Nat.succ_pos n)
          rw [Nat.add_zero, ho] at h1
          cases h1
          rw [hp] at h2
          cases h2
      · rw [if_neg hp, ih (i + 1)]
        constructor
        · intro h j hj
          cases j with
          | zero => exact ⟨out, ho, by simpa using hp⟩
          | succ j =>
            have := h j (by omega)
            rwa [Nat.add_assoc, Nat.add_comm 1 j] at this
        · intro h j hj
          have := h (j + 1) (by omega)
          rwa [Nat.add_assoc, Nat.add_comm 1 j]

theorem rule_active {height gate : Int} {ignoreHardfork : Bool}
    (h : gate ≤ height ∨ ignoreHardfork = true) :
    ¬ (ignoreHardfork = false ∧ height < gate) := by
  rintro ⟨h1, h2⟩
  rcases h with h | h
  · exact absurd h2 (not_lt.mpr h)
  · rw [h1] at h; cases h

/-- The body of `txMakeBetVerify` behind the checks of lines 518-532, for a bet-tagged
transaction with the rule active. -/
theorem txMakeBetVerify_tagged {c : Collaborators} {height indicator maxReward : Int}
    {tx : CTransaction} {ignoreHardfork : Bool}
    (hrule : MAKEBET_FORMAT_VERIFY ≤ height ∨ ignoreHardfork = true)
    (hlen : 2 ≤ tx.vout.length) (htag : isMakeBetTx c tx.nVersion indicator = true) :
    txMakeBetVerify c height indicator maxReward tx ignoreHardfork
      = match getBetType_ tx.vout with
        | .error .lengthError => .error .thrown
        | .error _ => .error .outOfRange
        | .ok (betType, opReturnIdx) =>
          if betType = [] then .ok false
          else
            match c.getArgumentFromBetType betType (some maxReward) with
            | none => .error .thrown
            | some argument =>
              if (argument : Int) > maxReward then .ok false
              else
                match makeBetLoop c argument tx.vout (betType.length + 1) 0 betType with
                | .error e => .error e
                | .ok false => .ok false
                | .ok true => p2shLoop c tx.vout opReturnIdx 0 := by
  unfold txMakeBetVerify
  rw [if_neg (rule_active hrule), if_neg (by omega), if_neg (by rw [htag]; simp)]

/-- When `txMakeBetVerify` accepts a bet-tagged transaction with the rule active. -/
theorem txMakeBetVerify_tagged_true_iff {c : Collaborators} {height indicator maxReward : Int}
    {tx : CTransaction} {ignoreHardfork : Bool}
    (hrule : MAKEBET_FORMAT_VERIFY ≤ height ∨ ignoreHardfork = true)
    (htag : isMakeBetTx c tx.nVersion indicator = true) :
    txMakeBetVerify c height indicator maxReward tx ignoreHardfork = .ok true ↔
      2 ≤ tx.vout.length ∧ ∃ d idx argument,
        getBetType_ tx.vout = .ok (d, idx) ∧ d ≠ [] ∧
        c.getArgumentFromBetType d (some maxReward) = some argument ∧
        (argument : Int) ≤ maxReward ∧
        (∀ k seg, (segments d)[k]? = some seg → SegmentPasses c argument tx.vout k seg) ∧
        ∀ j, j < idx → ∃ out, tx.vout[j]? = some out ∧
          c.IsPayToScriptHash out.scriptPubKey false = true := by
  by_cases hlen : 2 ≤ tx.vout.length
  · rw [txMakeBetVerify_tagged hrule hlen htag]
    cases hg : getBetType_ tx.vout with
    | error e => cases e <;> simp
    | ok r =>
      obtain ⟨d, idx⟩ := r
      simp only []
      by_cases hne : d = []
      · simp [hne]
      · rw [if_neg hne]
        cases ha : c.getArgumentFromBetType d (some maxReward) with
        | none =>
          simp only []
          constructor
          · intro h; cases h
          · rintro ⟨-, d', idx', a', h1, -, h2, -⟩
            simp only [Except.ok.injEq, Prod.mk.injEq] at h1
            obtain ⟨rfl, rfl⟩ := h1
            rw [ha] at h2
            cases h2
        | some a =>
          simp only []
          by_cases hm : (a : Int) > maxReward
          · rw [if_pos hm]
            simp only [Except.ok.injEq, Bool.false_eq_true, false_iff]
            rintro ⟨-, d', idx', a', h1, -, h2, h3, -⟩
            simp only [Except.ok.injEq, Prod.mk.injEq] at h1
            obtain ⟨rfl, rfl⟩ := h1
            rw [ha] at h2
            cases h2
            exact absurd h3 (not_le.mpr hm)
          · rw [if_neg hm]
            have hloop := makeBetLoop_true_iff c a tx.vout (d.length + 1) 0 d (Nat.lt_succ_self _)
            simp only [Nat.zero_add] at hloop
            have hp2 := p2shLoop_true_iff c tx.vout idx 0
            simp only [Nat.zero_add] at hp2
            cases hl : makeBetLoop c a tx.vout (d.length + 1) 0 d with
            | error e =>
              simp only []
              constructor
              · intro h; cases h
              · rintro ⟨-, d', idx', a', h1, -, h2, -, h4, -⟩
                simp only [Except.ok.injEq, Prod.mk.injEq] at h1
                obtain ⟨rfl, rfl⟩ := h1
                rw [ha] at h2
                cases h2
                rw [hl] at hloop
                have := hloop.mpr h4
                cases this
            | ok b =>
              cases b with
              | false =>
                simp only []
                constructor
                · intro h; cases h
                · rintro ⟨-, d', idx', a', h1, -, h2, -, h4, -⟩
                  simp only [Except.ok.injEq, Prod.mk.injEq] at h1
                  obtain ⟨rfl, rfl⟩ := h1
                  rw [ha] at h2
                  cases h2
                  rw [hl] at hloop
                  have := hloop.mpr h4
                  cases this
              | true =>
                simp only []
                rw [hp2]
                constructor
                · intro h
                  exact ⟨hlen, d, idx, a, rfl, hne, ha, not_lt.mp hm, hloop.mp hl, h⟩
                · rintro ⟨-, d', idx', a', h1, -, -, -, -, h5⟩
                  simp only [Except.ok.injEq, Prod.mk.injEq] at h1
                  obtain ⟨rfl, rfl⟩ := h1
                  exact h5
  · have : txMakeBetVerify c height indicator maxReward tx ignoreHardfork = .ok false := by
      unfold txMakeBetVerify
      rw [if_neg (rule_active hrule), if_pos (by omega)]
    rw [this]
    simp only [Except.ok.injEq, Bool.false_eq_true, false_iff]
    rintro ⟨h, -⟩
    exact hlen h

theorem startsWithReturn_iff_rd {o : CTxOut} {b0 : Nat} (h0 : rd o.scriptPubKey 0 = .ok b0) :
    startsWithReturn o ↔ b0 = OP_RETURN := by
  obtain ⟨k, hk, hk'⟩ := rd_ok_iff.mp h0
  have : k = 0 := by omega
  subst this
  unfold startsWithReturn
  rw [List.head?_eq_getElem?, hk']
  simp

/-- A length-checked branch of lines 293-325 returns the index of the output it is at
whenever it returns a non-empty string. -/
theorem carrierBranch_index {s : List Nat} {a b n i idx : Nat} {d : List Nat}
    (h : (do
      let hexStr ← strFrom s a
      let lenBytes ← copy_n s b n
      let length := leValue lenBytes
      if hexStr.length ≠ length then pure ([], i) else pure (hexStr, i)
        : Except Fault (List Nat × Nat)) = .ok (d, idx))
    (hne : d ≠ []) : idx = i := by
  obtain ⟨hexStr, -, h⟩ := bind_ok_iff.mp h
  obtain ⟨lenBytes, -, h⟩ := bind_ok_iff.mp h
  simp only [] at h
  by_cases hl : hexStr.length ≠ leValue lenBytes
  · rw [if_pos hl] at h
    cases h
    exact absurd rfl hne
  · rw [if_neg hl] at h
    cases h
    rfl

/-- A non-empty string returned by the scan of lines 284-327 comes with the index of the
first output, among those scanned, whose script starts with `OP_RETURN`. -/
theorem getBetTypeScan_ok_index (outs : List CTxOut) :
    ∀ (i : Nat) (d : List Nat) (idx : Nat), getBetTypeScan outs i = .ok (d, idx) → d ≠ [] →
      ∃ k o, idx = i + k ∧ outs[k]? = some o ∧ startsWithReturn o ∧
        ∀ j o', j < k → outs[j]? = some o' → ¬ startsWithReturn o' := by
  induction outs with
  | nil =>
    intro i d idx h hne
    simp only [getBetTypeScan, Except.ok.injEq, Prod.mk.injEq] at h
    exact absurd h.1.symm hne
  | cons out rest ih =>
    intro i d idx h hne
    rw [getBetTypeScan] at h
    obtain ⟨order, -, h⟩ := bind_ok_iff.mp h
    obtain ⟨first, h0, h⟩ := bind_ok_iff.mp h
    by_cases hf : first = OP_RETURN
    · rw [if_pos hf] at h
      have hidx : idx = i := by
        by_cases h1 : order ≤ 0x4b
        · rw [if_pos h1] at h
          exact carrierBranch_index h hne
        · rw [if_neg h1] at h
          by_cases h2 : order = 0x4c
          · rw [if_pos h2] at h
            exact carrierBranch_index h hne
          · rw [if_neg h2] at h
            by_cases h3 : order = 0x4d
            · rw [if_pos h3] at h
              exact carrierBranch_index h hne
            · rw [if_neg h3] at h
              by_cases h4 : order = 0x4e
              · rw [if_pos h4] at h
                exact carrierBranch_index h hne
              · rw [if_neg h4] at h
                cases h
                exact absurd rfl hne
      refine ⟨0, out, by omega, List.getElem?_cons_zero, (startsWithReturn_iff_rd h0).mpr hf, ?_⟩
      intro j o' hj
      omega
    · rw [if_neg hf] at h
      obtain ⟨k, o, h1, h2, h3, h4⟩ := ih (i + 1) d idx h hne
      refine ⟨k + 1, o, by omega, by simpa using h2, h3, ?_⟩
      intro j o' hj ho'
      cases j with
      | zero =>
        simp only [List.getElem?_cons_zero, Option.some.injEq] at ho'
        subst ho'
        exact fun hs => hf ((startsWithReturn_iff_rd h0).mp hs)
      | succ j => exact h4 j o' (by omega) (by simpa using ho')

/-- A non-empty descriptor returned by `getBetType_` comes with the index of the first
output of index `≥ 1` whose script starts with `OP_RETURN`, the data-carrier output. -/
theorem getBetType__ok_index {vout : List CTxOut} {d : List Nat} {idx : Nat}
    (h : getBetType_ vout = .ok (d, idx)) (hne : d ≠ []) :
    1 ≤ idx ∧ ∃ o, vout[idx]? = some o ∧ startsWithReturn o ∧
      ∀ j o', 1 ≤ j → j < idx → vout[j]? = some o' → ¬ startsWithReturn o' := by
  unfold getBetType_ at h
  obtain ⟨k, o, h1, h2, h3, h4⟩ := getBetTypeScan_ok_index (vout.drop 1) 1 d idx h hne
  rw [List.getElem?_drop] at h2
  refine ⟨by omega, o, by rw [h1]; exact h2, h3, ?_⟩
  intro j o' hj1 hj2 ho'
  refine h4 (j - 1) o' (by omega) ?_
  rw [List.getElem?_drop]
  have : 1 + (j - 1) = j := by omega
  rw [this]
  exact ho'

theorem isDigit_of_range {seg : List Nat} (h : ∀ ch ∈ seg, 48 ≤ ch ∧ ch ≤ 57) :
    ∀ ch ∈ seg, isDigit ch = true := by
  intro ch hch
  simp only [isDigit, decide_eq_true_iff]
  exact h ch hch

/-- A bet-tagged transaction with the rule active is rejected when segment `k` of its
descriptor stops the loop of lines 548-575 and no earlier segment aborts it. -/
theorem txMakeBetVerify_false_at {c : Collaborators} {height indicator maxReward : Int}
    {tx : CTransaction} {ignoreHardfork : Bool} {d seg : List Nat} {idx argument k : Nat}
    (hrule : MAKEBET_FORMAT_VERIFY ≤ height ∨ ignoreHardfork = true)
    (htag : isMakeBetTx c tx.nVersion indicator = true)
    (hg : getBetType_ tx.vout = .ok (d, idx))
    (ha : c.getArgumentFromBetType d (some maxReward) = some argument)
    (hk : (segments d)[k]? = some seg)
    (hpre : ∀ j s, j < k → (segments d)[j]? = some s →
      checkBetAmountLimit (toInt32 argument) s ≠ none ∧ j < tx.vout.length)
    (hbad : c.getReward seg argument = 0 ∨
      checkBetAmountLimit (toInt32 argument) seg = some false ∨
      (checkBetAmountLimit (toInt32 argument) seg ≠ none ∧
        ∃ out, tx.vout[k]? = some out ∧ out.nValue = 0)) :
    txMakeBetVerify c height indicator maxReward tx ignoreHardfork = .ok false := by
  by_cases hlen : 2 ≤ tx.vout.length
  · rw [txMakeBetVerify_tagged hrule hlen htag, hg]
    simp only []
    by_cases hne : d = []
    · rw [if_pos hne]
    · rw [if_neg hne, ha]
      simp only []
      by_cases hm : (argument : Int) > maxReward
      · rw [if_pos hm]
      · rw [if_neg hm, makeBetLoop_false_at c argument tx.vout (d.length + 1) 0 k d seg
          (Nat.lt_succ_self _) hk (fun j s hj hs => by
            have := hpre j s hj hs
            exact ⟨this.1, by omega⟩) (by rwa [Nat.zero_add])]
  · unfold txMakeBetVerify
    rw [if_neg (rule_active hrule), if_pos (by omega)]

/-! ## C25: the amount of a lottery segment -/

/-- C25, as stated, fails for an argument that does not fit an `int`: with the argument
2147483648 (and `m_maxReward` not below it) the segment `2147483648` equals the
argument, the reward is not zero, the output has the value 100 and is pay-to-script-hash,
yet `std::stoi` raises `std::out_of_range` inside the `try` of line 486, the amount
stays 0 and the transaction is rejected. -/
theorem txMakeBetVerify_lottery_int_range :
    decimalValue [50, 49, 52, 55, 52, 56, 51, 54, 52, 56] = 2147483648 ∧
    getBetType_ (lotteryTx [50, 49, 52, 55, 52, 56, 51, 54, 52, 56]).vout
      = .ok ([50, 49, 52, 55, 52, 56, 51, 54, 52, 56], 1) ∧
    (scenario 2147483648 3).getArgumentFromBetType [50, 49, 52, 55, 52, 56, 51, 54, 52, 56]
      (some 4294967296) = some 2147483648 ∧
    txMakeBetVerify (scenario 2147483648 3) 177750 0 4294967296
      (lotteryTx [50, 49, 52, 55, 52, 56, 51, 54, 52, 56]) false = .ok false := by
  refine ⟨by decide, rfl, rfl, rfl⟩

/-- C25 (amended). For every non-empty segment made only of decimal digits, with decimal
value `v`, `checkBetAmountLimit(mod_argument, segment)` returns true if and only if
`1 ≤ v ≤ mod_argument` (`mod_argument` an `int`).  For a bet-tagged transaction with the
rule active, at least two outputs, a descriptor `d` and the argument of
`getArgumentFromBetType`, and a segment `k` of `d` made only of digits: if the amount
check raises on no earlier segment and the earlier segments have outputs, the
transaction is rejected when `v = 0` or `v = argument + 1`; and it is accepted when
`v = argument`, `1 ≤ argument < 2^31`, and every other check passes. -/
theorem checkBetAmountLimit_lottery_range (c : Collaborators) (height indicator maxReward : Int)
    (tx : CTransaction) (ignoreHardfork : Bool) :
    (∀ (mod_argument : Int) (seg : List Nat), mod_argument ≤ 2 ^ 31 - 1 → seg ≠ [] →
      (∀ ch ∈ seg, 48 ≤ ch ∧ ch ≤ 57) →
      checkBetAmountLimit mod_argument seg
        = some (decide (1 ≤ decimalValue seg ∧ (decimalValue seg : Int) ≤ mod_argument))) ∧
    (∀ (d seg : List Nat) (idx argument k : Nat),
      (MAKEBET_FORMAT_VERIFY ≤ height ∨ ignoreHardfork = true) →
      isMakeBetTx c tx.nVersion indicator = true → 2 ≤ tx.vout.length →
      getBetType_ tx.vout = .ok (d, idx) → d ≠ [] →
      c.getArgumentFromBetType d (some maxReward) = some argument →
      (segments d)[k]? = some seg → (∀ ch ∈ seg, 48 ≤ ch ∧ ch ≤ 57) →
      ((∀ j s, j < k → (segments d)[j]? = some s →
          checkBetAmountLimit (toInt32 argument) s ≠ none ∧ j < tx.vout.length) →
        (decimalValue seg = 0 ∨ decimalValue seg = argument + 1) →
        txMakeBetVerify c height indicator maxReward tx ignoreHardfork = .ok false) ∧
      (decimalValue seg = argument → 1 ≤ argument → argument < 2 ^ 31 →
        (argument : Int) ≤ maxReward → c.getReward seg argument ≠ 0 →
        (∃ out, tx.vout[k]? = some out ∧ out.nValue ≠ 0) →
        (∀ j s, j ≠ k → (segments d)[j]? = some s → SegmentPasses c argument tx.vout j s) →
        (∀ j, j < idx → ∃ out, tx.vout[j]? = some out ∧
          c.IsPayToScriptHash out.scriptPubKey false = true) →
        txMakeBetVerify c height indicator maxReward tx ignoreHardfork = .ok true)) := by
  constructor
  · intro mod_argument seg hm _ hd
    exact checkBetAmountLimit_lottery mod_argument seg (isDigit_of_range hd) hm
  · intro d seg idx argument k hrule htag hlen hg hne ha hk hd
    have hchk := checkBetAmountLimit_lottery (toInt32 argument) seg (isDigit_of_range hd)
      (toInt32_le_max argument)
    constructor
    · intro hpre hv
      refine txMakeBetVerify_false_at hrule htag hg ha hk hpre (Or.inr (Or.inl ?_))
      rw [hchk, Option.some.injEq, decide_eq_false_iff_not]
      have := toInt32_le argument
      rcases hv with hv | hv <;> omega
    · intro hv h1 h31 hm hr hout hothers hp2sh
      rw [txMakeBetVerify_tagged_true_iff hrule htag]
      refine ⟨hlen, d, idx, argument, hg, hne, ha, hm, ?_, hp2sh⟩
      intro j s hj
      by_cases hjk : j = k
      · subst hjk
        rw [hk] at hj
        cases hj
        refine ⟨hr, ?_, hout⟩
        rw [hchk, Option.some.injEq, decide_eq_true_iff, toInt32_of_lt h31]
        omega
      · exact hothers j s hjk hj

/-- Witness of C25, the scenario of the claim with the argument 36: the segment `0` is
rejected, the segment `36` is accepted, the segment `37` is rejected. -/
theorem checkBetAmountLimit_lottery_range_witness :
    checkBetAmountLimit 36 [51, 54] = some true ∧
    txMakeBetVerify (scenario 36 3) 177750 0 100 (lotteryTx [48]) false = .ok false ∧
    txMakeBetVerify (scenario 36 3) 177750 0 100 (lotteryTx [51, 54]) false = .ok true ∧
    txMakeBetVerify (scenario 36 3) 177750 0 100 (lotteryTx [51, 55]) false = .ok false :=
  ⟨(checkBetAmountLimit_lottery_range (scenario 36 3) 177750 0 100 (lotteryTx [48]) false).1
      36 [51, 54] (by decide) (by decide) (by decide),
    ((checkBetAmountLimit_lottery_range (scenario 36 3) 177750 0 100 (lotteryTx [48]) false).2
      [48] [48] 1 36 0 (Or.inl (by decide)) (by decide) (by decide) rfl (by decide) rfl
      (by decide) (by decide)).1 (fun j s hj _ => absurd hj (Nat.not_lt_zero j))
      (Or.inl (by decide)),
    ((checkBetAmountLimit_lottery_range (scenario 36 3) 177750 0 100 (lotteryTx [51, 54])
      false).2 [51, 54] [51, 54] 1 36 0 (Or.inl (by decide)) (by decide) (by decide) rfl
      (by decide) rfl (by decide) (by decide)).2 (by decide) (by decide) (by decide)
      (by decide) (by decide) ⟨⟨100, p2shScript⟩, rfl, by decide⟩
      (fun j s hj hs => by
        cases j with
        | zero => exact absurd rfl hj
        | succ j => cases hs)
      (fun j hj => by
        have : j = 0 := by omega
        subst this
        exact ⟨⟨100, p2shScript⟩, rfl, by decide⟩),
    ((checkBetAmountLimit_lottery_range (scenario 36 3) 177750 0 100 (lotteryTx [51, 55])
      false).2 [51, 55] [51, 55] 1 36 0 (Or.inl (by decide)) (by decide) (by decide) rfl
      (by decide) rfl (by decide) (by decide)).1 (fun j s hj _ => absurd hj (Nat.not_lt_zero j))
      (Or.inr (by decide))⟩

/-! ## C26 and C27: when the format check is bypassed -/

/-- C26, as stated, fails on a transaction with fewer than two outputs: the size check
of line 523 comes before the tag check of line 529, so a transaction that is not
bet-tagged and has one output is rejected. -/
theorem txMakeBetVerify_not_tagged_one_output :
    isMakeBetTx (scenario 36 3) (plainTx [⟨5, p2shScript⟩]).nVersion 0 = false ∧
    txMakeBetVerify (scenario 36 3) 177750 0 100 (plainTx [⟨5, p2shScript⟩]) false
      = .ok false := by
  refine ⟨by decide, rfl⟩

/-- C26 (amended). With the rule active, for every transaction that is not bet-tagged
(`tx.nVersion XOR indicator` outside `1..MAX_STANDARD_VERSION`), `txMakeBetVerify`
returns true when the transaction has at least two outputs, whatever they are, and
false when it has fewer. -/
theorem txMakeBetVerify_not_tagged (c : Collaborators) (height indicator maxReward : Int)
    (tx : CTransaction) (ignoreHardfork : Bool)
    (hrule : MAKEBET_FORMAT_VERIFY ≤ height ∨ ignoreHardfork = true)
    (htag : ¬ (1 ≤ Int.xor tx.nVersion indicator ∧
      Int.xor tx.nVersion indicator ≤ c.MAX_STANDARD_VERSION)) :
    txMakeBetVerify c height indicator maxReward tx ignoreHardfork
      = .ok (decide (2 ≤ tx.vout.length)) := by
  have ht : isMakeBetTx c tx.nVersion indicator = false := by
    simp only [isMakeBetTx, decide_eq_false_iff_not]
    exact fun h => htag ⟨h.2, h.1⟩
  unfold txMakeBetVerify
  rw [if_neg (rule_active hrule)]
  by_cases hlen : tx.vout.length < 2
  · rw [if_pos hlen]
    simp only [Except.ok.injEq]
    symm
    rw [decide_eq_false_iff_not]
    omega
  · rw [if_neg hlen, if_pos ht]
    simp only [Except.ok.injEq]
    symm
    rw [decide_eq_true_iff]
    omega

/-- Witness of C26: a transaction of version 7 with two outputs that no bet transaction
could have. -/
theorem txMakeBetVerify_not_tagged_witness :
    txMakeBetVerify (scenario 36 3) 177750 0 100 (plainTx [⟨0, []⟩, ⟨0, [OP_RETURN]⟩]) false
      = .ok (decide (2 ≤ (plainTx [⟨0, []⟩, ⟨0, [OP_RETURN]⟩]).vout.length)) :=
  txMakeBetVerify_not_tagged (scenario 36 3) 177750 0 100 (plainTx [⟨0, []⟩, ⟨0, [OP_RETURN]⟩])
    false (Or.inl (by decide)) (by decide)

/-- C27. At every chain height below `MAKEBET_FORMAT_VERIFY = 177750`, with
`ignoreHardfork` false, `txMakeBetVerify` returns true for every transaction; with
`ignoreHardfork` true the result at every height is that of the checks with the rule
active. -/
theorem txMakeBetVerify_gate (c : Collaborators) (height indicator maxReward : Int)
    (tx : CTransaction) :
    (height < 177750 →
      txMakeBetVerify c height indicator maxReward tx false = .ok true) ∧
    txMakeBetVerify c height indicator maxReward tx true
      = txMakeBetVerify c MAKEBET_FORMAT_VERIFY indicator maxReward tx false := by
  constructor
  · intro h
    unfold txMakeBetVerify
    rw [if_pos ⟨rfl, by unfold MAKEBET_FORMAT_VERIFY; exact h⟩]
  · unfold txMakeBetVerify
    rw [if_neg (rule_active (Or.inr rfl)), if_neg (rule_active (Or.inl (le_refl _)))]

/-- Witness of C27: a bet-tagged transaction with one output at height 0, accepted with
`ignoreHardfork` false and rejected with `ignoreHardfork` true. -/
theorem txMakeBetVerify_gate_witness :
    txMakeBetVerify (scenario 36 3) 0 0 100 ⟨1, [], [⟨5, p2shScript⟩]⟩ false = .ok true ∧
    txMakeBetVerify (scenario 36 3) 0 0 100 ⟨1, [], [⟨5, p2shScript⟩]⟩ true = .ok false :=
  ⟨(txMakeBetVerify_gate (scenario 36 3) 0 0 100 ⟨1, [], [⟨5, p2shScript⟩]⟩).1 (by decide),
    ((txMakeBetVerify_gate (scenario 36 3) 0 0 100 ⟨1, [], [⟨5, p2shScript⟩]⟩).2).trans rfl⟩

/-! ## C28: what `txMakeBetVerify` rejects -/

/-- C28 fails on the code when the amount check raises on an earlier segment: for the
descriptor `a_b+1`, segment 1 is paired with the data-carrier output of value 0, but on
segment 0 the `std::stoi` of line 504 gets the text `b`, raises `std::invalid_argument`,
and the exception leaves `txMakeBetVerify` (the defect of C29). -/
theorem txMakeBetVerify_raises_before_reject :
    isMakeBetTx (scenario 36 3) (lotteryTx [97, 95, 98, 43, 49]).nVersion 0 = true ∧
    getBetType_ (lotteryTx [97, 95, 98, 43, 49]).vout = .ok ([97, 95, 98, 43, 49], 1) ∧
    (segments [97, 95, 98, 43, 49])[1]? = some [49] ∧
    ((lotteryTx [97, 95, 98, 43, 49]).vout[1]?).map CTxOut.nValue = some 0 ∧
    txMakeBetVerify (scenario 36 3) 177750 0 100 (lotteryTx [97, 95, 98, 43, 49]) false
      = .error .thrown := by
  refine ⟨by decide, rfl, by decide, by decide, rfl⟩

/-- What is rejected when nothing raises. With the rule active, `txMakeBetVerify` returns
false for every bet-tagged transaction that has fewer than two outputs, or an empty
descriptor, or,
with the argument that `getArgumentFromBetType` gives for its descriptor, some segment
`k` for which `getReward` returns 0 or, the amount check not raising on it, whose
paired output `vout[k]` has the value 0, provided the amount check raises on no earlier
segment and the earlier segments have outputs. -/
theorem txMakeBetVerify_rejects (c : Collaborators) (height indicator maxReward : Int)
    (tx : CTransaction) (ignoreHardfork : Bool)
    (hrule : MAKEBET_FORMAT_VERIFY ≤ height ∨ ignoreHardfork = true)
    (htag : isMakeBetTx c tx.nVersion indicator = true) :
    (tx.vout.length < 2 →
      txMakeBetVerify c height indicator maxReward tx ignoreHardfork = .ok false) ∧
    (∀ idx, getBetType_ tx.vout = .ok ([], idx) →
      txMakeBetVerify c height indicator maxReward tx ignoreHardfork = .ok false) ∧
    (∀ (d seg : List Nat) (idx argument k : Nat), getBetType_ tx.vout = .ok (d, idx) →
      c.getArgumentFromBetType d (some maxReward) = some argument →
      (segments d)[k]? = some seg →
      (∀ j s, j < k → (segments d)[j]? = some s →
        checkBetAmountLimit (toInt32 argument) s ≠ none ∧ j < tx.vout.length) →
      (c.getReward seg argument = 0 ∨
        (checkBetAmountLimit (toInt32 argument) seg ≠ none ∧
          ∃ out, tx.vout[k]? = some out ∧ out.nValue = 0)) →
      txMakeBetVerify c height indicator maxReward tx ignoreHardfork = .ok false) := by
  refine ⟨?_, ?_, ?_⟩
  · intro hlen
    unfold txMakeBetVerify
    rw [if_neg (rule_active hrule), if_pos hlen]
  · intro idx hg
    by_cases hlen : 2 ≤ tx.vout.length
    · rw [txMakeBetVerify_tagged hrule hlen htag, hg]
      simp only [if_true]
    · unfold txMakeBetVerify
      rw [if_neg (rule_active hrule), if_pos (by omega)]
  · intro d seg idx argument k hg ha hk hpre hbad
    refine txMakeBetVerify_false_at hrule htag hg ha hk hpre ?_
    rcases hbad with h | h
    · exact Or.inl h
    · exact Or.inr (Or.inr h)

/-- An instance: the descriptor `1+1` on a transaction whose output 1 is the data
carrier of value 0; segment 1 is paired with it and the transaction is rejected.  A
transaction with one output is rejected as well. -/
theorem txMakeBetVerify_rejects_witness :
    txMakeBetVerify (scenario 36 3) 177750 0 100 ⟨1, [], [⟨5, p2shScript⟩]⟩ false = .ok false ∧
    txMakeBetVerify (scenario 36 3) 177750 0 100 (lotteryTx [49, 43, 49]) false = .ok false :=
  ⟨(txMakeBetVerify_rejects (scenario 36 3) 177750 0 100 ⟨1, [], [⟨5, p2shScript⟩]⟩ false
      (Or.inl (by decide)) (by decide)).1 (by decide),
    (txMakeBetVerify_rejects (scenario 36 3) 177750 0 100 (lotteryTx [49, 43, 49]) false
      (Or.inl (by decide)) (by decide)).2.2 [49, 43, 49] [49] 1 36 1 rfl rfl (by decide)
      (fun j s hj hs => by
        have hj0 : j = 0 := by omega
        subst hj0
        have hs' : s = [49] := by
          have : (segments [49, 43, 49])[0]? = some [49] := by decide
          rw [this] at hs
          exact (Option.some.inj hs).symm
        subst hs'
        exact ⟨by decide, by decide⟩)
      (Or.inr ⟨by decide, ⟨0, carrierScript [49, 43, 49]⟩, rfl, rfl⟩)⟩

/-! ## C29: the amount check on the other segments -/

/-- C29 fails: on the segment `a_b` the text after the last underscore is not a number,
and on `a_99999999999` it is a number too large for an `int`; in both cases the
`std::stoi` of line 504, which is not inside a `try`, raises, `checkBetAmountLimit`
gives no verdict and the exception leaves `txMakeBetVerify` as well.  On `a_0x` the
text after the underscore is not a number either, and the verdict is false. -/
theorem checkBetAmountLimit_raises :
    is_lottery [97, 95, 98] = false ∧
    checkBetAmountLimit 36 [97, 95, 98] = none ∧
    checkBetAmountLimit 36 [97, 95, 57, 57, 57, 57, 57, 57, 57, 57, 57, 57, 57] = none ∧
    checkBetAmountLimit 36 [97, 95, 48, 120] = some false ∧
    txMakeBetVerify (scenario 36 3) 177750 0 100 (lotteryTx [97, 95, 98]) false
      = .error .thrown := by
  refine ⟨by decide, by decide, by decide, by decide, rfl⟩

/-! ## C30: the outputs before the data carrier -/

/-- C30. For every bet-tagged transaction that `txMakeBetVerify` accepts with the rule
active, `getBetType_` has returned a non-empty descriptor with the index of the
data-carrier output, the first output of index `≥ 1` whose script starts with
`OP_RETURN`, and every output of a smaller index is a pay-to-script-hash output
(`IsPayToScriptHash(false)` holds of its script). -/
theorem txMakeBetVerify_p2sh_before_carrier (c : Collaborators)
    (height indicator maxReward : Int) (tx : CTransaction) (ignoreHardfork : Bool)
    (hrule : MAKEBET_FORMAT_VERIFY ≤ height ∨ ignoreHardfork = true)
    (htag : isMakeBetTx c tx.nVersion indicator = true)
    (h : txMakeBetVerify c height indicator maxReward tx ignoreHardfork = .ok true) :
    ∃ d idx carrier, getBetType_ tx.vout = .ok (d, idx) ∧ d ≠ [] ∧ 1 ≤ idx ∧
      tx.vout[idx]? = some carrier ∧ startsWithReturn carrier ∧
      (∀ j o, 1 ≤ j → j < idx → tx.vout[j]? = some o → ¬ startsWithReturn o) ∧
      ∀ i, i < idx → ∃ out, tx.vout[i]? = some out ∧
        c.IsPayToScriptHash out.scriptPubKey false = true := by
  obtain ⟨-, d, idx, argument, hg, hne, -, -, -, hp⟩ :=
    (txMakeBetVerify_tagged_true_iff hrule htag).mp h
  obtain ⟨h1, o, h2, h3, h4⟩ := getBetType__ok_index hg hne
  exact ⟨d, idx, o, hg, hne, h1, h2, h3, h4, hp⟩

/-- Witness of C30: the accepted transaction with the descriptor `1+2`; the data carrier
is output 2, and outputs 0 and 1 are pay-to-script-hash. -/
theorem txMakeBetVerify_p2sh_before_carrier_witness :
    txMakeBetVerify (scenario 36 3) 177750 0 100 twoBetTx false = .ok true ∧
    ∃ d idx carrier, getBetType_ twoBetTx.vout = .ok (d, idx) ∧ d ≠ [] ∧ 1 ≤ idx ∧
      twoBetTx.vout[idx]? = some carrier ∧ startsWithReturn carrier ∧
      (∀ j o, 1 ≤ j → j < idx → twoBetTx.vout[j]? = some o → ¬ startsWithReturn o) ∧
      ∀ i, i < idx → ∃ out, twoBetTx.vout[i]? = some out ∧
        (scenario 36 3).IsPayToScriptHash out.scriptPubKey false = true :=
  ⟨rfl, txMakeBetVerify_p2sh_before_carrier (scenario 36 3) 177750 0 100 twoBetTx false
    (Or.inl (by decide)) (by decide) rfl⟩

/-! ## C31: the outputs paired with the segments -/

/-- C31 fails: for the descriptor `1+1+1` carried by output 1, the loop of lines 548-575
pairs the segments with the outputs 0, 1 and 2, all of nonzero value, and the loop of
lines 577-584 checks output 0 only; the transaction is accepted although the descriptor
has three segments and one output before the data carrier, and the stake of 7 paired
with segment 2 is locked by the script `OP_TRUE`. -/
theorem txMakeBetVerify_accepts_unescrowed :
    isMakeBetTx (scenario 36 3) unescrowedTx.nVersion 0 = true ∧
    getBetType_ unescrowedTx.vout = .ok ([49, 43, 49, 43, 49], 1) ∧
    (segments [49, 43, 49, 43, 49]).length = 3 ∧
    unescrowedTx.vout[2]? = some ⟨7, [OP_TRUE]⟩ ∧
    (scenario 36 3).IsPayToScriptHash [OP_TRUE] false = false ∧
    txMakeBetVerify (scenario 36 3) 177750 0 100 unescrowedTx false = .ok true := by
  refine ⟨by decide, rfl, by decide, rfl, by decide, rfl⟩

/-! ## C32: the reads of `getBetType` -/

/-- C32 fails: line 289 reads byte 1 of every scanned output before anything is tested,
so an output of index 1 with an empty or a one-byte script is read outside its script;
and for the data carrier `OP_RETURN 4d`, whose two-byte length is missing, line 305
builds a string from `it_beg + 4`, past the end of the script: `std::length_error` is
thrown and no string is returned. -/
theorem getBetType_reads_outside :
    getBetType [⟨0, p2shScript⟩, ⟨0, []⟩] = .error .outOfRange ∧
    getBetType [⟨0, p2shScript⟩, ⟨0, [OP_TRUE]⟩, ⟨0, carrierScript [49]⟩]
      = .error .outOfRange ∧
    getBetType [⟨0, p2shScript⟩, ⟨0, [OP_RETURN, 0x4d]⟩] = .error .lengthError := by
  refine ⟨rfl, rfl, rfl⟩

/-! ## C33: the argument derived from the descriptor -/

/-- C33. The per-input `txVerify` uses `getArgumentFromBetType` only to see whether it
throws: for every other function `g` in its place that throws on the same inputs, all
other collaborators and inputs equal, the call gives the same boolean and the same
`totalReward` and `inputSum`; the reward of lines 236-252 is computed from the script
argument `getArgument(scriptSig)` alone. -/
theorem txVerifyInput_ignores_game_argument (c : Collaborators) (nSpendHeight : Int)
    (input : CTxIn) (prev : TxData) (indicator maxReward totalReward inputSum : Int)
    (g : List Nat → Option Int → Option Nat)
    (hg : ∀ d m, g d m = none ↔ c.getArgumentFromBetType d m = none) :
    txVerifyInput { c with getArgumentFromBetType := g } nSpendHeight input prev indicator
        maxReward totalReward inputSum
      = txVerifyInput c nSpendHeight input prev indicator maxReward totalReward inputSum := by
  have hbody : txVerifyInputBody { c with getArgumentFromBetType := g } nSpendHeight input
      prev indicator maxReward totalReward inputSum
      = txVerifyInputBody c nSpendHeight input prev indicator maxReward totalReward
          inputSum := by
    have e1 : ∀ a b, getMakeTxBlockHash { c with getArgumentFromBetType := g } a b
        = getMakeTxBlockHash c a b := fun _ _ => rfl
    have e2 : ∀ a b, txVerifyInputTail { c with getArgumentFromBetType := g } nSpendHeight
        input prev maxReward totalReward inputSum a b
        = txVerifyInputTail c nSpendHeight input prev maxReward totalReward inputSum a b :=
      fun _ _ => rfl
    rw [txVerifyInputBody_eq, txVerifyInputBody_eq]
    simp only [guard_eq, e1, e2]
    by_cases hv : Int.xor prev.version indicator > c.MAX_STANDARD_VERSION ∨
        Int.xor prev.version indicator < 1
    · rw [if_pos hv, if_pos hv]
    · rw [if_neg hv, if_neg hv]
      cases hbh : copy_n input.scriptSig 1 4 with
      | error e => rfl
      | ok bh =>
        simp only [bind, Except.bind]
        by_cases hh : getMakeTxBlockHash c prev.blockhash (c.getArgument input.scriptSig)
            ≠ array2typeU bh
        · rw [if_pos hh, if_pos hh]
        · rw [if_neg hh, if_neg hh]
          cases hd : getBetType prev.tx.vout with
          | error e => rfl
          | ok d =>
            simp only []
            by_cases hne : d = []
            · rw [if_pos hne, if_pos hne]
            · rw [if_neg hne, if_neg hne]
              by_cases ha : c.getArgumentFromBetType d (some maxReward) = none
              · rw [if_pos ha, if_pos ((hg d (some maxReward)).mpr ha)]
              · rw [if_neg ha, if_neg (fun h => ha ((hg d (some maxReward)).mp h))]
  unfold txVerifyInput
  rw [hbody]

set_option maxRecDepth 100000 in
/-- Witness of C33: the scenario of C13 with the descriptor argument 36 replaced by 99;
the input passes and adds 3600 and 100 as before. -/
theorem txVerifyInput_ignores_game_argument_witness :
    txVerifyInput { scenario 36 36 with getArgumentFromBetType := fun _ _ => some 99 } 0
        ⟨⟨1, 0⟩, oneBetScriptSig⟩ ⟨1, [], oneBetTx⟩ 0 100 0 0
      = txVerifyInput (scenario 36 36) 0 ⟨⟨1, 0⟩, oneBetScriptSig⟩ ⟨1, [], oneBetTx⟩ 0 100 0 0 ∧
    txVerifyInput (scenario 36 36) 0 ⟨⟨1, 0⟩, oneBetScriptSig⟩ ⟨1, [], oneBetTx⟩ 0 100 0 0
      = some ⟨true, 3600, 100⟩ :=
  ⟨txVerifyInput_ignores_game_argument (scenario 36 36) 0 ⟨⟨1, 0⟩, oneBetScriptSig⟩
      ⟨1, [], oneBetTx⟩ 0 100 0 0 (fun _ _ => some 99) (fun _ _ => by simp [scenario]),
    by decide⟩

/-! ## C34: `filterCompare` -/

/-- C34. `filterCompare(data, mask)` returns true if and only if `data` has at least as
many bytes as `mask` and, at every index below the length of `mask`, the byte of `mask`
is the wildcard `0xFF` or equals the byte of `data`; two arrays at least as long as the
mask that agree below its length give the same result. -/
theorem filterCompare_spec (data mask : List Nat) :
    (filterCompare data mask = true ↔
      mask.length ≤ data.length ∧
        ∀ i : Nat, i < mask.length → mask.getD i 0 = 0xFF ∨ mask.getD i 0 = data.getD i 0) ∧
    (∀ other : List Nat, mask.length ≤ data.length → mask.length ≤ other.length →
      (∀ i : Nat, i < mask.length → other.getD i 0 = data.getD i 0) →
      filterCompare other mask = filterCompare data mask) := by
  refine ⟨filterCompare_iff data mask, ?_⟩
  intro other hd ho hagree
  rw [Bool.eq_iff_iff, filterCompare_iff, filterCompare_iff]
  constructor
  · rintro ⟨-, h⟩
    exact ⟨hd, fun i hi => by rw [← hagree i hi]; exact h i hi⟩
  · rintro ⟨-, h⟩
    exact ⟨ho, fun i hi => by rw [hagree i hi]; exact h i hi⟩

/-- Witness of C34: the trailing window of a redeem script against `byte_mask`, with two
different fillings of the wildcard positions and bytes beyond the mask. -/
theorem filterCompare_spec_witness :
    filterCompare [OP_ELSE, OP_DROP, OP_FALSE, OP_ENDIF, 4, 36, 0, 0, 0, OP_DROP] byte_mask
      = true ∧
    filterCompare [OP_ELSE, OP_DROP, OP_FALSE, OP_ENDIF, 4, 36, 0, 0, 0, OP_DROP, 1, 2]
        byte_mask
      = filterCompare [OP_ELSE, OP_DROP, OP_FALSE, OP_ENDIF, 4, 36, 0, 0, 0, OP_DROP] byte_mask :=
  ⟨((filterCompare_spec [OP_ELSE, OP_DROP, OP_FALSE, OP_ENDIF, 4, 36, 0, 0, 0, OP_DROP]
      byte_mask).1).mpr (by decide),
    (filterCompare_spec [OP_ELSE, OP_DROP, OP_FALSE, OP_ENDIF, 4, 36, 0, 0, 0, OP_DROP]
      byte_mask).2 [OP_ELSE, OP_DROP, OP_FALSE, OP_ENDIF, 4, 36, 0, 0, 0, OP_DROP, 1, 2]
      (by decide) (by decide) (by decide)⟩

/-! ## C35: the count and the numbers of `isInputBet` -/

/-- C35. Whenever `isInputBet` returns true, the numbers it appends to `betNumbers` are
as many as the count it writes to `numOfBetsNumbers`; the count is at least 1, and it is
one more than the number of `OP_ENDIF` bytes the loop of lines 42-50 has counted
backward from the byte in front of the trailing window; when the count is below 19 the
byte where the counting stopped is the `OP_TRUE` terminator. -/
theorem isInputBet_count (s : List Nat) (num0 N : Nat) (bets0 nums : List Int)
    (h : isInputBet s num0 bets0 = some ⟨true, N, nums⟩) :
    1 ≤ N ∧ (∃ appended, nums = bets0 ++ appended ∧ appended.length = N) ∧
    countLoop s ((s.length : Int) - (10 + 1)) 18 0 = .ok (N - 1) ∧
    (∀ j : Nat, j < N - 1 → s.getD (s.length - 11 - j) 0 = OP_ENDIF) ∧
    (N ≤ 18 → s.getD (s.length - 10 - N) 0 = OP_TRUE) := by
  obtain ⟨h1, -, appended, h3, h4, hb⟩ := isInputBet_accept_facts h
  obtain ⟨-, -, -, hlen⟩ := isInputBetBody_length hb
  obtain ⟨w, k, -, -, hcount, hmid⟩ := isInputBetBody_ok hb
  have hNk := isInputBetBody_count hmid
  subst hNk
  obtain ⟨r1, r2⟩ := countLoop_reads _ _ _ hcount
  refine ⟨h1, ⟨appended, h3, h4⟩, by simpa using hcount, ?_, ?_⟩
  · intro j hj
    obtain ⟨-, -, e⟩ := rd_ok_getD (r1 j (Nat.zero_le j) (by omega))
    have : ((s.length : Int) - (10 + 1) - (j : Int)).toNat = s.length - 11 - j := by omega
    rw [this] at e
    exact e.symm
  · intro h18
    obtain ⟨-, -, e⟩ := rd_ok_getD (r2 (by omega))
    have : ((s.length : Int) - (10 + 1) - (k : Int)).toNat = s.length - 10 - (k + 1) := by omega
    rw [this] at e
    exact e.symm

set_option maxRecDepth 100000 in
/-- Witness of C35: the one-wager scriptSig of the scenarios. -/
theorem isInputBet_count_witness :
    1 ≤ 1 ∧ (∃ appended, ([8, 5] : List Int) = [8] ++ appended ∧ appended.length = 1) ∧
    countLoop oneBetScriptSig ((oneBetScriptSig.length : Int) - (10 + 1)) 18 0 = .ok (1 - 1) ∧
    (∀ j : Nat, j < 1 - 1 →
      oneBetScriptSig.getD (oneBetScriptSig.length - 11 - j) 0 = OP_ENDIF) ∧
    (1 ≤ 18 → oneBetScriptSig.getD (oneBetScriptSig.length - 10 - 1) 0 = OP_TRUE) :=
  isInputBet_count oneBetScriptSig 3 1 [8] [8, 5] (by decide)

/-! ## C40: the argument against `maxReward` -/

/-- C40. With the rule active, `txMakeBetVerify` returns false for every bet-tagged
transaction for whose descriptor `getArgumentFromBetType` gives an argument greater than
`maxReward`, whatever the segments and the outputs are: line 542 returns before the loop
over the segments. -/
theorem txMakeBetVerify_argument_above_maxReward (c : Collaborators)
    (height indicator maxReward : Int) (tx : CTransaction) (ignoreHardfork : Bool)
    (d : List Nat) (idx argument : Nat)
    (hrule : MAKEBET_FORMAT_VERIFY ≤ height ∨ ignoreHardfork = true)
    (htag : isMakeBetTx c tx.nVersion indicator = true)
    (hg : getBetType_ tx.vout = .ok (d, idx))
    (ha : c.getArgumentFromBetType d (some maxReward) = some argument)
    (hgt : (argument : Int) > maxReward) :
    txMakeBetVerify c height indicator maxReward tx ignoreHardfork = .ok false := by
  by_cases hlen : 2 ≤ tx.vout.length
  · rw [txMakeBetVerify_tagged hrule hlen htag, hg]
    simp only []
    by_cases hne : d = []
    · rw [if_pos hne]
    · rw [if_neg hne, ha]
      simp only [if_pos hgt]
  · unfold txMakeBetVerify
    rw [if_neg (rule_active hrule), if_pos (by omega)]

/-- Witness of C40: the argument 36 against `maxReward = 35`, on the descriptor `a_b`
whose only segment would make the amount check raise were it examined. -/
theorem txMakeBetVerify_argument_above_maxReward_witness :
    txMakeBetVerify (scenario 36 3) 177750 0 100 (lotteryTx [97, 95, 98]) false
      = .error .thrown ∧
    txMakeBetVerify (scenario 36 3) 177750 0 35 (lotteryTx [97, 95, 98]) false = .ok false :=
  ⟨rfl, txMakeBetVerify_argument_above_maxReward (scenario 36 3) 177750 0 35
    (lotteryTx [97, 95, 98]) false [97, 95, 98] 1 36 (Or.inl (by decide)) (by decide) rfl rfl
    (by decide)⟩

/-! ## Lemmas on the iterations of the segment loops -/

theorem segments_length (d : List Nat) : (segments d).length = d.count plusChar + 1 := by
  induction d with
  | nil => rfl
  | cons ch rest ih =>
    by_cases h : ch = plusChar
    · subst h
      simp only [segments, if_true, List.length_cons, ih, List.count_cons_self]
    · have hne := segments_ne_nil rest
      simp only [segments, if_neg h]
      cases hs : segments rest with
      | nil => exact absurd hs hne
      | cons seg segs =>
        rw [hs] at ih
        simp only [List.length_cons] at ih ⊢
        rw [ih, List.count_cons_of_ne (fun e => h e.symm)]

theorem segments_length_of_some {d : List Nat} {pos : Nat} (h : findPlus d = some pos) :
    (segments d).length = (segments (d.drop (pos + 1))).length + 1 := by
  rw [segments_of_findPlus_some h, List.length_cons]

theorem payoffLoop_fuel (c : Collaborators) (argument argumentResult : Nat)
    (vout : List CTxOut) (fuel : Nat) :
    ∀ (fuel' i : Nat) (d : List Nat) (inAcc payoffAcc : Int),
      (segments d).length ≤ fuel → (segments d).length ≤ fuel' →
      payoffLoop c argument argumentResult vout fuel i d inAcc payoffAcc
        = payoffLoop c argument argumentResult vout fuel' i d inAcc payoffAcc := by
  induction fuel with
  | zero =>
    intro fuel' i d inAcc payoffAcc h
    have := List.length_pos.mpr (segments_ne_nil d)
    omega
  | succ fuel ih =>
    intro fuel' i d inAcc payoffAcc h h'
    have hpos := List.length_pos.mpr (segments_ne_nil d)
    obtain ⟨fuel'', rfl⟩ : ∃ n, fuel' = n + 1 := ⟨fuel' - 1, by omega⟩
    rw [payoffLoop, payoffLoop]
    cases vout[i]? with
    | none => rfl
    | some out =>
      simp only []
      cases hf : findPlus d with
      | none => rfl
      | some pos =>
        simp only []
        have hl := segments_length_of_some hf
        exact ih fuel'' (i + 1) _ _ _ (by omega) (by omega)

theorem rewardLimitLoop_fuel (c : Collaborators) (argument : Nat) (blockSubsidy : Int)
    (vout : List CTxOut) (fuel : Nat) :
    ∀ (fuel' i : Nat) (d : List Nat) (rewardSum : Int),
      (segments d).length ≤ fuel → (segments d).length ≤ fuel' →
      rewardLimitLoop c argument blockSubsidy vout fuel i d rewardSum
        = rewardLimitLoop c argument blockSubsidy vout fuel' i d rewardSum := by
  induction fuel with
  | zero =>
    intro fuel' i d rewardSum h
    have := List.length_pos.mpr (segments_ne_nil d)
    omega
  | succ fuel ih =>
    intro fuel' i d rewardSum h h'
    have hpos := List.length_pos.mpr (segments_ne_nil d)
    obtain ⟨fuel'', rfl⟩ : ∃ n, fuel' = n + 1 := ⟨fuel' - 1, by omega⟩
    rw [rewardLimitLoop, rewardLimitLoop]
    cases vout[i]? with
    | none => rfl
    | some out =>
      simp only []
      by_cases hp : toInt64 (c.getReward (firstSegment d) argument * out.nValue)
          > Int.tdiv blockSubsidy 2
      · rw [if_pos hp, if_pos hp]
      · rw [if_neg hp, if_neg hp]
        cases hf : findPlus d with
        | none => rfl
        | some pos =>
          simp only []
          have hl := segments_length_of_some hf
          exact ih fuel'' (i + 1) _ _ (by omega) (by omega)

theorem makeBetLoop_fuel (c : Collaborators) (argument : Nat) (vout : List CTxOut)
    (fuel : Nat) :
    ∀ (fuel' i : Nat) (d : List Nat),
      (segments d).length ≤ fuel → (segments d).length ≤ fuel' →
      makeBetLoop c argument vout fuel i d = makeBetLoop c argument vout fuel' i d := by
  induction fuel with
  | zero =>
    intro fuel' i d h
    have := List.length_pos.mpr (segments_ne_nil d)
    omega
  | succ fuel ih =>
    intro fuel' i d h h'
    have hpos := List.length_pos.mpr (segments_ne_nil d)
    obtain ⟨fuel'', rfl⟩ : ∃ n, fuel' = n + 1 := ⟨fuel' - 1, by omega⟩
    rw [makeBetLoop, makeBetLoop]
    by_cases h1 : c.getReward (firstSegment d) argument = 0
    · rw [if_pos h1, if_pos h1]
    · rw [if_neg h1, if_neg h1]
      cases checkBetAmountLimit (toInt32 argument) (firstSegment d) with
      | none => rfl
      | some b =>
        cases b with
        | false => rfl
        | true =>
          simp only []
          cases vout[i]? with
          | none => rfl
          | some out =>
            simp only []
            by_cases h4 : out.nValue = 0
            · rw [if_pos h4, if_pos h4]
            · rw [if_neg h4, if_neg h4]
              cases hf : findPlus d with
              | none => rfl
              | some pos =>
                simp only []
                have hl := segments_length_of_some hf
                exact ih fuel'' (i + 1) _ (by omega) (by omega)

/-- After `fuel` iterations the loop of lines 374-391 has added the pairs of the first
`fuel` segments, one after the other, in 64 bits. -/
theorem payoffLoop_take (c : Collaborators) (argument argumentResult : Nat)
    (vout : List CTxOut) (fuel : Nat) :
    ∀ (i : Nat) (d : List Nat) (inAcc payoffAcc : Int),
      i + (segments d).length ≤ vout.length →
      payoffLoop c argument argumentResult vout fuel i d inAcc payoffAcc
        = .ok ((((segments d).take fuel).zip (vout.drop i)).foldl
              (fun acc p => toInt64 (acc + p.2.nValue)) inAcc,
            (((segments d).take fuel).zip (vout.drop i)).foldl
              (fun acc p =>
                if c.isWinning p.1 argument argumentResult then
                  toInt64 (acc + toInt64 (p.2.nValue * c.getReward p.1 argument))
                else acc) payoffAcc) := by
  induction fuel with
  | zero =>
    intro i d inAcc payoffAcc _
    simp only [payoffLoop, List.take_zero, List.zip_nil_left, List.foldl_nil]
  | succ fuel ih =>
    intro i d inAcc payoffAcc hlen
    have hne := segments_ne_nil d
    have hpos : 0 < (segments d).length := List.length_pos.mpr hne
    have hi : i < vout.length := by omega
    have hdrop : vout.drop i = vout[i] :: vout.drop (i + 1) := List.drop_eq_getElem_cons hi
    cases hp : findPlus d with
    | none =>
      rw [payoffLoop, hp, List.getElem?_eq_getElem hi]
      simp only [firstSegment_of_none hp, segments_of_findPlus_none hp, hdrop,
        List.take_succ_cons, List.take_nil, List.zip_cons_cons, List.zip_nil_left,
        List.foldl_cons, List.foldl_nil]
    | some pos =>
      have hseg := segments_of_findPlus_some hp
      rw [hseg, List.length_cons] at hlen
      rw [payoffLoop, hp, List.getElem?_eq_getElem hi]
      simp only []
      rw [ih (i + 1) (d.drop (pos + 1)) _ _ (by omega)]
      simp only [firstSegment_of_some hp, hseg, hdrop, List.take_succ_cons,
        List.zip_cons_cons, List.foldl_cons]

/-- After `fuel` iterations without a payoff above half the subsidy, the loop of lines
430-448 has added the payoffs of the first `fuel` segments, one after the other, in 64
bits. -/
theorem rewardLimitLoop_take (c : Collaborators) (argument : Nat) (blockSubsidy : Int)
    (vout : List CTxOut) (fuel : Nat) :
    ∀ (i : Nat) (d : List Nat) (rewardSum : Int),
      i + (segments d).length ≤ vout.length →
      (∀ p ∈ ((segments d).take fuel).zip (vout.drop i),
        toInt64 (potentialPayoff c argument p) ≤ Int.tdiv blockSubsidy 2) →
      rewardLimitLoop c argument blockSubsidy vout fuel i d rewardSum
        = .ok (true, (((segments d).take fuel).zip (vout.drop i)).foldl
            (fun acc p => toInt64 (acc + toInt64 (potentialPayoff c argument p))) rewardSum) := by
  induction fuel with
  | zero =>
    intro i d rewardSum _ _
    simp only [rewardLimitLoop, List.take_zero, List.zip_nil_left, List.foldl_nil]
  | succ fuel ih =>
    intro i d rewardSum hlen hall
    have hne := segments_ne_nil d
    have hpos : 0 < (segments d).length := List.length_pos.mpr hne
    have hi : i < vout.length := by omega
    have hdrop : vout.drop i = vout[i] :: vout.drop (i + 1) := List.drop_eq_getElem_cons hi
    rw [rewardLimitLoop, List.getElem?_eq_getElem hi]
    simp only []
    cases hp : findPlus d with
    | none =>
      rw [segments_of_findPlus_none hp, hdrop] at hall
      simp only [List.take_succ_cons, List.take_nil, List.zip_cons_cons, List.zip_nil_left,
        List.mem_singleton, forall_eq, potentialPayoff] at hall
      rw [firstSegment_of_none hp, if_neg (not_lt.mpr hall), segments_of_findPlus_none hp,
        hdrop]
      simp only [List.take_succ_cons, List.take_nil, List.zip_cons_cons, List.zip_nil_left,
        List.foldl_cons, List.foldl_nil, potentialPayoff]
    | some pos =>
      have hseg := segments_of_findPlus_some hp
      rw [hseg, List.length_cons] at hlen
      rw [hseg, hdrop] at hall
      simp only [List.take_succ_cons, List.zip_cons_cons, List.mem_cons, forall_eq_or_imp,
        potentialPayoff] at hall
      rw [firstSegment_of_some hp, if_neg (not_lt.mpr hall.1)]
      simp only []
      rw [ih (i + 1) (d.drop (pos + 1)) _ (by omega) (fun p hp' => hall.2 p hp'), hseg, hdrop]
      simp only [List.take_succ_cons, List.zip_cons_cons, List.foldl_cons, potentialPayoff]

/-- The loop of lines 548-575 gets through `fuel` iterations exactly when the first
`fuel` segments pass, each with the output of its index. -/
theorem makeBetLoop_take (c : Collaborators) (argument : Nat) (vout : List CTxOut)
    (fuel : Nat) :
    ∀ (i : Nat) (d : List Nat),
      (makeBetLoop c argument vout fuel i d = .ok true ↔
        ∀ k seg, k < fuel → (segments d)[k]? = some seg →
          SegmentPasses c argument vout (i + k) seg) := by
  induction fuel with
  | zero =>
    intro i d
    simp only [makeBetLoop, true_iff]
    intro k seg hk
    omega
  | succ fuel ih =>
    intro i d
    have h0 := firstSegment_eq_head d
    by_cases hp : SegmentPasses c argument vout i (firstSegment d)
    · rw [makeBetLoop_step hp]
      cases hf : findPlus d with
      | none =>
        simp only [true_iff]
        intro k seg _ hk
        rw [segments_of_findPlus_none hf] at hk
        cases k with
        | zero =>
          simp only [List.getElem?_cons_zero, Option.some.injEq] at hk
          rw [firstSegment_of_none hf] at hp
          rw [← hk]
          exact hp
        | succ k => simp at hk
      | some pos =>
        simp only []
        rw [ih (i + 1) (d.drop (pos + 1)), segments_of_findPlus_some hf]
        constructor
        · intro h k seg hkf hk
          cases k with
          | zero =>
            simp only [List.getElem?_cons_zero, Option.some.injEq] at hk
            rw [firstSegment_of_some hf] at hp
            rw [← hk]
            exact hp
          | succ k =>
            simp only [List.getElem?_cons_succ] at hk
            have := h k seg (by omega) hk
            rwa [Nat.add_assoc, Nat.add_comm 1 k] at this
        · intro h k seg hkf hk
          have := h (k + 1) seg (by omega) (by simpa using hk)
          rwa [Nat.add_assoc, Nat.add_comm 1 k]
    · constructor
      · intro h
        exfalso
        apply hp
        by_contra hcon
        have hstop : makeBetLoop c argument vout (fuel + 1) i d ≠ .ok true := by
          rw [makeBetLoop]
          by_cases h1 : c.getReward (firstSegment d) argument = 0
          · simp only [if_pos h1]
            exact fun e => by cases e
          · simp only [if_neg h1]
            cases h2 : checkBetAmountLimit (toInt32 argument) (firstSegment d) with
            | none => exact fun e => by cases e
            | some b =>
              cases b with
              | false => exact fun e => by cases e
              | true =>
                simp only []
                cases h3 : vout[i]? with
                | none => exact fun e => by cases e
                | some out =>
                  simp only []
                  by_cases h4 : out.nValue = 0
                  · simp only [if_pos h4]
                    exact fun e => by cases e
                  · exact absurd ⟨h1, h2, out, h3, h4⟩ hcon
        exact hstop h
      · intro h
        exfalso
        apply hp
        cases hs : segments d with
        | nil => exact absurd hs (segments_ne_nil d)
        | cons s0 rest =>
          rw [hs] at h0
          simp only [List.head?_cons, Option.some.injEq] at h0
          have := h 0 s0 (Nat.succ_pos fuel) (by rw [hs, List.getElem?_cons_zero])
          rwa [h0] at this

theorem makeBetLoop_inBounds (c : Collaborators) (argument : Nat) (vout : List CTxOut)
    (fuel : Nat) :
    ∀ (i : Nat) (d : List Nat), i + (segments d).length ≤ vout.length →
      makeBetLoop c argument vout fuel i d ≠ .error .outOfRange := by
  induction fuel with
  | zero =>
    intro i d _ h
    cases h
  | succ fuel ih =>
    intro i d hlen
    have hpos : 0 < (segments d).length := List.length_pos.mpr (segments_ne_nil d)
    have hi : i < vout.length := by omega
    rw [makeBetLoop]
    by_cases h1 : c.getReward (firstSegment d) argument = 0
    · simp only [if_pos h1]
      exact fun e => by cases e
    · simp only [if_neg h1]
      cases h2 : checkBetAmountLimit (toInt32 argument) (firstSegment d) with
      | none => exact fun e => by cases e
      | some b =>
        cases b with
        | false => exact fun e => by cases e
        | true =>
          simp only [List.getElem?_eq_getElem hi]
          by_cases h4 : vout[i].nValue = 0
          · simp only [if_pos h4]
            exact fun e => by cases e
          · simp only [if_neg h4]
            cases hf : findPlus d with
            | none => exact fun e => by cases e
            | some pos =>
              simp only []
              have hl := segments_length_of_some hf
              exact ih (i + 1) _ (by omega)

/-! ## C37: the iterations of the segment loops -/

/-- C37. A descriptor with `n` characters `'+'` has `n + 1` segments. The loops over
the segments in `isBetPayoffExceeded`, `checkPotentialRewardLimit` and `txMakeBetVerify`
have ended after `n + 1` iterations: any two bounds of at least `n + 1` iterations give
the same result, for every descriptor and whatever the checks say. While no check fails
(and every segment has an output), the first `fuel` iterations handle the first `fuel`
segments, left to right, iteration `k` pairing segment `k` with output `i + k`; the
accumulators are those of the code, each addition in 64 bits. -/
theorem segmentLoops_iterations (c : Collaborators) (argument argumentResult : Nat)
    (blockSubsidy : Int) (vout : List CTxOut) (d : List Nat) :
    (segments d).length = d.count plusChar + 1 ∧
    (∀ fuel fuel' i inAcc payoffAcc, d.count plusChar + 1 ≤ fuel →
      d.count plusChar + 1 ≤ fuel' →
      payoffLoop c argument argumentResult vout fuel i d inAcc payoffAcc
        = payoffLoop c argument argumentResult vout fuel' i d inAcc payoffAcc) ∧
    (∀ fuel fuel' i rewardSum, d.count plusChar + 1 ≤ fuel → d.count plusChar + 1 ≤ fuel' →
      rewardLimitLoop c argument blockSubsidy vout fuel i d rewardSum
        = rewardLimitLoop c argument blockSubsidy vout fuel' i d rewardSum) ∧
    (∀ fuel fuel' i, d.count plusChar + 1 ≤ fuel → d.count plusChar + 1 ≤ fuel' →
      makeBetLoop c argument vout fuel i d = makeBetLoop c argument vout fuel' i d) ∧
    (∀ fuel i inAcc payoffAcc, i + (segments d).length ≤ vout.length →
      payoffLoop c argument argumentResult vout fuel i d inAcc payoffAcc
        = .ok ((((segments d).take fuel).zip (vout.drop i)).foldl
              (fun acc p => toInt64 (acc + p.2.nValue)) inAcc,
            (((segments d).take fuel).zip (vout.drop i)).foldl
              (fun acc p =>
                if c.isWinning p.1 argument argumentResult then
                  toInt64 (acc + toInt64 (p.2.nValue * c.getReward p.1 argument))
                else acc) payoffAcc)) ∧
    (∀ fuel i rewardSum, i + (segments d).length ≤ vout.length →
      (∀ p ∈ ((segments d).take fuel).zip (vout.drop i),
        toInt64 (potentialPayoff c argument p) ≤ Int.tdiv blockSubsidy 2) →
      rewardLimitLoop c argument blockSubsidy vout fuel i d rewardSum
        = .ok (true, (((segments d).take fuel).zip (vout.drop i)).foldl
            (fun acc p => toInt64 (acc + toInt64 (potentialPayoff c argument p)))
            rewardSum)) ∧
    (∀ fuel i, makeBetLoop c argument vout fuel i d = .ok true ↔
      ∀ k seg, k < fuel → (segments d)[k]? = some seg →
        SegmentPasses c argument vout (i + k) seg) := by
  have hl := segments_length d
  refine ⟨hl, ?_, ?_, ?_, ?_, ?_, ?_⟩
  · intro fuel fuel' i inAcc payoffAcc h h'
    exact payoffLoop_fuel c argument argumentResult vout fuel fuel' i d inAcc payoffAcc
      (by omega) (by omega)
  · intro fuel fuel' i rewardSum h h'
    exact rewardLimitLoop_fuel c argument blockSubsidy vout fuel fuel' i d rewardSum
      (by omega) (by omega)
  · intro fuel fuel' i h h'
    exact makeBetLoop_fuel c argument vout fuel fuel' i d (by omega) (by omega)
  · intro fuel i inAcc payoffAcc h
    exact payoffLoop_take c argument argumentResult vout fuel i d inAcc payoffAcc h
  · intro fuel i rewardSum h hall
    exact rewardLimitLoop_take c argument blockSubsidy vout fuel i d rewardSum h hall
  · intro fuel i
    exact makeBetLoop_take c argument vout fuel i d

/-- Witness of C37: the descriptor `1+2` of the transaction of 700 and 250; one
iteration of the loop of `isBetPayoffExceeded` handles the segment `1`, two iterations
handle both segments, and a third changes nothing. -/
theorem segmentLoops_iterations_witness :
    (segments [49, 43, 50]).length = 1 + 1 ∧
    payoffLoop (scenario 36 3) 36 7 twoBetTx.vout 1 0 [49, 43, 50] 0 0 = .ok (700, 2100) ∧
    payoffLoop (scenario 36 3) 36 7 twoBetTx.vout 2 0 [49, 43, 50] 0 0 = .ok (950, 2100) ∧
    payoffLoop (scenario 36 3) 36 7 twoBetTx.vout 3 0 [49, 43, 50] 0 0
      = payoffLoop (scenario 36 3) 36 7 twoBetTx.vout 2 0 [49, 43, 50] 0 0 :=
  ⟨(segmentLoops_iterations (scenario 36 3) 36 7 1000 twoBetTx.vout [49, 43, 50]).1.trans
      (by decide),
    ((segmentLoops_iterations (scenario 36 3) 36 7 1000 twoBetTx.vout [49, 43, 50]).2.2.2.2.1
      1 0 0 0 (by decide)).trans rfl,
    ((segmentLoops_iterations (scenario 36 3) 36 7 1000 twoBetTx.vout [49, 43, 50]).2.2.2.2.1
      2 0 0 0 (by decide)).trans rfl,
    (segmentLoops_iterations (scenario 36 3) 36 7 1000 twoBetTx.vout [49, 43, 50]).2.1
      3 2 0 0 0 (by decide) (by decide)⟩

/-! ## C39: the outputs paired with the segments exist -/

theorem take_segments (d : List Nat) : (segments d).take (d.length + 1) = segments d := by
  apply List.take_of_length_le
  rw [segments_length]
  have := List.count_le_length plusChar d
  omega

theorem mem_betPairs_iff {d : List Nat} {vout : List CTxOut} {p : List Nat × CTxOut} :
    p ∈ betPairs d vout ↔ ∃ k : Nat, (segments d)[k]? = some p.1 ∧ vout[k]? = some p.2 := by
  unfold betPairs
  rw [List.mem_iff_getElem?]
  constructor
  · rintro ⟨k, hk⟩
    exact ⟨k, List.getElem?_zip_eq_some.mp hk⟩
  · rintro ⟨k, hk⟩
    exact ⟨k, List.getElem?_zip_eq_some.mpr hk⟩

/-- C39. In each of the three loops segment `k` of the descriptor is handled with
`vout[k]`: when the descriptor has at most as many segments as the transaction has
outputs, every segment has its output, the pairs are the list `betPairs`, and none of the
loops reads past the end of `vout`.  The loop of `isBetPayoffExceeded` returns the
accumulators after the pairs; the loop of `checkPotentialRewardLimit` returns, with true
exactly when the payoff of every pair is at most half the subsidy, and then with the
payoffs of the pairs added to `rewardSum`; the loop of `txMakeBetVerify` does not end in
an out-of-range read and returns true exactly when every pair has a nonzero reward, a
passing amount check and a nonzero value. -/
theorem segmentLoops_in_bounds (c : Collaborators) (argument argumentResult : Nat)
    (blockSubsidy : Int) (vout : List CTxOut) (d : List Nat) (inAcc payoffAcc rewardSum : Int)
    (h : (segments d).length ≤ vout.length) :
    (∀ (k : Nat) (seg : List Nat), (segments d)[k]? = some seg →
      ∃ out : CTxOut, vout[k]? = some out ∧ (betPairs d vout)[k]? = some (seg, out)) ∧
    payoffLoop c argument argumentResult vout (d.length + 1) 0 d inAcc payoffAcc
      = .ok ((betPairs d vout).foldl (fun acc p => toInt64 (acc + p.2.nValue)) inAcc,
          (betPairs d vout).foldl
            (fun acc p =>
              if c.isWinning p.1 argument argumentResult then
                toInt64 (acc + toInt64 (p.2.nValue * c.getReward p.1 argument))
              else acc) payoffAcc) ∧
    (∃ b rs, rewardLimitLoop c argument blockSubsidy vout (d.length + 1) 0 d rewardSum
        = .ok (b, rs) ∧
      (b = true ↔ ∀ p ∈ betPairs d vout,
        toInt64 (potentialPayoff c argument p) ≤ Int.tdiv blockSubsidy 2) ∧
      (b = true → rs = toInt64 (rewardSum
        + ((betPairs d vout).map (potentialPayoff c argument)).sum))) ∧
    (makeBetLoop c argument vout (d.length + 1) 0 d ≠ .error .outOfRange ∧
      (makeBetLoop c argument vout (d.length + 1) 0 d = .ok true ↔
        ∀ p ∈ betPairs d vout, c.getReward p.1 argument ≠ 0 ∧
          checkBetAmountLimit (toInt32 argument) p.1 = some true ∧ p.2.nValue ≠ 0)) := by
  have hpair : ∀ (k : Nat) (seg : List Nat), (segments d)[k]? = some seg →
      ∃ out : CTxOut, vout[k]? = some out ∧ (betPairs d vout)[k]? = some (seg, out) := by
    intro k seg hk
    have hlt : k < (segments d).length := by
      by_contra hc
      rw [List.getElem?_eq_none (by omega)] at hk
      cases hk
    have hk' : k < vout.length := by omega
    refine ⟨vout[k], List.getElem?_eq_getElem hk', ?_⟩
    unfold betPairs
    rw [List.getElem?_zip_eq_some]
    exact ⟨hk, List.getElem?_eq_getElem hk'⟩
  refine ⟨hpair, ?_, ?_, ?_, ?_⟩
  · have := payoffLoop_take c argument argumentResult vout (d.length + 1) 0 d inAcc payoffAcc
      (by omega)
    rw [List.drop_zero, take_segments] at this
    exact this
  · obtain ⟨b, rs, hl, hb1, hb2⟩ := rewardLimitLoop_spec c argument blockSubsidy vout
      (d.length + 1) 0 d rewardSum (Nat.lt_succ_self _) (by omega)
    rw [List.drop_zero] at hb1 hb2
    exact ⟨b, rs, hl, hb1, hb2⟩
  · exact makeBetLoop_inBounds c argument vout (d.length + 1) 0 d (by omega)
  · rw [makeBetLoop_take]
    constructor
    · intro hall p hp
      obtain ⟨k, hk1, hk2⟩ := mem_betPairs_iff.mp hp
      have hlt : k < (segments d).length := by
        by_contra hc
        rw [List.getElem?_eq_none (by omega)] at hk1
        cases hk1
      have hfuel : k < d.length + 1 := by
        rw [segments_length] at hlt
        have := List.count_le_length plusChar d
        omega
      obtain ⟨h1, h2, out, h3, h4⟩ := hall k p.1 hfuel hk1
      rw [Nat.zero_add, hk2] at h3
      cases h3
      exact ⟨h1, h2, h4⟩
    · intro hall k seg _ hk
      obtain ⟨out, ho, hp⟩ := hpair k seg hk
      obtain ⟨h1, h2, h3⟩ := hall (seg, out) (mem_betPairs_iff.mpr ⟨k, hk, ho⟩)
      exact ⟨h1, h2, out, by rw [Nat.zero_add]; exact ho, h3⟩

/-- Witness of C39: the descriptor `1+2` on the transaction with three outputs, 700 on
the winning segment `1` and 250 on the segment `2`, at reward 3. -/
theorem segmentLoops_in_bounds_witness :
    (segments [49, 43, 50]).length ≤ twoBetTx.vout.length ∧
    betPairs [49, 43, 50] twoBetTx.vout = [([49], ⟨700, p2shScript⟩), ([50], ⟨250, p2shScript⟩)] ∧
    payoffLoop (scenario 36 3) 36 7 twoBetTx.vout ([49, 43, 50].length + 1) 0 [49, 43, 50] 0 0
      = .ok ((betPairs [49, 43, 50] twoBetTx.vout).foldl
            (fun acc p => toInt64 (acc + p.2.nValue)) 0,
          (betPairs [49, 43, 50] twoBetTx.vout).foldl
            (fun acc p =>
              if (scenario 36 3).isWinning p.1 36 7 then
                toInt64 (acc + toInt64 (p.2.nValue * (scenario 36 3).getReward p.1 36))
              else acc) 0) ∧
    (∃ b rs, rewardLimitLoop (scenario 36 3) 36 5000 twoBetTx.vout ([49, 43, 50].length + 1) 0
        [49, 43, 50] 0 = .ok (b, rs) ∧
      (b = true ↔ ∀ p ∈ betPairs [49, 43, 50] twoBetTx.vout,
        toInt64 (potentialPayoff (scenario 36 3) 36 p) ≤ Int.tdiv 5000 2) ∧
      (b = true → rs = toInt64 (0
        + ((betPairs [49, 43, 50] twoBetTx.vout).map (potentialPayoff (scenario 36 3) 36)).sum))) ∧
    (makeBetLoop (scenario 36 3) 36 twoBetTx.vout ([49, 43, 50].length + 1) 0 [49, 43, 50]
        ≠ .error .outOfRange ∧
      (makeBetLoop (scenario 36 3) 36 twoBetTx.vout ([49, 43, 50].length + 1) 0 [49, 43, 50]
          = .ok true ↔
        ∀ p ∈ betPairs [49, 43, 50] twoBetTx.vout, (scenario 36 3).getReward p.1 36 ≠ 0 ∧
          checkBetAmountLimit (toInt32 36) p.1 = some true ∧ p.2.nValue ≠ 0)) :=
  ⟨by decide, by decide,
    (segmentLoops_in_bounds (scenario 36 3) 36 7 5000 twoBetTx.vout [49, 43, 50] 0 0 0
      (by decide)).2⟩

/-! ## Lemmas on the bytes that `isInputBet` does not read -/

theorem filterCompare_set_wildcard {bs mask : List Nat} (h : filterCompare bs mask = true)
    (j b : Nat) (hm : mask.getD j 0 = 0xFF) : filterCompare (bs.set j b) mask = true := by
  rw [filterCompare_iff] at h ⊢
  obtain ⟨hl, hall⟩ := h
  refine ⟨by rw [List.length_set]; exact hl, ?_⟩
  intro i hi
  by_cases hij : i = j
  · subst hij
    exact Or.inl hm
  · rw [getD_set_ne bs j b i hij]
    exact hall i hi

/-- The scratch array that enters the loop of lines 68-91 does not matter for the
iterator and the numbers it ends with. -/
theorem betLoop_chunk {s : List Nat} :
    ∀ (k : Nat) (c : Int) (chunk chunk' : List Nat) (acc : List Int) (c' : Int)
      (ch : List Nat) (nums : List Int), betLoop s k c chunk acc = .ok (c', ch, nums) →
      ∃ ch', betLoop s k c chunk' acc = .ok (c', ch', nums) := by
  intro k
  induction k with
  | zero =>
    intro c chunk chunk' acc c' ch nums h
    simp only [betLoop, Except.ok.injEq, Prod.mk.injEq] at h
    obtain ⟨rfl, -, rfl⟩ := h
    exact ⟨chunk', rfl⟩
  | succ k ih =>
    intro c chunk chunk' acc c' ch nums h
    rw [betLoop_succ] at h
    simp only [bind_ok_iff, guard_ok_iff] at h
    obtain ⟨bytes, h1, hf, x, h2, b0, h3, hdup, hrec⟩ := h
    simp only [Bool.not_eq_true', Bool.not_eq_false] at hf
    simp only [ne_eq, not_not] at hdup
    subst hdup
    rw [filterCompare_overwrite chunk bytes byte_mask2 (copy_n_ok h1).1] at hf
    have hf' : filterCompare (overwrite chunk' bytes) byte_mask2 = true := by
      rw [filterCompare_overwrite chunk' bytes byte_mask2 (copy_n_ok h1).1]
      exact hf
    obtain ⟨ch', hrec'⟩ := ih _ _ (overwrite chunk' bytes) _ _ _ _ hrec
    refine ⟨ch', ?_⟩
    rw [betLoop_succ]
    simp only [h1, hf', h2, h3, bind, Except.bind, Bool.not_true, Bool.false_eq_true,
      if_false, ne_eq, not_true_eq_false, hrec']

/-- Lines 93-127 succeed when the two closing templates match and the iterators meet,
whatever the scratch array holds. -/
theorem isInputBetTail_of {s : List Nat} {c : Int} {m3 m4 : List Nat}
    (h1 : copy_n s (c - 3) 3 = .ok m3) (hf3 : filterCompare m3 byte_mask3 = true)
    (h2 : copy_n s (c - (3 + 21) - 2) 2 = .ok m4) (hf4 : filterCompare m4 byte_mask4 = true)
    (hfw : forwardCursor s = .ok (c - (3 + 21) - 2)) (chunk : List Nat) (N : Nat)
    (nums : List Int) :
    isInputBetTail s c chunk N nums = .ok (N, nums) := by
  have hf3' : filterCompare (overwrite chunk m3) byte_mask3 = true := by
    rw [filterCompare_overwrite chunk m3 byte_mask3 (copy_n_ok h1).1]
    exact hf3
  have hf4' : filterCompare (overwrite (overwrite chunk m3) m4) byte_mask4 = true := by
    rw [filterCompare_overwrite _ m4 byte_mask4 (copy_n_ok h2).1]
    exact hf4
  unfold isInputBetTail
  simp only [guard_eq]
  simp only [h1, hf3', h2, hf4', hfw, bind, Except.bind, Bool.not_true, Bool.false_eq_true,
    if_false, ne_eq, not_true_eq_false, pure, Except.pure]

theorem isInputBetTail_facts {s : List Nat} {c : Int} {chunk : List Nat} {N : Nat}
    {nums : List Int} {r : Nat × List Int} (h : isInputBetTail s c chunk N nums = .ok r) :
    r = (N, nums) ∧ ∃ m3 m4,
      copy_n s (c - 3) 3 = .ok m3 ∧ filterCompare m3 byte_mask3 = true ∧
      copy_n s (c - (3 + 21) - 2) 2 = .ok m4 ∧ filterCompare m4 byte_mask4 = true ∧
      forwardCursor s = .ok (c - (3 + 21) - 2) := by
  obtain ⟨hr, m3, m4, h1, hf3, h2, hf4, hfw⟩ := isInputBetTail_ok h
  rw [filterCompare_overwrite chunk m3 byte_mask3 (copy_n_ok h1).1] at hf3
  rw [filterCompare_overwrite _ m4 byte_mask4 (copy_n_ok h2).1] at hf4
  exact ⟨hr, m3, m4, h1, hf3, h2, hf4, hfw⟩

theorem isInputBetMid_of {s : List Nat} {c c' : Int} {chunk ch : List Nat} {N : Nat}
    {x : List Nat} {nums : List Int} {r : Nat × List Int}
    (h1 : rd s c = .ok OP_EQUALVERIFY) (h2 : copy_n s (c - 4) 4 = .ok x)
    (h3 : betLoop s (N - 1) (c - 5) chunk [array2type x] = .ok (c', ch, nums))
    (h4 : isInputBetTail s c' ch N nums = .ok r) :
    isInputBetMid s c chunk N = .ok r := by
  unfold isInputBetMid
  simp only [guard_eq]
  simp only [h1, h2, h3, h4, bind, Except.bind, ne_eq, not_true_eq_false, if_false]

/-- The scratch array that enters lines 54-127 does not matter. -/
theorem isInputBetMid_chunk {s : List Nat} {c : Int} {chunk : List Nat} {N : Nat}
    {r : Nat × List Int} (h : isInputBetMid s c chunk N = .ok r) (chunk' : List Nat) :
    isInputBetMid s c chunk' N = .ok r := by
  obtain ⟨x, c', ch, nums, h1, h2, h3, h4⟩ := isInputBetMid_ok h
  obtain ⟨ch', h3'⟩ := betLoop_chunk _ _ _ chunk' _ _ _ _ h3
  obtain ⟨hr, m3, m4, t1, t2, t3, t4, t5⟩ := isInputBetTail_facts h4
  subst hr
  exact isInputBetMid_of h1 h2 h3' (isInputBetTail_of t1 t2 t3 t4 t5 ch' N nums)

/-- The loop of lines 68-91 does not read the byte in front of a number field, nor a
byte outside the links. -/
theorem betLoop_set_unread (s : List Nat) (p b : Nat) :
    ∀ (k : Nat) (c : Int) (chunk : List Nat) (acc : List Int),
      ((p : Int) < c - 11 * k ∨ c ≤ p ∨
        ∃ q : Nat, q < 11 * k ∧ q % 11 = 9 ∧ (p : Int) = c - 1 - q) →
      betLoop (s.set p b) k c chunk acc = betLoop s k c chunk acc := by
  intro k
  induction k with
  | zero => intro c chunk acc _; rfl
  | succ k ih =>
    intro c chunk acc h
    have hreads : ((p : Int) < c - 11 ∨ c ≤ p ∨ (p : Int) = c - 10) := by
      rcases h with h | h | ⟨q, hq, hq9, hpq⟩
      · left; push_cast at h; omega
      · right; left; exact h
      · by_cases hq11 : q < 11
        · right; right; omega
        · left; omega
    have hrec : ((p : Int) < c - 5 - (4 + 2) - 11 * k ∨ c - 5 - (4 + 2) ≤ p ∨
        ∃ q : Nat, q < 11 * k ∧ q % 11 = 9 ∧ (p : Int) = c - 5 - (4 + 2) - 1 - q) := by
      rcases h with h | h | ⟨q, hq, hq9, hpq⟩
      · left; push_cast at h; omega
      · right; left; omega
      · by_cases hq11 : q < 11
        · right; left; omega
        · right; right
          exact ⟨q - 11, by omega, by omega, by omega⟩
    have ih' := fun chunk acc => ih (c - 5 - (4 + 2)) chunk acc hrec
    rw [betLoop_succ, betLoop_succ,
      copy_n_set_outside s p b 5 (c - 5) (by push_cast; omega),
      copy_n_set_outside s p b 4 (c - 5 - 4) (by push_cast; omega),
      rd_set_ne s p b (c - 5 - (4 + 2)) (by omega)]
    simp only [ih']

/-- The forward pass of lines 113-121 reads in front of the iterator it ends with. -/
theorem forwardCursor_set_outside {s : List Nat} {f : Int} (p b : Nat)
    (h : forwardCursor s = .ok f) (hp : f ≤ p) : forwardCursor (s.set p b) = .ok f := by
  unfold forwardCursor at h ⊢
  simp only [bind_ok_iff] at h
  obtain ⟨b1, h1, b2, h2, b3, h3, b4, h4, h⟩ := h
  simp only [pure, Except.pure, Except.ok.injEq] at h
  have hf : (0 : Int) + ((b1 : Int) + 1) + ((b2 : Int) + 1) + ((b3 : Int) + 1) < f := by
    rw [← h]
    split_ifs <;> omega
  have e1 : rd (s.set p b) 0 = .ok b1 := by
    rw [rd_set_ne s p b 0 (by omega)]; exact h1
  have e2 : rd (s.set p b) (0 + ((b1 : Int) + 1)) = .ok b2 := by
    rw [rd_set_ne s p b _ (by omega)]; exact h2
  have e3 : rd (s.set p b) (0 + ((b1 : Int) + 1) + ((b2 : Int) + 1)) = .ok b3 := by
    rw [rd_set_ne s p b _ (by omega)]; exact h3
  have e4 : rd (s.set p b) (0 + ((b1 : Int) + 1) + ((b2 : Int) + 1) + ((b3 : Int) + 1))
      = .ok b4 := by
    rw [rd_set_ne s p b _ (by omega)]; exact h4
  simp only [e1, e2, e3, e4, bind, Except.bind, pure, Except.pure, Except.ok.injEq]
  exact h

/-- Lines 93-127 read neither the public-key-hash region nor a byte behind them. -/
theorem isInputBetTail_set_unread {s : List Nat} {p b : Nat} {c : Int} {chunk : List Nat}
    {N : Nat} {nums : List Int} {r : Nat × List Int}
    (h : isInputBetTail s c chunk N nums = .ok r)
    (hp : c ≤ p ∨ (c - 24 ≤ p ∧ (p : Int) ≤ c - 4)) :
    isInputBetTail (s.set p b) c chunk N nums = .ok r := by
  obtain ⟨hr, m3, m4, t1, t2, t3, t4, t5⟩ := isInputBetTail_facts h
  subst hr
  refine isInputBetTail_of ?_ t2 ?_ t4 (forwardCursor_set_outside p b t5 (by omega)) chunk N nums
  · rw [copy_n_set_outside s p b 3 (c - 3) (by push_cast; omega)]
    exact t1
  · rw [copy_n_set_outside s p b 2 (c - (3 + 21) - 2) (by push_cast; omega)]
    exact t3

/-- Lines 54-127 read neither a byte behind `OP_EQUALVERIFY`, nor the byte in front of a
number field, nor the public-key-hash region. -/
theorem isInputBetMid_set_unread {s : List Nat} {p b : Nat} {c : Int} {chunk : List Nat}
    {N : Nat} {r : Nat × List Int} (h : isInputBetMid s c chunk N = .ok r)
    (hp : c < p ∨ (p : Int) = c - 5 ∨
      (∃ q : Nat, q < 11 * (N - 1) ∧ q % 11 = 9 ∧ (p : Int) = c - 5 - 1 - q) ∨
      (c - 5 - 11 * (N - 1 : Nat) - 24 ≤ p ∧ (p : Int) ≤ c - 5 - 11 * (N - 1 : Nat) - 4)) :
    isInputBetMid (s.set p b) c chunk N = .ok r := by
  obtain ⟨x, c', ch, nums, h1, h2, h3, h4⟩ := isInputBetMid_ok h
  obtain ⟨hc', -⟩ := betLoop_cursor _ _ _ _ _ _ _ h3
  refine @isInputBetMid_of _ _ c' _ ch _ x nums _ ?_ ?_ ?_ ?_
  · rw [rd_set_ne s p b c (by
      rcases hp with hp | hp | ⟨q, hq, -, hp⟩ | ⟨-, hp⟩ <;> omega)]
    exact h1
  · rw [copy_n_set_outside s p b 4 (c - 4) (by
      rcases hp with hp | hp | ⟨q, hq, -, hp⟩ | ⟨-, hp⟩ <;> push_cast <;> omega)]
    exact h2
  · rw [betLoop_set_unread s p b (N - 1) (c - 5) chunk _ (by
      rcases hp with hp | hp | ⟨q, hq, hq9, hp⟩ | ⟨-, hp⟩
      · right; left; omega
      · right; left; omega
      · right; right; exact ⟨q, hq, hq9, hp⟩
      · left; omega)]
    exact h3
  · refine isInputBetTail_set_unread h4 ?_
    rcases hp with hp | hp | ⟨q, hq, -, hp⟩ | ⟨hp1, hp2⟩
    · left; omega
    · left; omega
    · left; omega
    · right; omega

/-- Changing one byte that no check reads leaves the body of `isInputBet` with the same
count and the same numbers. -/
theorem isInputBetBody_set_unchecked {s : List Nat} {N : Nat} {nums : List Int} {p : Nat}
    (h : isInputBetBody s = .ok (N, nums)) (hp : p < s.length)
    (hu : uncheckedByte N (s.length - p) = true) (b : Nat) :
    isInputBetBody (s.set p b) = .ok (N, nums) := by
  obtain ⟨hN1, _, -, hlen⟩ := isInputBetBody_length h
  obtain ⟨w, k, hw, hfw, hcount, hmid⟩ := isInputBetBody_ok h
  have hNk := isInputBetBody_count hmid
  subst hNk
  simp only [uncheckedByte, decide_eq_true_iff] at hu
  by_cases hwin : 2 ≤ s.length - p ∧ s.length - p ≤ 6
  · obtain ⟨j, hj⟩ : ∃ j, j = 10 - (s.length - p) := ⟨_, rfl⟩
    have hw' : copy_n (s.set p b) ((s.length : Int) - 10) 10 = .ok (w.set j b) :=
      copy_n_set_inside s p b hp 10 _ w j hw (by omega) (by omega)
    have hmask : byte_mask.getD j 0 = 0xFF := by
      have h4 : 4 ≤ j := by omega
      have h8 : j ≤ 8 := by omega
      interval_cases j <;> decide
    have hfw' := filterCompare_set_wildcard hfw j b hmask
    have hcount' := countLoop_set_outside p b hcount (Or.inr (by omega))
    have hmid' := isInputBetMid_chunk
      (isInputBetMid_set_unread (p := p) (b := b) hmid (Or.inl (by omega))) (w.set j b)
    rw [isInputBetBody_eq, List.length_set]
    simp only [guard_eq]
    simp only [hw', hfw', hcount', hmid', bind, Except.bind, Bool.not_true,
      Bool.false_eq_true, if_false]
  · have hd : 17 + k ≤ s.length - p := by
      rcases hu with h1 | h1 | h1 | h1
      · exact absurd h1 hwin
      · omega
      · omega
      · omega
    have hw' : copy_n (s.set p b) ((s.length : Int) - 10) 10 = .ok w := by
      rw [copy_n_set_outside s p b 10 _ (Or.inl (by omega))]; exact hw
    have hcount' := countLoop_set_outside p b hcount (Or.inl (by omega))
    have hmid' := isInputBetMid_set_unread (p := p) (b := b) hmid (by
      rcases hu with h1 | h1 | h1 | ⟨h1, h2, h3⟩
      · exact absurd h1 hwin
      · right; right; right
        simp only [Nat.add_sub_cancel]
        omega
      · right; left; omega
      · right; right; left
        refine ⟨s.length - p - (17 + (k + 1)), ?_, h3, ?_⟩
        · simp only [Nat.add_sub_cancel]; omega
        · omega)
    rw [isInputBetBody_eq, List.length_set]
    simp only [guard_eq]
    simp only [hw', hfw, hcount', hmid', bind, Except.bind, Bool.not_true,
      Bool.false_eq_true, if_false]

theorem set_getD_self (l : List Nat) : ∀ k : Nat, l.set k (l.getD k 0) = l := by
  induction l with
  | nil => intro k; rfl
  | cons a t ih =>
    intro k
    cases k with
    | zero => rfl
    | succ k =>
      simp only [List.set_cons_succ, List.getD_cons_succ, ih k]

theorem hybrid_succ : ∀ (k : Nat) (s s' : List Nat), s'.length = s.length → k < s.length →
    s'.take (k + 1) ++ s.drop (k + 1) = (s'.take k ++ s.drop k).set k (s'.getD k 0) := by
  intro k
  induction k with
  | zero =>
    intro s s' hl hk
    cases s with
    | nil => simp at hk
    | cons a t =>
      cases s' with
      | nil => simp at hl
      | cons a' t' => simp
  | succ k ih =>
    intro s s' hl hk
    cases s with
    | nil => simp at hk
    | cons a t =>
      cases s' with
      | nil => simp at hl
      | cons a' t' =>
        simp only [List.length_cons, Nat.add_right_cancel_iff] at hl
        simp only [List.length_cons, Nat.add_lt_add_iff_right] at hk
        simp only [List.take_succ_cons, List.drop_succ_cons, List.cons_append,
          List.set_cons_succ, List.getD_cons_succ, ih t t' hl hk]

theorem hybrid_getD (k : Nat) (s s' : List Nat) (hl : s'.length = s.length) (hk : k < s.length) :
    (s'.take k ++ s.drop k).getD k 0 = s.getD k 0 := by
  rw [List.getD_eq_getElem?_getD, List.getD_eq_getElem?_getD,
    List.getElem?_append_right (by rw [List.length_take]; omega), List.length_take,
    List.getElem?_drop]
  congr 2
  omega

/-! ## C36: the bytes that `isInputBet` does not check -/

/-- C36. If `isInputBet` accepts a scriptSig `s` with the count `N` and the numbers
`nums`, it accepts with the same count and the same numbers every scriptSig `s'` of the
same length that differs from `s` only at positions that no check reads: the five
wildcard bytes of the trailing window, the 21 bytes of the public-key-hash region, and
the byte in front of a 4-byte number field. -/
theorem isInputBet_unchecked_bytes (s s' : List Nat) (num0 N : Nat) (bets0 nums : List Int)
    (h : isInputBet s num0 bets0 = some ⟨true, N, nums⟩)
    (hlen : s'.length = s.length)
    (hdiff : ∀ p, p < s.length → s'.getD p 0 ≠ s.getD p 0 →
      uncheckedByte N (s.length - p) = true) :
    isInputBet s' num0 bets0 = some ⟨true, N, nums⟩ := by
  obtain ⟨-, -, appended, hn, -, hb⟩ := isInputBet_accept_facts h
  have hstep : ∀ k, k ≤ s.length →
      isInputBetBody (s'.take k ++ s.drop k) = .ok (N, appended) := by
    intro k
    induction k with
    | zero => intro _; simpa using hb
    | succ k ih =>
      intro hk
      have hprev := ih (by omega)
      have hl : (s'.take k ++ s.drop k).length = s.length := by
        rw [List.length_append, List.length_take, List.length_drop]
        omega
      rw [hybrid_succ k s s' hlen (by omega)]
      by_cases heq : s'.getD k 0 = s.getD k 0
      · rw [heq, ← hybrid_getD k s s' hlen (by omega), set_getD_self]
        exact hprev
      · exact isInputBetBody_set_unchecked hprev (by omega)
          (by rw [hl]; exact hdiff k (by omega) heq) _
  have hfin := hstep s.length (le_refl _)
  rw [List.drop_length, List.append_nil, ← hlen, List.take_length] at hfin
  rw [isInputBet_of_body_ok hfin num0 bets0, hn]

set_option maxRecDepth 100000 in
/-- Witness of C36: the one-wager scriptSig of the scenarios with another public-key
hash, another push byte in front of the number and other bytes at the wildcard
positions. -/
theorem isInputBet_unchecked_bytes_witness :
    isInputBet
        (betScriptSig [7, 0, 0, 0] [1] [2] (List.replicate 21 200) [] (77, [5, 0, 0, 0])
          [1, 2, 3, 4, 5]) 0 []
      = some ⟨true, 1, [5]⟩ :=
  isInputBet_unchecked_bytes oneBetScriptSig
    (betScriptSig [7, 0, 0, 0] [1] [2] (List.replicate 21 200) [] (77, [5, 0, 0, 0])
      [1, 2, 3, 4, 5]) 0 1 [] [5] (by decide) (by decide) (by decide)

end Bst
